import Mathlib

/-!
# djsonapi — verification of the specification against the source

Shallow embedding of the `djsonapi` package (a JSON:API engine for Django)
and of the example `articles` application, together with theorems settling
the claims about the specification.

Conventions of the embedding:

* Python dicts are association lists `List (String × Val)`; a real Python
  dict never holds a duplicate key, so theorems that need it take a
  `Nodup` hypothesis on the key list.
* Mutation of a freshly `deepcopy`-ed object is rendered as explicit
  value passing: `deepcopy` is the identity on values, and each in-place
  update becomes a functional update of the copy.  (A separate heap model
  at the end of the file treats the aliasing/frame claims.)
* Fallible Python code returns `Except`: `PyErr` stands for the built-in
  exception classes, `Err` adds the library's own `DjsonApiException`s.
* Django's `reverse` is an opaque total parameter
  `rev : String → String → Option String` (route name, rendered
  `obj_id` argument); `NoReverseMatch` is `none`.
-/

namespace Djsonapi

/-- Python built-in exceptions raised by the embedded code. -/
inductive PyErr where
  | keyError
  | typeError
  | attributeError
  | valueError
  | importError
  | recursionError
  deriving Repr, DecidableEq

/-- Python values appearing in serialized documents: `None`, booleans,
ints, strings, lists, dicts, and `Resource` wrapper instances (which the
code only ever inspects through `item.TYPE` and `str(item.obj)`, recorded
here as the two string fields). -/
inductive Val where
  | null
  | bool (b : Bool)
  | int (n : Int)
  | str (s : String)
  | list (xs : List Val)
  | dict (entries : List (String × Val))
  | res (type objStr : String)
  deriving Repr, BEq

/-- Entries of a dict value. -/
abbrev Entries := List (String × Val)

/-- `d[k]` as a lookup: first entry with the key (Python dicts are
duplicate-free, so "first" is faithful). -/
def dget (es : Entries) (k : String) : Option Val :=
  (es.find? (fun e => e.1 = k)).map (·.2)

/-- `k in d`. -/
def dcontains (es : Entries) (k : String) : Bool :=
  es.any (fun e => e.1 = k)

/-- `d[k] = v`: replace in place when the key exists (Python keeps the
original insertion position), append otherwise. -/
def dset : Entries → String → Val → Entries
  | [], k, v => [(k, v)]
  | (k', v') :: es, k, v =>
      if k' = k then (k, v) :: es else (k', v') :: dset es k v

/-- `del d[k]` (the embedded code only deletes keys it has checked). -/
def ddel : Entries → String → Entries
  | [], _ => []
  | (k', v') :: es, k => if k' = k then es else (k', v') :: ddel es k

/-- `d.setdefault(k, v)` restricted to its effect on the dict. -/
def dsetdefaultD (es : Entries) (k : String) (v : Val) : Entries :=
  if dcontains es k then es else es ++ [(k, v)]

/-- Python `set(...)` of a list of strings: de-duplicate.  Only the
membership, cardinality and "all equal" views of the result are used, so
the (unspecified) iteration order of a Python set is modelled by keeping
first occurrences. -/
def pySet (l : List String) : List String :=
  l.foldl (fun acc x => if x ∈ acc then acc else acc ++ [x]) []

/-! ## exceptions.py -/

/-- `class_name_to_title`: `'NotFound' => 'Not found'`.  The join,
leading-blank strip and first-letter capitalization are written on the
character list so that the kernel can evaluate them. -/
def class_name_to_title (text : String) : String :=
  let chars := text.toList.flatMap (fun c =>
    if c.isUpper then [' ', c.toLower] else [c])
  let chars := match chars with
    | ' ' :: rest => rest
    | l => l
  match chars with
  | [] => String.mk []
  | c :: rest => String.mk (c.toUpper :: rest)

/-- `class_name_to_code`: `'NotFound' => 'not_found'`. -/
def class_name_to_code (text : String) : String :=
  let chars := text.toList.flatMap (fun c =>
    if c.isUpper then ['_', c.toLower] else [c])
  match chars with
  | '_' :: rest => String.mk rest
  | l => String.mk l

/-- The class-level constants of a `DjsonApiExceptionSingle` subclass. -/
structure ExcCls where
  name : String
  STATUS : Nat
  CODE : Option String
  TITLE : Option String
  DETAIL : String
  SOURCE : Option (String × String)
  deriving Repr, DecidableEq

def ServerErrorCls : ExcCls :=
  ⟨"ServerError", 500, none, none, "Something went wrong", none⟩

def BadRequestCls : ExcCls :=
  ⟨"BadRequest", 400, none, none, "Something went wrong", none⟩

def NotFoundCls : ExcCls :=
  ⟨"NotFound", 404, none, none, "Something went wrong", none⟩

def ConflictCls : ExcCls :=
  ⟨"Conflict", 409, none, none, "Something went wrong", none⟩

/-- An instance of a single exception: the class plus the `(title,
detail, source)` argument triple fixed by `__init__`. -/
structure SingleExc where
  cls : ExcCls
  title : String
  detail : String
  source : Option (String × String)
  deriving Repr, DecidableEq

/-- `DjsonApiExceptionSingle.__init__`. -/
def mkSingle (cls : ExcCls) (detail? : Option String)
    (title? : Option String) (source? : Option (String × String)) :
    SingleExc :=
  { cls := cls
    detail := detail?.getD cls.DETAIL
    title := title?.getD (cls.TITLE.getD (class_name_to_title cls.name))
    source := match source? with
      | none => cls.SOURCE
      | some s => some s }

/-- One rendered member of an `errors` array. -/
structure ErrorEntry where
  status : String
  code : String
  title : String
  detail : String
  source : Option (String × String)
  deriving Repr, DecidableEq

/-- `DjsonApiExceptionSingle.render`. -/
def renderSingle (e : SingleExc) : List ErrorEntry :=
  [{ status := toString e.cls.STATUS
     code := e.cls.CODE.getD (class_name_to_code e.cls.name)
     title := e.title
     detail := e.detail
     source := e.source }]

/-- A `DjsonApiException`: a single exception or a
`DjsonApiExceptionMulti` grouping several singles (the repository only
ever nests singles inside a multi). -/
inductive DjExc where
  | single (e : SingleExc)
  | multi (args : List SingleExc)
  deriving Repr, DecidableEq

/-- `render()` on either exception kind; a multi concatenates the member
renders in order. -/
def djRender : DjExc → List ErrorEntry
  | .single e => renderSingle e
  | .multi args => args.flatMap renderSingle

/-- `DjsonApiExceptionMulti.status` on the list of member status codes:
the set of statuses, the single element if the set is a singleton,
otherwise the max of the set of status classes.  `none` models the
`ValueError` of `max` on an empty set. -/
def multi_status (ss : List Nat) : Option Nat :=
  match ss.dedup with
  | [s] => some s
  | statuses => ((statuses.map (fun s => s / 100 * 100)).dedup).max?

/-- `exc.status` for either kind. -/
def djStatus : DjExc → Option Nat
  | .single e => some e.cls.STATUS
  | .multi args => multi_status (args.map (fun a => a.cls.STATUS))

/-- If every member of a nonempty list equals `s`, dedup collapses it to
`[s]`. -/
theorem dedup_of_all_eq {s : Nat} :
    ∀ {ss : List Nat}, ss ≠ [] → (∀ x ∈ ss, x = s) → ss.dedup = [s] := by
  intro ss
  induction ss with
  | nil => intro h _; exact absurd rfl h
  | cons a l ih =>
      intro _ hall
      have ha : a = s := hall a (List.mem_cons_self a l)
      subst ha
      by_cases hl : l = []
      · subst hl; simp
      · have : l.dedup = [a] := ih hl (fun x hx => hall x (List.mem_cons_of_mem a hx))
        rw [List.dedup_cons_of_mem, this]
        have : a ∈ l.dedup := by rw [this]; exact List.mem_singleton.mpr rfl
        exact List.mem_dedup.mp this

/-- C1.  The aggregate status of a `DjsonApiExceptionMulti` with at least
one member: the shared status when all member status codes coincide, and
otherwise the maximum of the members' status classes (hundreds digit
times 100). -/
theorem C1_composite_status (ss : List Nat) (h : ss ≠ []) :
    (∀ s, (∀ x ∈ ss, x = s) → multi_status ss = some s) ∧
    ((¬ ∃ s, ∀ x ∈ ss, x = s) →
      ∃ M, multi_status ss = some M ∧
        M ∈ ss.map (fun s => s / 100 * 100) ∧
        ∀ c ∈ ss.map (fun s => s / 100 * 100), c ≤ M) := by
  constructor
  · intro s hs
    have hd : ss.dedup = [s] := dedup_of_all_eq h hs
    simp [multi_status, hd]
  · intro hne
    rcases hdd : ss.dedup with _ | ⟨a, _ | ⟨b, t⟩⟩
    · exact absurd ((List.dedup_eq_nil ss).mp hdd) h
    · exact absurd ⟨a, fun x hx => List.mem_singleton.mp (hdd ▸ List.mem_dedup.mpr hx)⟩ hne
    · have hred : multi_status ss =
          (((a :: b :: t).map (fun s => s / 100 * 100)).dedup).max? := by
        simp only [multi_status, hdd]
      have hnil : ((a :: b :: t).map (fun s => s / 100 * 100)).dedup ≠ [] := by
        simp [List.dedup_eq_nil]
      rcases hM : (((a :: b :: t).map (fun s => s / 100 * 100)).dedup).max? with _ | M
      · exact absurd (List.max?_eq_none_iff.mp hM) hnil
      · refine ⟨M, hred.trans hM, ?_, ?_⟩
        · have hmem := List.max?_mem (fun x y => max_choice x y) hM
          rcases List.mem_map.mp (List.mem_dedup.mp hmem) with ⟨x, hx, hfx⟩
          have : x ∈ ss := List.mem_dedup.mp (hdd ▸ hx)
          exact List.mem_map.mpr ⟨x, this, hfx⟩
        · intro c hc
          rcases List.mem_map.mp hc with ⟨x, hx, hfx⟩
          have hx' : x ∈ (a :: b :: t) := hdd ▸ List.mem_dedup.mpr hx
          have hcmem : c ∈ ((a :: b :: t).map (fun s => s / 100 * 100)).dedup :=
            List.mem_dedup.mpr (List.mem_map.mpr ⟨x, hx', hfx⟩)
          exact ((List.max?_le_iff (fun x y z => max_le_iff) hM).mp (le_refl M)) c hcmem

/-- C1 witness: members with statuses 401 and 500 (distinct codes, so the
class-maximum branch applies). -/
theorem C1_composite_status_witness :
    (∀ s, (∀ x ∈ ([401, 500] : List Nat), x = s) →
      multi_status [401, 500] = some s) ∧
    ((¬ ∃ s, ∀ x ∈ ([401, 500] : List Nat), x = s) →
      ∃ M, multi_status [401, 500] = some M ∧
        M ∈ ([401, 500] : List Nat).map (fun s => s / 100 * 100) ∧
        ∀ c ∈ ([401, 500] : List Nat).map (fun s => s / 100 * 100), c ≤ M) :=
  C1_composite_status [401, 500] (by decide)

/-! ## resources.py — the exception handler (dispatch boundary) -/

/-- An exception value reaching `Resource.exception_handler`: either a
`DjsonApiException` or any other exception, of which the handler only
ever inspects `str(exc)` (and only to log it). -/
inductive Exc where
  | dj (e : DjExc)
  | other (msg : String)
  deriving Repr, DecidableEq

/-- An HTTP response produced by the library: status plus the rendered
`errors` array (success bodies are not needed for the error claims). -/
structure ErrResponse where
  status : Nat
  errors : List ErrorEntry
  deriving Repr, DecidableEq

/-- `Resource.exception_handler`.  A `DjsonApiException` is rendered
as-is (`none` models the `ValueError` escaping from `status` on an empty
multi); anything else is logged server-side and replaced by a fresh
`ServerError()`. -/
def exception_handler : Exc → Option ErrResponse
  | .dj e => (djStatus e).map (fun st => ⟨st, djRender e⟩)
  | .other _ =>
      let exc := mkSingle ServerErrorCls none none none
      some ⟨ServerErrorCls.STATUS, renderSingle exc⟩

/-- C5.  Any non-`DjsonApiException` exception is surfaced as a constant
response — status 500, exactly one error entry, detail fixed to
"Something went wrong" — independent of the exception's message, so the
message text never appears in the body. -/
theorem C5_unexpected_exception_opaque (msg : String) :
    exception_handler (.other msg) =
      some ⟨500, [⟨"500", "server_error", "Server error",
                  "Something went wrong", none⟩]⟩ := by
  have h : exception_handler (.other msg) = exception_handler (.other "") := rfl
  rw [h]
  decide

/-- An exception raised by embedded library code: a Python built-in or a
`DjsonApiException`. -/
inductive Err where
  | py (e : PyErr)
  | dj (e : DjExc)
  deriving Repr, DecidableEq

/-! ## jsonschema_utils.py

The `jsonschema` package is an external dependency: a validator's
`iter_errors` yields violation objects carrying a `message` and a `path`
— a deque whose elements are object keys (strings) or array indices
(integers).  The embedding takes that violation list as input and models
only the repository's own formatting code. -/

/-- One element of a violation's `path`. -/
inductive PathElem where
  | key (s : String)
  | idx (n : Nat)
  deriving Repr, DecidableEq

/-- A violation yielded by `validator.iter_errors`. -/
structure Violation where
  message : String
  path : List PathElem
  deriving Repr, DecidableEq

/-- `f"[{part}]"`'s rendering of one path element. -/
def pathElemStr : PathElem → String
  | .key s => s
  | .idx n => toString n

/-- `sep.join(parts)`: every element must be a `str`; an integer index
raises `TypeError`. -/
def pyStrJoin (sep : String) (parts : List PathElem) :
    Except Err String := do
  let strs ← parts.mapM (fun p => match p with
    | .key s => pure s
    | .idx _ => throw (Err.py .typeError))
  pure (String.intercalate sep strs)

/-- `raise_for_body`: one `BadRequest` per violation with a '.'-joined
`pointer` source, collected into a `DjsonApiExceptionMulti`. -/
def raise_for_body (violations : List Violation) : Except Err Unit := do
  let errors ← violations.mapM (fun v => do
    let joined ← pyStrJoin "." v.path
    pure (mkSingle BadRequestCls (some v.message) none
      (some ("pointer", "." ++ joined))))
  if errors.isEmpty then pure () else throw (Err.dj (.multi errors))

/-- `raise_for_params`: one `BadRequest` per violation with a
bracket-form `parameter` source (`None` for a root violation). -/
def raise_for_params (violations : List Violation) : Except Err Unit := do
  let errors ← violations.mapM (fun v => do
    let source ← match v.path with
      | [] => pure (none : Option (String × String))
      | p0 :: rest => do
          let head ← match p0 with
            | .key s => pure s
            | .idx _ => throw (Err.py .typeError)
          pure (some ("parameter",
            head ++ String.join (rest.map (fun p =>
              "[" ++ pathElemStr p ++ "]"))))
    pure (mkSingle BadRequestCls (some v.message) none source))
  if errors.isEmpty then pure () else throw (Err.dj (.multi errors))

/-- C9.  A body violation located inside an array item — reachable
through the repository's own array schemas, e.g. the `data` array of
`Article._get_categories` — carries an integer index in its path, and
`raise_for_body` then raises `TypeError` from `".".join` instead of the
claimed `CompositeError` of `BadRequest`s. -/
theorem C9_body_array_violation_type_error :
    raise_for_body [⟨"is not one of the allowed values",
      [.key "data", .idx 0, .key "type"]⟩] = .error (Err.py .typeError) := by
  rfl

/-! ## The HTTP request model

`request.GET` is a Django `QueryDict`: keys in insertion order, each with
a list of values; `qd[k]` reads the last value, `qd[k] = v` replaces the
key's list by `[v]` keeping the key's position.  `queryString` is the raw
`META` query string used by `get_full_path`. -/

abbrev QueryDict := List (String × List String)

structure Request where
  method : String
  path : String
  queryString : String
  GET : QueryDict
  deriving Repr, DecidableEq

/-- `request.get_full_path()`. -/
def Request.full_path (req : Request) : String :=
  req.path ++ (if req.queryString = "" then "" else "?" ++ req.queryString)

/-- `qd[k]`: the last of the key's values. -/
def qdGet (qd : QueryDict) (k : String) : Option String :=
  ((qd.find? (fun e => e.1 = k)).map (·.2)).bind (fun vs => vs.getLast?)

/-- `k in qd`. -/
def qdContains (qd : QueryDict) (k : String) : Bool :=
  qd.any (fun e => e.1 = k)

/-- `qd[k] = v`. -/
def qdSet : QueryDict → String → String → QueryDict
  | [], k, v => [(k, [v])]
  | (k', vs) :: qd, k, v =>
      if k' = k then (k, [v]) :: qd else (k', vs) :: qdSet qd k v

/-! ## resources.py — dispatch (`_one_view` / `_many_view`) and
middleware.py

`_raise_unsupported_verb_error` raises `NotFound`; in every dispatch view
that call stands outside the view's own `try/except`, so the exception
escapes the view instead of passing through `exception_handler`.  The
views are parameterized over the wrapped per-verb handler `run` (the
`_get_one_view` etc. bodies), which C4 never reaches. -/

/-- The exception `_raise_unsupported_verb_error` raises. -/
def unsupported_verb_exc (req : Request) : SingleExc :=
  mkSingle NotFoundCls
    (some ("Endpoint '" ++ req.path ++ "' does not support method " ++
      req.method)) none none

/-- The operations a `Resource` subclass declares (`hasattr(cls, ...)`). -/
structure Caps where
  get_one : Bool
  edit_one : Bool
  delete_one : Bool
  get_many : Bool
  create_one : Bool
  deriving Repr, DecidableEq

/-- `_one_view`'s `mappings`. -/
def one_view_mappings : List (String × String × String) :=
  [("GET", ("get_one", "_get_one_view")),
   ("PATCH", ("edit_one", "_edit_one_view")),
   ("DELETE", ("delete_one", "_delete_one_view"))]

/-- `_many_view`'s `mappings`. -/
def many_view_mappings : List (String × String × String) :=
  [("GET", ("get_many", "_get_many_view")),
   ("POST", ("create_one", "_create_one_view"))]

/-- `hasattr(cls, inner_method)` for the five descriptor operations. -/
def capHas (caps : Caps) : String → Bool
  | "get_one" => caps.get_one
  | "edit_one" => caps.edit_one
  | "delete_one" => caps.delete_one
  | "get_many" => caps.get_many
  | "create_one" => caps.create_one
  | _ => false

/-- Common body of `_one_view` and `_many_view`: resolve the verb in
`mappings` (a `KeyError` triggers `_raise_unsupported_verb_error`, whose
`NotFound` escapes), check the descriptor declares the operation
(likewise escaping), then run the wrapped handler with every exception it
raises routed through `exception_handler`.  An `.error` result is an
exception escaping the view. -/
def dispatch_view {ρ : Type} (mappings : List (String × String × String))
    (caps : Caps) (run : String → Except Exc ρ) (req : Request) :
    Except Err (ρ ⊕ ErrResponse) :=
  match (mappings.find? (fun e => e.1 = req.method)).map (·.2) with
  | none => .error (.dj (.single (unsupported_verb_exc req)))
  | some (innerMethod, outerMethod) =>
      if capHas caps innerMethod then
        match run outerMethod with
        | .ok r => .ok (.inl r)
        | .error exc =>
            match exception_handler exc with
            | some resp => .ok (.inr resp)
            | none => .error (.py .valueError)
      else .error (.dj (.single (unsupported_verb_exc req)))

def one_view {ρ : Type} (caps : Caps) (run : String → Except Exc ρ)
    (req : Request) : Except Err (ρ ⊕ ErrResponse) :=
  dispatch_view one_view_mappings caps run req

def many_view {ρ : Type} (caps : Caps) (run : String → Except Exc ρ)
    (req : Request) : Except Err (ρ ⊕ ErrResponse) :=
  dispatch_view many_view_mappings caps run req

/-- The top-level names module `djsonapi.resources` defines (its imports
and its own definitions) — what `from .resources import x` can resolve. -/
def resources_module_names : List String :=
  ["logging", "re", "Mapping", "Sequence", "deepcopy", "atomic",
   "HttpResponse", "JsonResponse", "NoReverseMatch", "path", "reverse",
   "csrf_exempt", "BadRequest", "DjsonApiException",
   "DjsonApiExceptionMulti", "NotFound", "ServerError", "logger",
   "JsonApiResponse", "Resource"]

/-- `middleware.py` line 1: `from .resources import handle_exception` —
an `ImportError` when the name is not defined there. -/
def middleware_import : Except Err Unit :=
  if "handle_exception" ∈ resources_module_names then .ok ()
  else .error (.py .importError)

/-- External collaborator behavior (Django, not repository code): an
exception that escapes the view with the exception middleware absent or
broken meets Django's default unhandled-exception response, a plain 500.
Per the spec, transport concerns beyond HTTP-status mapping belong to an
external collaborator. -/
def boundary_status {ρ : Type} (statusOf : ρ → Nat)
    (out : Except Err (ρ ⊕ ErrResponse)) : Nat :=
  match out with
  | .ok (.inl r) => statusOf r
  | .ok (.inr e) => e.status
  | .error _ => 500

/-- The capability set of the example `Article` resource (`get_one`,
`edit_one`, `delete_one`, `get_many`, `create_one` all declared). -/
def articleCaps : Caps := ⟨true, true, true, true, true⟩

/-- C4.  On a `DELETE` to the collection route `/articles` (a derived
route whose accepted set is GET/POST) the `NotFound` raised by
`_raise_unsupported_verb_error` escapes `_many_view` — it is raised
outside the view's `try/except` — and the broken middleware
(`from .resources import handle_exception` resolves nothing) cannot
render it, so the transport's default 500 is returned, not the claimed
404 document. -/
theorem C4_unsupported_verb_escapes (run : String → Except Exc Unit) :
    many_view articleCaps run
        ⟨"DELETE", "/articles", "", []⟩ =
      .error (.dj (.single (mkSingle NotFoundCls
        (some "Endpoint '/articles' does not support method DELETE")
        none none))) ∧
    boundary_status (fun _ => 200)
        (many_view articleCaps run ⟨"DELETE", "/articles", "", []⟩) = 500 ∧
    middleware_import = .error (.py .importError) := by
  exact ⟨rfl, rfl, rfl⟩

/-! ## articles/views.py — pagination in the three `get_many` operations

Each `get_many` filters a queryset, then pages it: `start = (page-1)*10`,
`end = start+10`, `data = queryset[start:end]`, a `previous` link for
`page > 1` and a `next` link when `queryset.count() > end`.  The
embedding takes the already-filtered ordered collection as a list and the
parsed 1-indexed `page` number. -/

structure PagedResult (α : Type) where
  data : List α
  previous : Option Val
  next : Option Val
  deriving Repr

/-- `Article.get_many`, lines 154–175 (pagination and links; the
`include=author` side-loading is independent of the paging). -/
def article_get_many_page {α : Type} (items : List α) (page : Nat) :
    PagedResult α :=
  let start := (page - 1) * 10
  let stop := start + 10
  { data := (items.drop start).take 10
    previous := if page > 1 then
        some (Val.dict [("page", .int (page - 1))]) else none
    next := if items.length > stop then
        some (Val.dict [("page", .int (page + 1))]) else none }

/-- `Category.get_many`, lines 438–449: identical paging, plus a
`meta.count`. -/
def category_get_many_page {α : Type} (items : List α) (page : Nat) :
    PagedResult α × Nat :=
  (article_get_many_page items page, items.length)

/-- `User.get_many`, lines 310–321.  The link values are written as set
literals over `'page' - 1` and `'page' + 1` (a `str` minus/plus an
`int`), so either link branch raises `TypeError`. -/
def user_get_many_page {α : Type} (items : List α) (page : Nat) :
    Except Err (List α) :=
  let start := (page - 1) * 10
  let data := (items.drop start).take 10
  if page > 1 then .error (.py .typeError)
  else if items.length > start + 10 then .error (.py .typeError)
  else .ok data

/-- C6.  For `Article.get_many` and `Category.get_many` the pagination
invariant holds: page `p` serves the items at indices
`[(p-1)*10, p*10)`, `previous` is present iff `p > 1` and `next` iff
`p*10 < N`.  `User.get_many` instead raises `TypeError` on every input
that should carry a `previous` or `next` link. -/
theorem C6_pagination (items : List Nat) (page : Nat) (h : 1 ≤ page) :
    ((article_get_many_page items page).data =
      (items.drop ((page - 1) * 10)).take 10 ∧
     ((article_get_many_page items page).previous.isSome ↔ 1 < page) ∧
     ((article_get_many_page items page).next.isSome ↔
       page * 10 < items.length)) ∧
    ((category_get_many_page items page).1 =
      article_get_many_page items page) ∧
    ((1 < page ∨ page * 10 < items.length) →
      user_get_many_page items page = .error (.py .typeError)) := by
  have hstop : (page - 1) * 10 + 10 = page * 10 := by omega
  refine ⟨⟨rfl, ?_, ?_⟩, rfl, ?_⟩
  · by_cases hp : 1 < page <;> simp [article_get_many_page, hp]
  · by_cases hn : items.length > (page - 1) * 10 + 10 <;>
      simp [article_get_many_page, hn] <;> omega
  · intro hcase
    by_cases hp : 1 < page
    · simp [user_get_many_page, hp]
    · have hpage : page = 1 := by omega
      subst hpage
      have hn : items.length > 0 * 10 + 10 := by
        rcases hcase with h1 | h2
        · omega
        · simpa using h2
      simp [user_get_many_page]
      omega

/-- C6 witness: a collection of 11 items at the default page 1 — the
claim requires a `next` link, the code's `User.get_many` raises. -/
theorem C6_pagination_witness :
    (((article_get_many_page (List.range 11) 1).data =
      ((List.range 11).drop ((1 - 1) * 10)).take 10 ∧
     ((article_get_many_page (List.range 11) 1).previous.isSome ↔ 1 < 1) ∧
     ((article_get_many_page (List.range 11) 1).next.isSome ↔
       1 * 10 < (List.range 11).length)) ∧
    ((category_get_many_page (List.range 11) 1).1 =
      article_get_many_page (List.range 11) 1) ∧
    ((1 < 1 ∨ 1 * 10 < (List.range 11).length) →
      user_get_many_page (List.range 11) 1 = .error (.py .typeError))) :=
  C6_pagination (List.range 11) 1 (by decide)

/-! ## String rendering and URL encoding

`str(value)` for values stored into a `QueryDict` or interpolated into a
route name.  Scalars follow Python exactly; the container cases
approximate `repr` (they are only ever consumed by the opaque `rev`
parameter or by `urlencode` on scalar inputs, so no claim observes
them). -/

mutual

def pyStr : Val → String
  | .null => "None"
  | .bool b => if b then "True" else "False"
  | .int n => toString n
  | .str s => s
  | .list xs => "[" ++ String.intercalate ", " (pyStrList xs) ++ "]"
  | .dict es => "\x7b" ++ String.intercalate ", " (pyStrEntries es) ++ "\x7d"
  | .res t o => "<Resource " ++ t ++ " " ++ o ++ ">"

def pyStrList : List Val → List String
  | [] => []
  | v :: vs => pyStr v :: pyStrList vs

def pyStrEntries : List (String × Val) → List String
  | [] => []
  | (k, v) :: es => (k ++ ": " ++ pyStr v) :: pyStrEntries es

end

/-- Upper-case hex digit. -/
def hexDigit (n : Nat) : Char :=
  if n < 10 then Char.ofNat (48 + n) else Char.ofNat (55 + n)

/-- Characters `urllib.parse.quote` leaves unescaped with `safe="[]"`:
letters, digits, `_.-~` and the two brackets. -/
def quoteSafe (n : Nat) : Bool :=
  (48 ≤ n && n ≤ 57) || (65 ≤ n && n ≤ 90) || (97 ≤ n && n ≤ 122) ||
    n == 95 || n == 46 || n == 45 || n == 126 || n == 91 || n == 93

/-- `urllib.parse.quote(s, safe="[]")` over the string's UTF-8 bytes. -/
def pyQuote (s : String) : String :=
  String.mk (s.toUTF8.toList.flatMap (fun b =>
    if quoteSafe b.toNat then [Char.ofNat b.toNat]
    else ['%', hexDigit (b.toNat / 16), hexDigit (b.toNat % 16)]))

/-- `QueryDict.urlencode(safe="[]")`: one `k=v` pair per stored value, in
insertion order, joined by `&`. -/
def urlencode (qd : QueryDict) : String :=
  String.intercalate "&" (qd.flatMap (fun e =>
    e.2.map (fun v => pyQuote e.1 ++ "=" ++ pyQuote v)))

/-- The per-link parameter merge of `_process_links`:
`params = request.GET.copy()`, then `params[inner_key] = inner_value` for
each item of the link's mapping (values are rendered by `str` when
encoded; storing the rendering is observationally the same). -/
def mergeParams (qd : QueryDict) (m : Entries) : QueryDict :=
  m.foldl (fun acc kv => qdSet acc kv.1 (pyStr kv.2)) qd

/-- The body of `_process_links`' loop for one `(key, value)` item:
`self` is skipped, a mapping-valued link is re-encoded onto the request's
path with its items merged into the query parameters, anything else
(`value.items()` raising `AttributeError`) is left as it is. -/
def linkStep (req : Request) (e : String × Val) : String × Val :=
  if e.1 = "self" then e
  else match e.2 with
    | .dict m =>
        (e.1, .str (req.path ++ "?" ++ urlencode (mergeParams req.GET m)))
    | _ => e

/-- `Resource._process_links`.  `deepcopy` is the identity on values;
`None` becomes the empty dict, `self` is defaulted to the request's full
path, then every item runs through `linkStep`. -/
def process_links (req : Request) (links : Option Entries) : Entries :=
  let result := match links with
    | none => []
    | some l => l
  (dsetdefaultD result "self" (.str req.full_path)).map (linkStep req)

/-- The full value list a key holds in a `QueryDict`. -/
def qdLookup (qd : QueryDict) (k : String) : Option (List String) :=
  (qd.find? (fun e => e.1 = k)).map (·.2)

theorem qdLookup_qdSet (qd : QueryDict) (k : String) (v : String)
    (k' : String) :
    qdLookup (qdSet qd k v) k' =
      if k' = k then some [v] else qdLookup qd k' := by
  induction qd with
  | nil =>
      by_cases h : k' = k
      · subst h; simp [qdSet, qdLookup, List.find?]
      · simp [qdSet, qdLookup, List.find?, h, Ne.symm h]
  | cons e qd ih =>
      obtain ⟨k₀, vs⟩ := e
      by_cases h0 : k₀ = k
      · subst h0
        by_cases h : k' = k₀
        · subst h; simp [qdSet, qdLookup, List.find?]
        · simp [qdSet, qdLookup, List.find?, h, Ne.symm h]
      · by_cases h : k' = k₀
        · subst h
          simp [qdSet, qdLookup, List.find?, h0, fun hh : k = k' => h0 hh.symm]
        · simp only [qdSet, if_neg h0, qdLookup, List.find?] at ih ⊢
          simp only [show decide (k₀ = k') = false from by
            simpa using fun hh : k₀ = k' => h hh.symm]
          exact ih

/-- Merging preserves every query parameter whose key the mapping does
not mention. -/
theorem qdLookup_mergeParams_of_not_mem (m : Entries) :
    ∀ (qd : QueryDict) (k : String), (∀ e ∈ m, e.1 ≠ k) →
      qdLookup (mergeParams qd m) k = qdLookup qd k := by
  induction m with
  | nil => intro qd k _; rfl
  | cons e m ih =>
      intro qd k hk
      have he : e.1 ≠ k := hk e (List.mem_cons_self e m)
      have : mergeParams qd (e :: m) = mergeParams (qdSet qd e.1 (pyStr e.2)) m := rfl
      rw [this, ih _ k (fun x hx => hk x (List.mem_cons_of_mem e hx)),
        qdLookup_qdSet]
      simp [Ne.symm he]

/-- Merging sets every mapped key to (the rendering of) its mapped
value. -/
theorem qdLookup_mergeParams_of_mem (m : Entries) :
    ∀ (qd : QueryDict) (k : String) (v : Val),
      (m.map Prod.fst).Nodup → (k, v) ∈ m →
      qdLookup (mergeParams qd m) k = some [pyStr v] := by
  induction m with
  | nil => intro _ _ _ _ h; exact absurd h (List.not_mem_nil _)
  | cons e m ih =>
      intro qd k v hnd hm
      have hstep : mergeParams qd (e :: m) =
        mergeParams (qdSet qd e.1 (pyStr e.2)) m := rfl
      rcases List.mem_cons.mp hm with h | h
      · subst h
        have hk : ∀ x ∈ m, x.1 ≠ (k, v).1 := by
          intro x hx hx1
          have : (k, v).1 ∈ m.map Prod.fst := List.mem_map.mpr ⟨x, hx, hx1⟩
          exact (List.nodup_cons.mp (by simpa using hnd)).1 this
        rw [hstep, qdLookup_mergeParams_of_not_mem m _ _ hk, qdLookup_qdSet]
        simp
      · rw [hstep]
        exact ih _ k v (List.nodup_cons.mp (by simpa using hnd)).2 h

theorem find?_key_map (step : (String × Val) → (String × Val))
    (hk : ∀ e, (step e).1 = e.1) (l : Entries) (k : String) :
    (l.map step).find? (fun e => e.1 = k) =
      (l.find? (fun e => e.1 = k)).map step := by
  rw [List.find?_map]
  have hfun : ((fun (e : String × Val) => decide (e.1 = k)) ∘ step) =
      (fun (e : String × Val) => decide (e.1 = k)) := by
    funext e
    simp [Function.comp, hk e]
  rw [hfun]

/-- C7.  `_process_links` defaults an absent `self` to the request's full
path and never rewrites a present one; every other mapping-valued link is
rendered onto the request's own path with the mapping merged into the
existing query parameters — preserving each parameter the mapping does
not mention and overriding the ones it does. -/
theorem C7_process_links (req : Request) (links : Option Entries) :
    (dcontains (links.getD []) "self" = false →
      dget (process_links req links) "self" = some (.str req.full_path)) ∧
    (∀ v, dget (links.getD []) "self" = some v →
      dget (process_links req links) "self" = some v) ∧
    (∀ k m, k ≠ "self" → dget (links.getD []) k = some (.dict m) →
      dget (process_links req links) k =
        some (.str (req.path ++ "?" ++ urlencode (mergeParams req.GET m)))) ∧
    (∀ (m : Entries) (k : String), (∀ e ∈ m, e.1 ≠ k) →
      qdLookup (mergeParams req.GET m) k = qdLookup req.GET k) ∧
    (∀ (m : Entries) (k : String) (v : Val),
      (m.map Prod.fst).Nodup → (k, v) ∈ m →
      qdLookup (mergeParams req.GET m) k = some [pyStr v]) := by
  have hkeys : ∀ e, (linkStep req e).1 = e.1 := by
    intro e
    by_cases h : e.1 = "self"
    · simp [linkStep, h]
    · cases hv : e.2 <;> simp [linkStep, h, hv]
  have hbase : process_links req links =
      (dsetdefaultD (links.getD []) "self" (.str req.full_path)).map
        (linkStep req) := by
    cases links <;> rfl
  refine ⟨?_, ?_, ?_,
    (fun m k h => qdLookup_mergeParams_of_not_mem m req.GET k h),
    (fun m k v hnd hm => qdLookup_mergeParams_of_mem m req.GET k v hnd hm)⟩
  · intro habs
    have hnotin : (links.getD []).find? (fun e => e.1 = "self") = none := by
      rw [List.find?_eq_none]
      intro x hx hx1
      have hc : dcontains (links.getD []) "self" = true := by
        simp only [dcontains, List.any_eq_true]
        exact ⟨x, hx, hx1⟩
      rw [habs] at hc
      exact Bool.false_ne_true hc
    have hsd : dsetdefaultD (links.getD []) "self" (.str req.full_path) =
        links.getD [] ++ [("self", .str req.full_path)] := by
      unfold dsetdefaultD
      simp [habs]
    rw [hbase, hsd, dget, find?_key_map (linkStep req) hkeys,
      List.find?_append, hnotin]
    simp [linkStep]
  · intro v hv
    have hfind : (links.getD []).find? (fun e => e.1 = "self") =
        some ("self", v) := by
      unfold dget at hv
      rcases hfound : (links.getD []).find? (fun e => e.1 = "self") with _ | e
      · rw [hfound] at hv; exact absurd hv (by simp)
      · have h1 : e.1 = "self" := by simpa using List.find?_some hfound
        have h2 : e.2 = v := by rw [hfound] at hv; simpa using hv
        rw [hfound]
        obtain ⟨k₀, v₀⟩ := e
        simp_all
    have hcont : dcontains (links.getD []) "self" = true := by
      simp only [dcontains, List.any_eq_true]
      exact ⟨("self", v), List.mem_of_find?_eq_some hfind, by simp⟩
    have hsd : dsetdefaultD (links.getD []) "self" (.str req.full_path) =
        links.getD [] := by
      unfold dsetdefaultD
      simp [hcont]
    rw [hbase, hsd, dget, find?_key_map (linkStep req) hkeys, hfind]
    simp [linkStep]
  · intro k m hk hv
    have hfind : (links.getD []).find? (fun e => e.1 = k) =
        some (k, .dict m) := by
      unfold dget at hv
      rcases hfound : (links.getD []).find? (fun e => e.1 = k) with _ | e
      · rw [hfound] at hv; exact absurd hv (by simp)
      · have h1 : e.1 = k := by simpa using List.find?_some hfound
        have h2 : e.2 = .dict m := by rw [hfound] at hv; simpa using hv
        rw [hfound]
        obtain ⟨k₀, v₀⟩ := e
        simp_all
    have hfind' : (dsetdefaultD (links.getD []) "self"
        (.str req.full_path)).find? (fun e => e.1 = k) =
          some (k, .dict m) := by
      unfold dsetdefaultD
      cases hc : dcontains (links.getD []) "self"
      · simp only [Bool.false_eq_true, if_false]
        rw [List.find?_append, hfind]
        rfl
      · simpa using hfind
    rw [hbase, dget, find?_key_map (linkStep req) hkeys, hfind']
    simp [linkStep, hk]

/-- C7 witness: `GET /articles?page=2` with a caller link
`next = \x7bpage: 3\x7d` — `self` defaults to the full path and `next` is
re-encoded onto `/articles` with `page` overridden. -/
theorem C7_process_links_witness :
    (dget (process_links ⟨"GET", "/articles", "page=2", [("page", ["2"])]⟩
        (some [("next", Val.dict [("page", Val.int 3)])])) "self" =
      some (.str (Request.full_path
        ⟨"GET", "/articles", "page=2", [("page", ["2"])]⟩))) ∧
    (dget (process_links ⟨"GET", "/articles", "page=2", [("page", ["2"])]⟩
        (some [("next", Val.dict [("page", Val.int 3)])])) "next" =
      some (.str ("/articles" ++ "?" ++
        urlencode (mergeParams [("page", ["2"])] [("page", Val.int 3)])))) := by
  have h := C7_process_links ⟨"GET", "/articles", "page=2", [("page", ["2"])]⟩
    (some [("next", Val.dict [("page", Val.int 3)])])
  exact ⟨h.1 (by rfl), h.2.2.1 "next" [("page", Val.int 3)] (by decide) (by rfl)⟩

/-! ## Dict-operation lemmas -/

theorem dget_dset_self (es : Entries) (k : String) (v : Val) :
    dget (dset es k v) k = some v := by
  induction es with
  | nil => simp [dset, dget, List.find?]
  | cons e es ih =>
      obtain ⟨k₀, v₀⟩ := e
      by_cases h : k₀ = k
      · subst h; simp [dset, dget, List.find?]
      · simpa [dset, dget, List.find?, h] using ih

theorem dget_dset_ne (es : Entries) (k k' : String) (v : Val)
    (h : k' ≠ k) : dget (dset es k v) k' = dget es k' := by
  induction es with
  | nil =>
      simp [dset, dget, List.find?, show decide (k = k') = false from by
        simpa using fun hh : k = k' => h hh.symm]
  | cons e es ih =>
      obtain ⟨k₀, v₀⟩ := e
      by_cases h0 : k₀ = k
      · subst h0
        simp [dset, dget, List.find?, show decide (k₀ = k') = false from by
          simpa using fun hh : k₀ = k' => h (hh.symm.trans rfl)]
      · by_cases h1 : k₀ = k'
        · subst h1; simp [dset, h0, dget, List.find?]
        · simpa [dset, h0, dget, List.find?, h1] using ih

theorem dget_ddel_ne (es : Entries) (k k' : String) (h : k' ≠ k) :
    dget (ddel es k) k' = dget es k' := by
  induction es with
  | nil => simp [ddel]
  | cons e es ih =>
      obtain ⟨k₀, v₀⟩ := e
      by_cases h0 : k₀ = k
      · subst h0
        simp [ddel, dget, List.find?, show decide (k₀ = k') = false from by
          simpa using fun hh : k₀ = k' => h hh.symm]
      · by_cases h1 : k₀ = k'
        · subst h1; simp [ddel, h0, dget, List.find?]
        · simpa [ddel, h0, dget, List.find?, h1] using ih

theorem map_fst_dset_of_contains (es : Entries) (k : String) (v : Val)
    (h : dcontains es k = true) :
    (dset es k v).map Prod.fst = es.map Prod.fst := by
  induction es with
  | nil => simp [dcontains] at h
  | cons e es ih =>
      obtain ⟨k₀, v₀⟩ := e
      by_cases h0 : k₀ = k
      · subst h0; simp [dset]
      · have h' : dcontains es k = true := by
          simpa [dcontains, h0] using h
        simp [dset, h0, ih h']

theorem ddel_sublist (es : Entries) (k : String) : (ddel es k).Sublist es := by
  induction es with
  | nil => simp [ddel]
  | cons e es ih =>
      obtain ⟨k₀, v₀⟩ := e
      by_cases h0 : k₀ = k
      · subst h0
        simp [ddel]
      · simpa [ddel, h0] using ih.cons₂ (k₀, v₀)

theorem nodup_ddel (es : Entries) (k : String)
    (h : (es.map Prod.fst).Nodup) : ((ddel es k).map Prod.fst).Nodup :=
  ((ddel_sublist es k).map Prod.fst).nodup h

theorem dcontains_eq_true_iff (es : Entries) (k : String) :
    dcontains es k = true ↔ k ∈ es.map Prod.fst := by
  unfold dcontains
  rw [List.any_eq_true]
  constructor
  · rintro ⟨x, hx, hx1⟩
    exact List.mem_map.mpr ⟨x, hx, of_decide_eq_true hx1⟩
  · intro hk
    rcases List.mem_map.mp hk with ⟨x, hx, hx1⟩
    exact ⟨x, hx, decide_eq_true hx1⟩

theorem dcontains_ddel_self (es : Entries) (k : String)
    (h : (es.map Prod.fst).Nodup) : dcontains (ddel es k) k = false := by
  induction es with
  | nil => simp [ddel, dcontains]
  | cons e es ih =>
      obtain ⟨k₀, v₀⟩ := e
      rw [List.map_cons, List.nodup_cons] at h
      by_cases h0 : k₀ = k
      · subst h0
        have hne : dcontains es k₀ = false := by
          cases hcc : dcontains es k₀
          · rfl
          · exact absurd ((dcontains_eq_true_iff es k₀).mp hcc) h.1
        simpa [ddel] using hne
      · have h' := ih h.2
        simp only [ddel, if_neg h0]
        simp only [dcontains, List.any_cons] at h' ⊢
        simp [h0, h']

theorem dget_eq_none_of_not_contains (es : Entries) (k : String)
    (h : dcontains es k = false) : dget es k = none := by
  unfold dget
  rw [List.find?_eq_none.mpr]
  · rfl
  · intro x hx hx1
    have : dcontains es k = true := by
      simp only [dcontains, List.any_eq_true]
      exact ⟨x, hx, hx1⟩
    rw [h] at this
    exact Bool.false_ne_true this

theorem dcontains_dset_self (es : Entries) (k : String) (v : Val) :
    dcontains (dset es k v) k = true := by
  rw [dcontains_eq_true_iff]
  induction es with
  | nil => simp [dset]
  | cons e es ih =>
      obtain ⟨k₀, v₀⟩ := e
      by_cases h0 : k₀ = k
      · subst h0; simp [dset]
      · simp only [dset, if_neg h0, List.map_cons]
        exact List.mem_cons_of_mem _ ih

theorem dcontains_dset_ne (es : Entries) (k k' : String) (v : Val)
    (h : k' ≠ k) : dcontains (dset es k v) k' = dcontains es k' := by
  induction es with
  | nil => simp [dset, dcontains, show decide (k = k') = false from by
      simpa using fun hh : k = k' => h hh.symm]
  | cons e es ih =>
      obtain ⟨k₀, v₀⟩ := e
      by_cases h0 : k₀ = k
      · subst h0
        simp [dset, dcontains, show decide (k₀ = k') = false from by
          simpa using fun hh : k₀ = k' => h hh.symm]
      · simp only [dset, if_neg h0]
        simp only [dcontains, List.any_cons] at ih ⊢
        rw [ih]

/-! ## resources.py — `_limit_fields` (sparse fieldsets) -/

/-- `Resource._limit_fields`.  `deepcopy` is the identity on values.
The `fields[<type>]` key is rendered from `obj['type']`; absence of the
query parameter returns the object unchanged; otherwise the requested
names are split on commas into a set, unknown names each raise a
`BadRequest` (note the source's `'patameter'` typo in the error source)
aggregated into one `DjsonApiExceptionMulti`, and the surviving filter
drops an `attributes`/`relationships` dict that would become empty. -/
def limit_fields (req : Request) (obj0 : Entries) : Except Err Entries := do
  let obj := obj0
  let tv ← match dget obj "type" with
    | some v => pure v
    | none => throw (Err.py .keyError)
  let key := "fields[" ++ pyStr tv ++ "]"
  if qdContains req.GET key = false then
    pure obj
  else do
    let raw ← match qdGet req.GET key with
      | some r => pure r
      | none => throw (Err.py .attributeError)
    let fields := pySet (raw.splitOn ",")
    let attrKeys ← match dget obj "attributes" with
      | none => pure ([] : List String)
      | some (.dict es) => pure (es.map Prod.fst)
      | some _ => throw (Err.py .attributeError)
    let relKeys ← match dget obj "relationships" with
      | none => pure ([] : List String)
      | some (.dict es) => pure (es.map Prod.fst)
      | some _ => throw (Err.py .attributeError)
    let unknown := fields.filter (fun f => ¬ (f ∈ attrKeys ∨ f ∈ relKeys))
    let errors := unknown.map (fun f =>
      mkSingle BadRequestCls
        (some ("Field in 'fields' parameter is not part of the response ('"
          ++ f ++ "' was unexpected)"))
        none (some ("patameter", key)))
    if errors.isEmpty = false then
      throw (Err.dj (.multi errors))
    else do
      let obj1 ← match dget obj "attributes" with
        | none => pure obj
        | some (.dict es) =>
            let filtered := es.filter (fun e => e.1 ∈ fields)
            let obj' := dset obj "attributes" (.dict filtered)
            pure (if filtered.isEmpty then ddel obj' "attributes" else obj')
        | some _ => throw (Err.py .attributeError)
      let obj2 ← match dget obj1 "relationships" with
        | none => pure obj1
        | some (.dict es) =>
            let filtered := es.filter (fun e => e.1 ∈ fields)
            let obj' := dset obj1 "relationships" (.dict filtered)
            pure (if filtered.isEmpty then ddel obj' "relationships" else obj')
        | some _ => throw (Err.py .attributeError)
      pure obj2

/-- The attribute and relationship key lists of a serialized object
(`existing_fields` in the source). -/
def fieldKeys (obj : Entries) : List String :=
  (match dget obj "attributes" with
   | some (.dict es) => es.map Prod.fst
   | _ => []) ++
  (match dget obj "relationships" with
   | some (.dict es) => es.map Prod.fst
   | _ => [])

theorem dcontains_of_dget (es : Entries) (k : String) (v : Val)
    (h : dget es k = some v) : dcontains es k = true := by
  unfold dget at h
  rcases hf : es.find? (fun e => e.1 = k) with _ | e
  · rw [hf] at h; exact absurd h (by simp)
  · simp only [dcontains, List.any_eq_true]
    refine ⟨e, List.mem_of_find?_eq_some hf, ?_⟩
    have h2 := List.find?_some hf
    simpa using h2

theorem mem_map_fst_filter (Es : Entries) (F : List String) (k : String) :
    k ∈ (Es.filter (fun e => e.1 ∈ F)).map Prod.fst ↔
      k ∈ Es.map Prod.fst ∧ k ∈ F := by
  constructor
  · intro h
    rcases List.mem_map.mp h with ⟨e, he, hek⟩
    have := List.mem_filter.mp he
    exact ⟨List.mem_map.mpr ⟨e, this.1, hek⟩, hek ▸ of_decide_eq_true this.2⟩
  · rintro ⟨hk, hkF⟩
    rcases List.mem_map.mp hk with ⟨e, he, hek⟩
    exact List.mem_map.mpr ⟨e, List.mem_filter.mpr
      ⟨he, decide_eq_true (hek ▸ hkF)⟩, hek⟩

theorem filter_fst_ne_nil_iff (Es : Entries) (F : List String) :
    (Es.filter (fun e => e.1 ∈ F)) ≠ [] ↔
      ∃ k ∈ Es.map Prod.fst, k ∈ F := by
  constructor
  · intro h
    rcases List.exists_mem_of_ne_nil _ h with ⟨e, he⟩
    have := List.mem_filter.mp he
    exact ⟨e.1, List.mem_map.mpr ⟨e, this.1, rfl⟩, of_decide_eq_true this.2⟩
  · rintro ⟨k, hk, hkF⟩
    rcases List.mem_map.mp hk with ⟨e, he, hek⟩
    intro hnil
    have : e ∈ Es.filter (fun e => e.1 ∈ F) :=
      List.mem_filter.mpr ⟨he, decide_eq_true (hek ▸ hkF)⟩
    rw [hnil] at this
    exact List.not_mem_nil e this

theorem dcontains_ddel_ne (es : Entries) (k k' : String) (h : k' ≠ k) :
    dcontains (ddel es k) k' = dcontains es k' := by
  induction es with
  | nil => simp [ddel]
  | cons e es ih =>
      obtain ⟨k₀, v₀⟩ := e
      by_cases h0 : k₀ = k
      · subst h0
        simp [ddel, dcontains, show decide (k₀ = k') = false from by
          simpa using fun hh : k₀ = k' => h hh.symm]
      · simp only [ddel, if_neg h0]
        simp only [dcontains, List.any_cons] at ih ⊢
        rw [ih]

theorem nodup_dset_of_contains (es : Entries) (k : String) (v : Val)
    (hc : dcontains es k = true) (h : (es.map Prod.fst).Nodup) :
    ((dset es k v).map Prod.fst).Nodup := by
  rw [map_fst_dset_of_contains _ _ _ hc]
  exact h

/-- The combined effect of one filtering step of `_limit_fields`
(`obj[name] = filtered; if not obj[name]: del obj[name]`). -/
theorem filter_step_facts (o : Entries) (name : String)
    (filtered : Entries) (o' : Entries)
    (hnd : (o.map Prod.fst).Nodup)
    (hcont : dcontains o name = true)
    (ho' : o' = if filtered.isEmpty then
        ddel (dset o name (.dict filtered)) name
      else dset o name (.dict filtered)) :
    (∀ k', k' ≠ name → dget o' k' = dget o k') ∧
    (∀ k', k' ≠ name → dcontains o' k' = dcontains o k') ∧
    (dget o' name = if filtered.isEmpty then none
      else some (.dict filtered)) ∧
    (dcontains o' name = !filtered.isEmpty) ∧
    ((o'.map Prod.fst).Nodup) := by
  have hnd1 : ((dset o name (.dict filtered)).map Prod.fst).Nodup :=
    nodup_dset_of_contains _ _ _ hcont hnd
  by_cases he : filtered.isEmpty
  · rw [ho', if_pos he]
    have hnc := dcontains_ddel_self (dset o name (.dict filtered)) name hnd1
    refine ⟨?_, ?_, ?_, ?_, ?_⟩
    · intro k' hk'
      rw [dget_ddel_ne _ _ _ hk', dget_dset_ne _ _ _ _ hk']
    · intro k' hk'
      rw [dcontains_ddel_ne _ _ _ hk', dcontains_dset_ne _ _ _ _ hk']
    · rw [if_pos he]
      exact dget_eq_none_of_not_contains _ _ hnc
    · rw [hnc, he]; rfl
    · exact nodup_ddel _ _ hnd1
  · rw [ho', if_neg he]
    refine ⟨?_, ?_, ?_, ?_, ?_⟩
    · intro k' hk'
      rw [dget_dset_ne _ _ _ _ hk']
    · intro k' hk'
      rw [dcontains_dset_ne _ _ _ _ hk']
    · rw [if_neg he]
      exact dget_dset_self _ _ _
    · rw [dcontains_dset_self]
      simp only [Bool.not_eq_true'] at he ⊢
      simp [he]
    · exact hnd1

/-- C2.  Sparse-fieldset filtering: when every requested field exists,
`_limit_fields` succeeds and the surviving attribute/relationship keys
are exactly the requested set intersected with the available keys, with
an `attributes`/`relationships` map that would become empty omitted
entirely; when any requested field is unknown it raises one
`CompositeError` holding exactly one `BadRequest` per unknown field. -/
theorem C2_limit_fields (req : Request) (obj : Entries) (T raw : String)
    (As Rs : Entries)
    (hnd : (obj.map Prod.fst).Nodup)
    (hT : dget obj "type" = some (.str T))
    (hA : dget obj "attributes" = some (.dict As))
    (hR : dget obj "relationships" = some (.dict Rs))
    (hq : qdGet req.GET ("fields[" ++ T ++ "]") = some raw)
    (hqc : qdContains req.GET ("fields[" ++ T ++ "]") = true) :
    ((∀ f ∈ pySet (raw.splitOn ","),
        f ∈ As.map Prod.fst ∨ f ∈ Rs.map Prod.fst) →
      ∃ out, limit_fields req obj = .ok out ∧
        (∀ k, k ∈ fieldKeys out ↔
          (k ∈ pySet (raw.splitOn ",") ∧
            (k ∈ As.map Prod.fst ∨ k ∈ Rs.map Prod.fst))) ∧
        (dcontains out "attributes" = true ↔
          ∃ k ∈ As.map Prod.fst, k ∈ pySet (raw.splitOn ",")) ∧
        (dcontains out "relationships" = true ↔
          ∃ k ∈ Rs.map Prod.fst, k ∈ pySet (raw.splitOn ","))) ∧
    ((∃ f ∈ pySet (raw.splitOn ","),
        f ∉ As.map Prod.fst ∧ f ∉ Rs.map Prod.fst) →
      ∃ errs, limit_fields req obj = .error (.dj (.multi errs)) ∧
        errs.length = ((pySet (raw.splitOn ",")).filter
          (fun f => f ∉ As.map Prod.fst ∧ f ∉ Rs.map Prod.fst)).length ∧
        ∀ e ∈ errs, e.cls = BadRequestCls) := by
  have hAc : dcontains obj "attributes" = true := dcontains_of_dget _ _ _ hA
  have hbase : limit_fields req obj = (do
      let fields := pySet (raw.splitOn ",")
      let unknown := fields.filter (fun f =>
        ¬ (f ∈ As.map Prod.fst ∨ f ∈ Rs.map Prod.fst))
      let errors := unknown.map (fun f =>
        mkSingle BadRequestCls
          (some ("Field in 'fields' parameter is not part of the response ('"
            ++ f ++ "' was unexpected)"))
          none (some ("patameter", "fields[" ++ T ++ "]")))
      if errors.isEmpty = false then
        throw (Err.dj (.multi errors))
      else do
        let obj1 ← match dget obj "attributes" with
          | none => pure obj
          | some (.dict es) =>
              let filtered := es.filter (fun e => e.1 ∈ fields)
              let obj' := dset obj "attributes" (.dict filtered)
              pure (if filtered.isEmpty then ddel obj' "attributes" else obj')
          | some _ => throw (Err.py .attributeError)
        let obj2 ← match dget obj1 "relationships" with
          | none => pure obj1
          | some (.dict es) =>
              let filtered := es.filter (fun e => e.1 ∈ fields)
              let obj' := dset obj1 "relationships" (.dict filtered)
              pure (if filtered.isEmpty then ddel obj' "relationships" else obj')
          | some _ => throw (Err.py .attributeError)
        pure obj2 : Except Err Entries) := by
    simp only [limit_fields, hT, pure_bind, pyStr, hqc, hq, hA, hR]
    simp
  constructor
  · -- every requested field exists
    intro hall
    have hunk : (pySet (raw.splitOn ",")).filter (fun f =>
        ¬ (f ∈ As.map Prod.fst ∨ f ∈ Rs.map Prod.fst)) = [] := by
      rw [List.filter_eq_nil_iff]
      intro f hf
      simp only [decide_not, Bool.not_eq_true', decide_eq_false_iff_not,
        not_not]
      exact hall f hf
    rw [hbase]
    simp only [hunk, List.map_nil, List.isEmpty_nil]
    rw [if_neg (by decide : ¬ (true = false))]
    simp only [hA, pure_bind]
    set Af := As.filter (fun e =>
      e.1 ∈ pySet (raw.splitOn ",")) with hAfdef
    set Rf := Rs.filter (fun e =>
      e.1 ∈ pySet (raw.splitOn ",")) with hRfdef
    set objA : Entries := if Af.isEmpty then
        ddel (dset obj "attributes" (.dict Af)) "attributes"
      else dset obj "attributes" (.dict Af) with hobjA
    obtain ⟨hA_ne, hA_nc, hA_get, hA_cont, hA_nd⟩ :=
      filter_step_facts obj "attributes" Af objA hnd hAc hobjA
    have hobjA_rel : dget objA "relationships" = some (.dict Rs) := by
      rw [hA_ne "relationships" (by decide)]
      exact hR
    simp only [hobjA_rel, pure_bind]
    set objR : Entries := if Rf.isEmpty then
        ddel (dset objA "relationships" (.dict Rf)) "relationships"
      else dset objA "relationships" (.dict Rf) with hobjR
    have hRc : dcontains objA "relationships" = true :=
      dcontains_of_dget _ _ _ hobjA_rel
    obtain ⟨hR_ne, hR_nc, hR_get, hR_cont, hR_nd⟩ :=
      filter_step_facts objA "relationships" Rf objR hA_nd hRc hobjR
    refine ⟨objR, ?_, ?_, ?_, ?_⟩
    · rfl
    · -- surviving keys are exactly requested ∩ available
      intro k
      have hfk : fieldKeys objR = Af.map Prod.fst ++ Rf.map Prod.fst := by
        unfold fieldKeys
        rw [hR_ne "attributes" (by decide), hA_get, hR_get]
        by_cases h1 : Af.isEmpty
        · rw [if_pos h1, List.isEmpty_iff.mp h1]
          by_cases h2 : Rf.isEmpty
          · rw [if_pos h2, List.isEmpty_iff.mp h2]
            simp
          · rw [if_neg h2]
            simp
        · rw [if_neg h1]
          by_cases h2 : Rf.isEmpty
          · rw [if_pos h2, List.isEmpty_iff.mp h2]
            simp
          · rw [if_neg h2]
      rw [hfk]
      simp only [List.mem_append, hAfdef, hRfdef, mem_map_fst_filter]
      tauto
    · -- attributes omitted iff empty after filtering
      rw [hR_nc "attributes" (by decide), hA_cont]
      cases hAe : Af.isEmpty
      · have hne : Af ≠ [] := fun hnil => by
          rw [hnil] at hAe; simp at hAe
        simp only [Bool.not_false]
        exact iff_of_true (by simp)
          ((filter_fst_ne_nil_iff As _).mp (hAfdef ▸ hne))
      · have hnil : Af = [] := List.isEmpty_iff.mp hAe
        simp only [Bool.not_true]
        refine iff_of_false (by simp) ?_
        intro hex
        exact absurd hnil ((filter_fst_ne_nil_iff As _).mpr hex)
    · -- relationships omitted iff empty after filtering
      rw [hR_cont]
      cases hRe : Rf.isEmpty
      · have hne : Rf ≠ [] := fun hnil => by
          rw [hnil] at hRe; simp at hRe
        simp only [Bool.not_false]
        exact iff_of_true (by simp)
          ((filter_fst_ne_nil_iff Rs _).mp (hRfdef ▸ hne))
      · have hnil : Rf = [] := List.isEmpty_iff.mp hRe
        simp only [Bool.not_true]
        refine iff_of_false (by simp) ?_
        intro hex
        exact absurd hnil ((filter_fst_ne_nil_iff Rs _).mpr hex)
  · -- some requested field is unknown
    intro hex
    rcases hu : (pySet (raw.splitOn ",")).filter (fun f =>
        ¬ (f ∈ As.map Prod.fst ∨ f ∈ Rs.map Prod.fst)) with _ | ⟨e0, rest⟩
    · exfalso
      rcases hex with ⟨f, hf, hfA, hfR⟩
      have hmem : f ∈ (pySet (raw.splitOn ",")).filter (fun f =>
          ¬ (f ∈ As.map Prod.fst ∨ f ∈ Rs.map Prod.fst)) :=
        List.mem_filter.mpr
          ⟨hf, decide_eq_true (fun h => h.elim hfA hfR)⟩
      rw [hu] at hmem
      exact List.not_mem_nil f hmem
    · refine ⟨(e0 :: rest).map (fun f =>
        mkSingle BadRequestCls
          (some ("Field in 'fields' parameter is not part of the response ('"
            ++ f ++ "' was unexpected)"))
          none (some ("patameter", "fields[" ++ T ++ "]"))), ?_, ?_, ?_⟩
      · rw [hbase]
        simp only [hu, List.map_cons, List.isEmpty_cons]
        rfl
      · rw [List.length_map]
        have hcong : (pySet (raw.splitOn ",")).filter (fun f =>
            f ∉ As.map Prod.fst ∧ f ∉ Rs.map Prod.fst) =
            (pySet (raw.splitOn ",")).filter (fun f =>
            ¬ (f ∈ As.map Prod.fst ∨ f ∈ Rs.map Prod.fst)) := by
          apply List.filter_congr
          intro f _
          simp [not_or]
        rw [hcong, hu]
      · intro e he
        rcases List.mem_map.mp he with ⟨f, _, rfl⟩
        rfl

/-- C2 witness: an article object with attributes
`slug, title, content` and relationships `author, categories`, requested
fields `slug,title`. -/
theorem C2_limit_fields_witness :
    ((∀ f ∈ pySet ("slug,title".splitOn ","),
        f ∈ ([("slug", Val.str "s"), ("title", Val.str "t"),
              ("content", Val.str "c")] : Entries).map Prod.fst ∨
        f ∈ ([("author", Val.dict []), ("categories", Val.dict [])] :
              Entries).map Prod.fst) →
      ∃ out, limit_fields
          ⟨"GET", "/articles/1", "fields[articles]=slug,title",
            [("fields[articles]", ["slug,title"])]⟩
          [("type", Val.str "articles"), ("id", Val.str "1"),
           ("attributes", Val.dict [("slug", Val.str "s"),
             ("title", Val.str "t"), ("content", Val.str "c")]),
           ("relationships", Val.dict [("author", Val.dict []),
             ("categories", Val.dict [])])] = .ok out ∧
        (∀ k, k ∈ fieldKeys out ↔
          (k ∈ pySet ("slug,title".splitOn ",") ∧
            (k ∈ ([("slug", Val.str "s"), ("title", Val.str "t"),
                   ("content", Val.str "c")] : Entries).map Prod.fst ∨
             k ∈ ([("author", Val.dict []), ("categories", Val.dict [])] :
                   Entries).map Prod.fst))) ∧
        (dcontains out "attributes" = true ↔
          ∃ k ∈ ([("slug", Val.str "s"), ("title", Val.str "t"),
                  ("content", Val.str "c")] : Entries).map Prod.fst,
            k ∈ pySet ("slug,title".splitOn ",")) ∧
        (dcontains out "relationships" = true ↔
          ∃ k ∈ ([("author", Val.dict []), ("categories", Val.dict [])] :
                  Entries).map Prod.fst,
            k ∈ pySet ("slug,title".splitOn ","))) ∧
    ((∃ f ∈ pySet ("slug,title".splitOn ","),
        f ∉ ([("slug", Val.str "s"), ("title", Val.str "t"),
              ("content", Val.str "c")] : Entries).map Prod.fst ∧
        f ∉ ([("author", Val.dict []), ("categories", Val.dict [])] :
              Entries).map Prod.fst) →
      ∃ errs, limit_fields
          ⟨"GET", "/articles/1", "fields[articles]=slug,title",
            [("fields[articles]", ["slug,title"])]⟩
          [("type", Val.str "articles"), ("id", Val.str "1"),
           ("attributes", Val.dict [("slug", Val.str "s"),
             ("title", Val.str "t"), ("content", Val.str "c")]),
           ("relationships", Val.dict [("author", Val.dict []),
             ("categories", Val.dict [])])] =
               .error (.dj (.multi errs)) ∧
        errs.length = ((pySet ("slug,title".splitOn ",")).filter
          (fun f => f ∉ ([("slug", Val.str "s"), ("title", Val.str "t"),
              ("content", Val.str "c")] : Entries).map Prod.fst ∧
            f ∉ ([("author", Val.dict []), ("categories", Val.dict [])] :
              Entries).map Prod.fst)).length ∧
        ∀ e ∈ errs, e.cls = BadRequestCls) :=
  C2_limit_fields
    ⟨"GET", "/articles/1", "fields[articles]=slug,title",
      [("fields[articles]", ["slug,title"])]⟩
    [("type", Val.str "articles"), ("id", Val.str "1"),
     ("attributes", Val.dict [("slug", Val.str "s"),
       ("title", Val.str "t"), ("content", Val.str "c")]),
     ("relationships", Val.dict [("author", Val.dict []),
       ("categories", Val.dict [])])]
    "articles" "slug,title"
    [("slug", Val.str "s"), ("title", Val.str "t"), ("content", Val.str "c")]
    [("author", Val.dict []), ("categories", Val.dict [])]
    (by decide) rfl rfl rfl rfl rfl

/-! ## resources.py — `_decorate_serialized`

`reverse` is the opaque parameter `rev : String → String → Option String`
(route name, the `str()` of the `obj_id` kwarg); `none` is
`NoReverseMatch`.  Relationship classification follows the source's
`isinstance` tests: note that a Python `str` is a `Sequence`, so a
string-valued relationship (or `data`) takes the to-many branch and is
iterated character by character. -/

/-- `es[k]` on a dict's entries: `KeyError` when the key is missing. -/
def dgetE (es : Entries) (k : String) : Except Err Val :=
  match dget es k with
  | some v => pure v
  | none => throw (Err.py .keyError)

/-- `value[k]` subscription: `TypeError` on a non-dict, `KeyError` on a
missing key. -/
def subscr (v : Val) (k : String) : Except Err Val :=
  match v with
  | .dict m =>
      match dget m k with
      | some x => pure x
      | none => throw (Err.py .keyError)
  | _ => throw (Err.py .typeError)

/-- `isinstance(v, Sequence)` over the embedded values (strings and
lists; Python tuples do not occur in the source's documents). -/
def isSeq : Val → Bool
  | .list _ => true
  | .str _ => true
  | _ => false

/-- The to-one test of line 359: a bare `Resource`, or a mapping with a
non-`Sequence` `data`. -/
def toOneCond : Val → Bool
  | .res _ _ => true
  | .dict m =>
      match dget m "data" with
      | some d => !(isSeq d)
      | none => false
  | _ => false

/-- `target.setdefault('links', {}).setdefault(k, url)` on a dict's
entries (an `AttributeError` when an existing `links` is not a dict). -/
def setdefault_link (es : Entries) (k : String) (url : String) :
    Except Err Entries :=
  match dget es "links" with
  | none => pure (dset es "links" (.dict [(k, .str url)]))
  | some (.dict inner) =>
      pure (dset es "links" (.dict (dsetdefaultD inner k (.str url))))
  | some _ => throw (Err.py .attributeError)

/-- One `try: url = reverse(...) except NoReverseMatch: pass else:
setdefault` block. -/
def trySetLink (es : Entries) (k : String) (url? : Option String) :
    Except Err Entries :=
  match url? with
  | none => pure es
  | some url => setdefault_link es k url

/-- Normalization of a to-many `data` item (`{'type','id'}` for a
`Resource`, unchanged otherwise). -/
def manyItem : Val → Val
  | .res t o => .dict [("type", .str t), ("id", .str o)]
  | other => other

/-- Wrapping of a bare to-one value:
`relationship = result['relationships'][key] = \x7b'data': relationship\x7d`
for a non-mapping, identity for a mapping. -/
def asToOneEntries (v : Val) : Except Err Entries :=
  match v with
  | .res t o => pure [("data", Val.res t o)]
  | .dict m => pure m
  | _ => throw (Err.py .typeError)

/-- `relationship['data'] = \x7b'type': ..., 'id': str(...)\x7d` when `data`
is a `Resource`. -/
def convertResData (rel : Entries) : Entries :=
  match dget rel "data" with
  | some (.res t o) =>
      dset rel "data" (.dict [("type", .str t), ("id", .str o)])
  | _ => rel

/-- The to-one arm of the relationship loop (lines 358–403). -/
def procToOne (rev : String → String → Option String) (TYPE : String)
    (key : String) (idv : Val) (v : Val) : Except Err Val := do
  let rel ← asToOneEntries v
  let rel := convertResData rel
  let data ← dgetE rel "data"
  let rel ← trySetLink rel "related" (rev (TYPE ++ "_get_" ++ key) (pyStr idv))
  let dtype ← subscr data "type"
  let did ← subscr data "id"
  let rel ← trySetLink rel "related" (rev (pyStr dtype ++ "_object") (pyStr did))
  let rel ← trySetLink rel "self"
    (rev (TYPE ++ "_" ++ key ++ "_relationship") (pyStr idv))
  pure (.dict rel)

/-- Wrapping of a bare to-many value (a sequence becomes
`\x7b'data': sequence\x7d`). -/
def asToManyEntries (v : Val) : Except Err Entries :=
  match v with
  | .list xs => pure [("data", Val.list xs)]
  | .str s => pure [("data", Val.str s)]
  | .dict m => pure m
  | _ => throw (Err.py .typeError)

/-- To-many `data` normalization: each item of a list, or each character
of a string, through `manyItem`. -/
def normManyData (rel : Entries) : Entries :=
  match dget rel "data" with
  | some (.list xs) => dset rel "data" (.list (xs.map manyItem))
  | some (.str s) =>
      dset rel "data" (.list (s.toList.map (fun c => .str (String.mk [c]))))
  | _ => rel

/-- The to-many arm (lines 405–439).  `data` here is always a list or a
string: a mapping-valued `data` classifies as to-one, so the wildcard arm
of `normManyData` is only the no-`data` case. -/
def procToMany (rev : String → String → Option String) (TYPE : String)
    (key : String) (idv : Val) (v : Val) : Except Err Val := do
  let rel ← asToManyEntries v
  let rel := normManyData rel
  let rel ← trySetLink rel "self"
    (rev (TYPE ++ "_" ++ key ++ "_plural_relationship") (pyStr idv))
  let rel ← trySetLink rel "related" (rev (TYPE ++ "_get_" ++ key) (pyStr idv))
  pure (.dict rel)

/-- `isinstance(v, Mapping)`. -/
def isMapping : Val → Bool
  | .dict _ => true
  | _ => false

/-- One iteration of the relationship loop: to-one, to-many, or (for any
other value) no change. -/
def procRel (rev : String → String → Option String) (TYPE : String)
    (idv : Val) (key : String) (v : Val) : Except Err Val :=
  if toOneCond v then procToOne rev TYPE key idv v
  else if isSeq v || isMapping v then procToMany rev TYPE key idv v
  else pure v

/-- The relationship loop over `result.get('relationships', {})`: each
entry's processed value is written back at its key. -/
def decorate_rels (rev : String → String → Option String) (TYPE : String)
    (idv : Val) (es : Entries) : Except Err Entries :=
  match dget es "relationships" with
  | none => pure es
  | some (.dict rels) => do
      let rels' ← rels.foldlM (fun cur kv => do
        let v' ← procRel rev TYPE idv kv.1 kv.2
        pure (dset cur kv.1 v')) rels
      pure (dset es "relationships" (.dict rels'))
  | some _ => throw (Err.py .attributeError)

/-- A dict value's entries (`AttributeError` from `.setdefault` on
anything else). -/
def asDict (v : Val) : Except Err Entries :=
  match v with
  | .dict es => pure es
  | _ => throw (Err.py .attributeError)

/-- `Resource._decorate_serialized`: `deepcopy` (identity on values),
`setdefault` of `type`, the object `self` link, the relationship loop,
then `_limit_fields`. -/
def decorate_serialized (rev : String → String → Option String)
    (TYPE : String) (req : Request) (serialized : Val) :
    Except Err Entries := do
  let es ← asDict serialized
  let es := dsetdefaultD es "type" (.str TYPE)
  let idv ← dgetE es "id"
  let es ← trySetLink es "self" (rev (TYPE ++ "_object") (pyStr idv))
  let es ← decorate_rels rev TYPE idv es
  limit_fields req es

/-! ## Lemmas towards decoration idempotence (C3) -/

theorem bind_ok_iff {α β : Type} (a : Except Err α) (f : α → Except Err β)
    (c : β) : (a >>= f) = .ok c ↔ ∃ b, a = .ok b ∧ f b = .ok c := by
  cases a <;> simp [Bind.bind, Except.bind]

theorem dset_eq_of_dget (es : Entries) (k : String) (v : Val)
    (h : dget es k = some v) : dset es k v = es := by
  induction es with
  | nil => simp [dget, List.find?] at h
  | cons e es ih =>
      obtain ⟨k₀, v₀⟩ := e
      by_cases h0 : k₀ = k
      · subst h0
        have : v₀ = v := by
          simpa [dget, List.find?] using h
        subst this
        simp [dset]
      · have h' : dget es k = some v := by
          simpa [dget, List.find?, h0] using h
        simp [dset, h0, ih h']

theorem dcontains_dsetdefaultD_self (es : Entries) (k : String) (v : Val) :
    dcontains (dsetdefaultD es k v) k = true := by
  unfold dsetdefaultD
  cases hc : dcontains es k
  · simp only [Bool.false_eq_true, if_false]
    rw [dcontains_eq_true_iff]
    simp
  · simpa using hc

theorem dget_dsetdefaultD_ne (es : Entries) (k k' : String) (v : Val)
    (h : k' ≠ k) : dget (dsetdefaultD es k v) k' = dget es k' := by
  unfold dsetdefaultD
  cases hc : dcontains es k
  · simp only [Bool.false_eq_true, if_false]
    unfold dget
    rw [List.find?_append]
    cases hf : es.find? (fun e => e.1 = k')
    · simp [List.find?, show decide (k = k') = false from by
        simpa using fun hh : k = k' => h hh.symm]
    · simp
  · simp

theorem dget_dsetdefaultD_of_not_contains (es : Entries) (k : String)
    (v : Val) (h : dcontains es k = false) :
    dget (dsetdefaultD es k v) k = some v := by
  unfold dsetdefaultD
  rw [h]
  simp only [Bool.false_eq_true, if_false]
  unfold dget
  rw [List.find?_append, List.find?_eq_none.mpr]
  · simp [List.find?]
  · intro x hx hx1
    have : dcontains es k = true := by
      simp only [dcontains, List.any_eq_true]
      exact ⟨x, hx, hx1⟩
    rw [h] at this
    exact Bool.false_ne_true this

theorem throw_eq {α : Type} (e : Err) : (throw e : Except Err α) = .error e :=
  rfl

theorem pure_eq {α : Type} (a : α) : (pure a : Except Err α) = .ok a := rfl

theorem throw_bind {α β : Type} (e : Err) (f : α → Except Err β) :
    ((throw e : Except Err α) >>= f) = throw e := rfl

theorem error_bind {α β : Type} (e : Err) (f : α → Except Err β) :
    ((Except.error e : Except Err α) >>= f) = .error e := rfl

theorem dcontains_eq_false_of_dget_none (es : Entries) (k : String)
    (h : dget es k = none) : dcontains es k = false := by
  cases hc : dcontains es k
  · rfl
  · exfalso
    rcases List.mem_map.mp ((dcontains_eq_true_iff es k).mp hc) with ⟨e, he, hek⟩
    unfold dget at h
    rw [Option.map_eq_none'] at h
    rw [List.find?_eq_none] at h
    exact h e he (by simpa using hek)

theorem dset_append_of_not_contains (es : Entries) (k : String) (v : Val)
    (h : dcontains es k = false) : dset es k v = es ++ [(k, v)] := by
  induction es with
  | nil => simp [dset]
  | cons e es ih =>
      obtain ⟨k₀, v₀⟩ := e
      rw [dcontains, List.any_cons] at h
      simp only [Bool.or_eq_false_iff] at h
      have h0 : k₀ ≠ k := by simpa using h.1
      rw [dset, if_neg h0, ih h.2]
      simp

theorem dsetdefaultD_of_contains (es : Entries) (k : String) (v : Val)
    (h : dcontains es k = true) : dsetdefaultD es k v = es := by
  unfold dsetdefaultD
  rw [h]
  simp

/-- `setdefault_link` succeeds again on its own output without changing
it, and touches only the `links` key. -/
theorem setdefault_link_facts (es : Entries) (k : String) (url : String)
    (out : Entries) (h : setdefault_link es k url = .ok out) :
    setdefault_link out k url = .ok out ∧
    (∀ k', k' ≠ "links" → dget out k' = dget es k') ∧
    (∀ k', k' ≠ "links" → dcontains out k' = dcontains es k') ∧
    ((es.map Prod.fst).Nodup → (out.map Prod.fst).Nodup) := by
  unfold setdefault_link at h
  rcases hl : dget es "links" with _ | lv
  · rw [hl] at h
    simp only [pure_eq, Except.ok.injEq] at h
    subst h
    have hlc : dcontains es "links" = false :=
      dcontains_eq_false_of_dget_none es "links" hl
    refine ⟨?_, ?_, ?_, ?_⟩
    · have hdef : dsetdefaultD [(k, Val.str url)] k (.str url) =
          [(k, Val.str url)] := by
        unfold dsetdefaultD
        rw [(dcontains_eq_true_iff _ _).mpr (by simp)]
        simp
      have hstep : setdefault_link
          (dset es "links" (Val.dict [(k, Val.str url)])) k url =
          pure (dset (dset es "links" (Val.dict [(k, Val.str url)]))
            "links" (Val.dict (dsetdefaultD [(k, Val.str url)] k
              (.str url)))) := by
        unfold setdefault_link
        rw [dget_dset_self]
      rw [hstep, hdef, dset_eq_of_dget _ _ _ (dget_dset_self _ _ _)]
      rfl
    · intro k' hk'
      exact dget_dset_ne _ _ _ _ hk'
    · intro k' hk'
      exact dcontains_dset_ne _ _ _ _ hk'
    · intro hnd
      rw [dset_append_of_not_contains _ _ _ hlc, List.map_append,
        List.nodup_append]
      refine ⟨hnd, by simp, ?_⟩
      intro x hx
      simp only [List.map_cons, List.map_nil, List.mem_singleton]
      intro hxl
      subst hxl
      rw [← dcontains_eq_true_iff] at hx
      rw [hlc] at hx
      exact Bool.false_ne_true hx
  · cases lv with
    | dict inner =>
        rw [hl] at h
        simp only [pure_eq, Except.ok.injEq] at h
        subst h
        refine ⟨?_, ?_, ?_, ?_⟩
        · have hc : dcontains (dsetdefaultD inner k (.str url)) k = true :=
            dcontains_dsetdefaultD_self _ _ _
          have hdef : dsetdefaultD (dsetdefaultD inner k (.str url)) k
              (.str url) = dsetdefaultD inner k (.str url) :=
            dsetdefaultD_of_contains _ _ _ hc
          have hstep : setdefault_link
              (dset es "links" (Val.dict (dsetdefaultD inner k (.str url))))
              k url =
              pure (dset
                (dset es "links" (Val.dict (dsetdefaultD inner k (.str url))))
                "links" (Val.dict (dsetdefaultD
                  (dsetdefaultD inner k (.str url)) k (.str url)))) := by
            unfold setdefault_link
            rw [dget_dset_self]
          rw [hstep, hdef, dset_eq_of_dget _ _ _ (dget_dset_self _ _ _)]
          rfl
        · intro k' hk'
          exact dget_dset_ne _ _ _ _ hk'
        · intro k' hk'
          exact dcontains_dset_ne _ _ _ _ hk'
        · intro hnd
          exact nodup_dset_of_contains _ _ _ (dcontains_of_dget _ _ _ hl) hnd
    | null => rw [hl, throw_eq] at h; exact absurd h (by simp)
    | bool b => rw [hl, throw_eq] at h; exact absurd h (by simp)
    | int n => rw [hl, throw_eq] at h; exact absurd h (by simp)
    | str s => rw [hl, throw_eq] at h; exact absurd h (by simp)
    | list xs => rw [hl, throw_eq] at h; exact absurd h (by simp)
    | res t o => rw [hl, throw_eq] at h; exact absurd h (by simp)

/-- `trySetLink` (one reverse-with-setdefault block) is idempotent and
touches only `links`. -/
theorem trySetLink_facts (es : Entries) (k : String) (url? : Option String)
    (out : Entries) (h : trySetLink es k url? = .ok out) :
    trySetLink out k url? = .ok out ∧
    (∀ k', k' ≠ "links" → dget out k' = dget es k') ∧
    (∀ k', k' ≠ "links" → dcontains out k' = dcontains es k') ∧
    ((es.map Prod.fst).Nodup → (out.map Prod.fst).Nodup) := by
  cases url? with
  | none =>
      have : out = es := by simpa [trySetLink, pure_eq] using h.symm
      subst this
      exact ⟨h, fun _ _ => rfl, fun _ _ => rfl, id⟩
  | some url =>
      exact setdefault_link_facts es k url out h

/-- The target dict already carries `links[k]`. -/
def LinkSet (es : Entries) (k : String) : Prop :=
  ∃ inner, dget es "links" = some (.dict inner) ∧ dcontains inner k = true

theorem setdefault_link_eval (es : Entries) (k : String) (url : String)
    (inner : Entries) (hl : dget es "links" = some (.dict inner)) :
    setdefault_link es k url =
      .ok (dset es "links" (.dict (dsetdefaultD inner k (.str url)))) := by
  unfold setdefault_link
  rw [hl]
  exact rfl

theorem trySetLink_noop_of_linkset (es : Entries) (k : String)
    (url? : Option String) (h : LinkSet es k) :
    trySetLink es k url? = .ok es := by
  cases url? with
  | none => rfl
  | some url =>
      rcases h with ⟨inner, hl, hc⟩
      rw [trySetLink, setdefault_link_eval es k url inner hl,
        dsetdefaultD_of_contains _ _ _ hc, dset_eq_of_dget _ _ _ hl]

theorem trySetLink_linkset_of_some (es : Entries) (k : String)
    (url : String) (out : Entries)
    (h : trySetLink es k (some url) = .ok out) : LinkSet out k := by
  rw [trySetLink] at h
  unfold setdefault_link at h
  rcases hl : dget es "links" with _ | lv
  · rw [hl] at h
    simp only [pure_eq, Except.ok.injEq] at h
    subst h
    exact ⟨[(k, .str url)], dget_dset_self _ _ _,
      (dcontains_eq_true_iff _ _).mpr (by simp)⟩
  · cases lv with
    | dict inner =>
        rw [hl] at h
        simp only [pure_eq, Except.ok.injEq] at h
        subst h
        exact ⟨dsetdefaultD inner k (.str url), dget_dset_self _ _ _,
          dcontains_dsetdefaultD_self _ _ _⟩
    | null => rw [hl, throw_eq] at h; exact absurd h (by simp)
    | bool b => rw [hl, throw_eq] at h; exact absurd h (by simp)
    | int n => rw [hl, throw_eq] at h; exact absurd h (by simp)
    | str s => rw [hl, throw_eq] at h; exact absurd h (by simp)
    | list xs => rw [hl, throw_eq] at h; exact absurd h (by simp)
    | res t o => rw [hl, throw_eq] at h; exact absurd h (by simp)

theorem dcontains_dsetdefaultD_mono (es : Entries) (k k' : String) (v : Val)
    (h : dcontains es k' = true) :
    dcontains (dsetdefaultD es k v) k' = true := by
  unfold dsetdefaultD
  cases hc : dcontains es k
  · simp only [Bool.false_eq_true, if_false]
    rw [dcontains_eq_true_iff] at h ⊢
    rw [List.map_append]
    exact List.mem_append_left _ h
  · simpa using h

theorem trySetLink_preserves_linkset (es : Entries) (k k' : String)
    (url? : Option String) (out : Entries)
    (hls : LinkSet es k') (h : trySetLink es k url? = .ok out) :
    LinkSet out k' := by
  cases url? with
  | none =>
      have : out = es := by simpa [trySetLink, pure_eq] using h.symm
      subst this
      exact hls
  | some url =>
      rcases hls with ⟨inner, hl, hc⟩
      rw [trySetLink, setdefault_link_eval es k url inner hl] at h
      simp only [Except.ok.injEq] at h
      subst h
      exact ⟨dsetdefaultD inner k (.str url), dget_dset_self _ _ _,
        dcontains_dsetdefaultD_mono _ _ _ _ hc⟩

theorem subscr_ok (d : Val) (k : String) (x : Val) (h : subscr d k = .ok x) :
    ∃ dm, d = .dict dm ∧ dget dm k = some x := by
  cases d with
  | dict m =>
      refine ⟨m, rfl, ?_⟩
      rcases hg : dget m k with _ | y
      · simp [subscr, hg, throw_eq] at h
      · simp only [subscr, hg, pure_eq, Except.ok.injEq] at h
        rw [h]
  | null => exact absurd h (by simp [subscr, throw_eq])
  | bool b => exact absurd h (by simp [subscr, throw_eq])
  | int n => exact absurd h (by simp [subscr, throw_eq])
  | str s => exact absurd h (by simp [subscr, throw_eq])
  | list xs => exact absurd h (by simp [subscr, throw_eq])
  | res t o => exact absurd h (by simp [subscr, throw_eq])

theorem dgetE_ok (es : Entries) (k : String) (x : Val)
    (h : dgetE es k = .ok x) : dget es k = some x := by
  unfold dgetE at h
  rcases hg : dget es k with _ | y
  · rw [hg, throw_eq] at h
    exact absurd h (by simp)
  · rw [hg] at h
    simp only [pure_eq, Except.ok.injEq] at h
    rw [h]

/-- A successful to-one decoration is a fixed point of the to-one arm:
its `data` is a non-`Sequence` dict, the reverse lookups repeat
identically and every `setdefault` finds its key present. -/
theorem procToOne_facts (rev : String → String → Option String)
    (TYPE key : String) (idv : Val) (v w : Val)
    (h : procToOne rev TYPE key idv v = .ok w) :
    toOneCond w = true ∧ procToOne rev TYPE key idv w = .ok w := by
  unfold procToOne at h
  simp only [bind_ok_iff] at h
  obtain ⟨rel₀, h₀, data, hdata, rel₃, h₃, dtype, hdtype, did, hdid,
    rel₄, h₄, rel₅, h₅, hw⟩ := h
  have hw' : w = .dict rel₅ := by
    simpa [pure_eq] using hw.symm
  subst hw'
  have hget1 : dget (convertResData rel₀) "data" = some data :=
    dgetE_ok _ _ _ hdata
  obtain ⟨dm, hdm, hdmty⟩ := subscr_ok data "type" dtype hdtype
  obtain ⟨dm', hdm', hdmid⟩ := subscr_ok data "id" did hdid
  have hdmeq : dm' = dm := by
    rw [hdm] at hdm'
    exact (Val.dict.injEq _ _ ▸ hdm').symm ▸ rfl
  -- data is preserved through the three link blocks
  have f₃ := trySetLink_facts _ _ _ _ h₃
  have f₄ := trySetLink_facts _ _ _ _ h₄
  have f₅ := trySetLink_facts _ _ _ _ h₅
  have hget5 : dget rel₅ "data" = some data := by
    rw [f₅.2.1 "data" (by decide), f₄.2.1 "data" (by decide),
      f₃.2.1 "data" (by decide)]
    exact hget1
  have hdata_dict : data = .dict dm := hdm
  constructor
  · rw [toOneCond, hget5, hdata_dict]
    rfl
  · -- the second pass
    unfold procToOne
    simp only [bind_ok_iff]
    refine ⟨rel₅, rfl, ?_⟩
    have hconv : convertResData rel₅ = rel₅ := by
      unfold convertResData
      rw [hget5, hdata_dict]
    rw [hconv]
    refine ⟨data, by unfold dgetE; rw [hget5]; rfl, ?_⟩
    -- first related block on the output is a no-op
    have hre₁ : trySetLink rel₅ "related"
        (rev (TYPE ++ "_get_" ++ key) (pyStr idv)) = .ok rel₅ := by
      rcases hu : rev (TYPE ++ "_get_" ++ key) (pyStr idv) with _ | url
      · rfl
      · refine trySetLink_noop_of_linkset _ _ _ ?_
        have hls₃ : LinkSet rel₃ "related" :=
          trySetLink_linkset_of_some _ _ _ _ (hu ▸ h₃)
        exact trySetLink_preserves_linkset _ _ _ _ _
          (trySetLink_preserves_linkset _ _ _ _ _ hls₃ h₄) h₅
    refine ⟨rel₅, hre₁, dtype, by rw [hdata_dict] at hdtype ⊢; exact hdtype,
      did, by rw [hdata_dict] at hdid ⊢; exact hdid, ?_⟩
    have hre₂ : trySetLink rel₅ "related"
        (rev (pyStr dtype ++ "_object") (pyStr did)) = .ok rel₅ := by
      rcases hu : rev (pyStr dtype ++ "_object") (pyStr did) with _ | url
      · rfl
      · refine trySetLink_noop_of_linkset _ _ _ ?_
        have hls₄ : LinkSet rel₄ "related" :=
          trySetLink_linkset_of_some _ _ _ _ (hu ▸ h₄)
        exact trySetLink_preserves_linkset _ _ _ _ _ hls₄ h₅
    refine ⟨rel₅, hre₂, ?_⟩
    have hre₃ : trySetLink rel₅ "self"
        (rev (TYPE ++ "_" ++ key ++ "_relationship") (pyStr idv)) =
        .ok rel₅ := by
      rcases hu : rev (TYPE ++ "_" ++ key ++ "_relationship") (pyStr idv)
        with _ | url
      · rfl
      · exact trySetLink_noop_of_linkset _ _ _
          (trySetLink_linkset_of_some _ _ _ _ (hu ▸ h₅))
    exact ⟨rel₅, hre₃, rfl⟩

theorem manyItem_idem (x : Val) : manyItem (manyItem x) = manyItem x := by
  cases x <;> rfl

theorem map_manyItem_idem (xs : List Val) :
    (xs.map manyItem).map manyItem = xs.map manyItem := by
  rw [List.map_map]
  apply List.map_congr_left
  intro x _
  exact manyItem_idem x

theorem asToManyEntries_ok (v : Val) (rel₀ : Entries)
    (h : asToManyEntries v = .ok rel₀) :
    (∃ xs, v = .list xs ∧ rel₀ = [("data", .list xs)]) ∨
    (∃ s, v = .str s ∧ rel₀ = [("data", .str s)]) ∨
    (∃ m, v = .dict m ∧ rel₀ = m) := by
  cases v with
  | list xs =>
      refine .inl ⟨xs, rfl, ?_⟩
      simpa [asToManyEntries, pure_eq] using h.symm
  | str s =>
      refine .inr (.inl ⟨s, rfl, ?_⟩)
      simpa [asToManyEntries, pure_eq] using h.symm
  | dict m =>
      refine .inr (.inr ⟨m, rfl, ?_⟩)
      simpa [asToManyEntries, pure_eq] using h.symm
  | null => exact absurd h (by simp [asToManyEntries, throw_eq])
  | bool b => exact absurd h (by simp [asToManyEntries, throw_eq])
  | int n => exact absurd h (by simp [asToManyEntries, throw_eq])
  | res t o => exact absurd h (by simp [asToManyEntries, throw_eq])

theorem normManyData_ne (rel : Entries) (k : String) (hk : k ≠ "data") :
    dget (normManyData rel) k = dget rel k := by
  unfold normManyData
  rcases hg : dget rel "data" with _ | d
  · rfl
  · cases d <;> first
      | rfl
      | exact dget_dset_ne _ _ _ _ hk

/-- After one pass of the to-many arm, `data` is either absent or a
normalized list; a second `normManyData` is then the identity. -/
theorem procToMany_facts (rev : String → String → Option String)
    (TYPE key : String) (idv : Val) (v w : Val)
    (hcond : toOneCond v = false)
    (h : procToMany rev TYPE key idv v = .ok w) :
    toOneCond w = false ∧ (∃ relF, w = .dict relF) ∧
    procToMany rev TYPE key idv w = .ok w := by
  unfold procToMany at h
  simp only [bind_ok_iff] at h
  obtain ⟨rel₀, h₀, rel₃, h₃, rel₅, h₅, hw⟩ := h
  have hw' : w = .dict rel₅ := by
    simpa [pure_eq] using hw.symm
  subst hw'
  -- data of `rel₀` is absent, a list, or a string
  have hd : dget rel₀ "data" = none ∨
      (∃ xs, dget rel₀ "data" = some (.list xs)) ∨
      (∃ s, dget rel₀ "data" = some (.str s)) := by
    rcases asToManyEntries_ok v rel₀ h₀ with ⟨xs, hv, hr⟩ | ⟨s, hv, hr⟩ |
      ⟨m, hv, hr⟩
    · subst hr; exact .inr (.inl ⟨xs, by simp [dget, List.find?]⟩)
    · subst hr; exact .inr (.inr ⟨s, by simp [dget, List.find?]⟩)
    · subst hr
      subst hv
      have hcond' : (match dget rel₀ "data" with
          | some d => !(isSeq d)
          | none => false) = false := hcond
      rcases hg : dget rel₀ "data" with _ | d
      · exact .inl rfl
      · rw [hg] at hcond'
        simp only [Bool.not_eq_false'] at hcond'
        cases d <;> simp [isSeq] at hcond'
        · exact .inr (.inr ⟨_, rfl⟩)
        · exact .inr (.inl ⟨_, rfl⟩)
  -- data of the normalized entries
  have hnorm : (dget (normManyData rel₀) "data" = none ∧
        normManyData rel₀ = rel₀) ∨
      (∃ ys, dget (normManyData rel₀) "data" = some (.list ys) ∧
        ys.map manyItem = ys) := by
    rcases hd with hg | ⟨xs, hg⟩ | ⟨s, hg⟩
    · refine .inl ⟨?_, ?_⟩
      · unfold normManyData
        rw [hg]
        simp [hg]
      · unfold normManyData
        rw [hg]
        try simp
    · refine .inr ⟨xs.map manyItem, ?_, map_manyItem_idem xs⟩
      unfold normManyData
      rw [hg]
      show dget (dset rel₀ "data" (Val.list (xs.map manyItem))) "data" = _
      rw [dget_dset_self]
    · refine .inr ⟨s.toList.map (fun c => .str (String.mk [c])), ?_, ?_⟩
      · unfold normManyData
        rw [hg]
        show dget (dset rel₀ "data"
          (Val.list (s.toList.map (fun c => .str (String.mk [c]))))) "data" = _
        rw [dget_dset_self]
      · rw [List.map_map]
        apply List.map_congr_left
        intro c _
        rfl
  have f₃ := trySetLink_facts _ _ _ _ h₃
  have f₅ := trySetLink_facts _ _ _ _ h₅
  have hget5 : dget rel₅ "data" = dget (normManyData rel₀) "data" := by
    rw [f₅.2.1 "data" (by decide), f₃.2.1 "data" (by decide)]
  refine ⟨?_, ⟨rel₅, rfl⟩, ?_⟩
  · show (match dget rel₅ "data" with
      | some d => !(isSeq d)
      | none => false) = false
    rcases hnorm with ⟨hg, _⟩ | ⟨ys, hg, _⟩
    · rw [hget5.trans hg]
    · rw [hget5.trans hg]
      rfl
  · unfold procToMany
    simp only [bind_ok_iff]
    refine ⟨rel₅, rfl, ?_⟩
    have hnorm5 : normManyData rel₅ = rel₅ := by
      rcases hnorm with ⟨hg, _⟩ | ⟨ys, hg, hys⟩
      · unfold normManyData
        rw [hget5.trans hg]
      · unfold normManyData
        rw [hget5.trans hg]
        show dset rel₅ "data" (Val.list (ys.map manyItem)) = rel₅
        rw [hys]
        exact dset_eq_of_dget _ _ _ (hget5.trans hg)
    rw [hnorm5]
    have hre₁ : trySetLink rel₅ "self"
        (rev (TYPE ++ "_" ++ key ++ "_plural_relationship") (pyStr idv)) =
        .ok rel₅ := by
      rcases hu : rev (TYPE ++ "_" ++ key ++ "_plural_relationship")
        (pyStr idv) with _ | url
      · rfl
      · refine trySetLink_noop_of_linkset _ _ _ ?_
        exact trySetLink_preserves_linkset _ _ _ _ _
          (trySetLink_linkset_of_some _ _ _ _ (hu ▸ h₃)) h₅
    refine ⟨rel₅, hre₁, ?_⟩
    have hre₂ : trySetLink rel₅ "related"
        (rev (TYPE ++ "_get_" ++ key) (pyStr idv)) = .ok rel₅ := by
      rcases hu : rev (TYPE ++ "_get_" ++ key) (pyStr idv) with _ | url
      · rfl
      · exact trySetLink_noop_of_linkset _ _ _
          (trySetLink_linkset_of_some _ _ _ _ (hu ▸ h₅))
    exact ⟨rel₅, hre₂, rfl⟩

/-- One relationship-loop iteration is idempotent. -/
theorem procRel_facts (rev : String → String → Option String)
    (TYPE : String) (idv : Val) (key : String) (v w : Val)
    (h : procRel rev TYPE idv key v = .ok w) :
    procRel rev TYPE idv key w = .ok w := by
  unfold procRel at h
  by_cases hone : toOneCond v = true
  · rw [if_pos hone] at h
    obtain ⟨hcw, hidem⟩ := procToOne_facts rev TYPE key idv v w h
    unfold procRel
    rw [if_pos hcw]
    exact hidem
  · rw [if_neg hone] at h
    have hone' : toOneCond v = false := by
      simpa using hone
    by_cases hmany : (isSeq v || isMapping v) = true
    · rw [if_pos hmany] at h
      obtain ⟨hcw, ⟨relF, hrelF⟩, hidem⟩ :=
        procToMany_facts rev TYPE key idv v w hone' h
      unfold procRel
      rw [if_neg (by simp [hcw]), if_pos (by subst hrelF; simp [isMapping])]
      exact hidem
    · rw [if_neg hmany] at h
      have hw : w = v := by
        simpa [pure_eq] using h.symm
      subst hw
      unfold procRel
      rw [if_neg hone, if_neg hmany]
      exact h

theorem dset_append_left_of_not_contains (pre : Entries) (k : String)
    (v v' : Val) (rest : Entries) (h : dcontains pre k = false) :
    dset (pre ++ (k, v) :: rest) k v' = pre ++ (k, v') :: rest := by
  induction pre with
  | nil => simp [dset]
  | cons e pre ih =>
      obtain ⟨k₀, v₀⟩ := e
      rw [dcontains, List.any_cons] at h
      simp only [Bool.or_eq_false_iff] at h
      have h0 : k₀ ≠ k := by simpa using h.1
      simp only [List.cons_append, dset, if_neg h0, List.append_eq]
      rw [ih h.2]

theorem dget_append_cons_self (pre : Entries) (k : String) (v : Val)
    (rest : Entries) (h : dcontains pre k = false) :
    dget (pre ++ (k, v) :: rest) k = some v := by
  unfold dget
  rw [List.find?_append, List.find?_eq_none.mpr, Option.none_or]
  · simp [List.find?]
  · intro x hx hx1
    have : dcontains pre k = true := by
      simp only [dcontains, List.any_eq_true]
      exact ⟨x, hx, hx1⟩
    rw [h] at this
    exact Bool.false_ne_true this

theorem forall₂_map_fst {R : (String × Val) → (String × Val) → Prop}
    (hR : ∀ a b, R a b → b.1 = a.1) :
    ∀ (xs ys : List (String × Val)), List.Forall₂ R xs ys →
      ys.map Prod.fst = xs.map Prod.fst := by
  intro xs ys h
  induction h with
  | nil => rfl
  | cons hab _ ih =>
      simp only [List.map_cons, ih]
      rw [hR _ _ hab]

/-- Pass 1 of the relationship loop: with duplicate-free keys, folding
the per-entry step over the entries rewrites each value in place. -/
theorem foldlM_procRel_char (rev : String → String → Option String)
    (TYPE : String) (idv : Val) :
    ∀ (todo pre out : Entries),
      ((pre ++ todo).map Prod.fst).Nodup →
      (todo.foldlM (fun cur kv => do
        let v' ← procRel rev TYPE idv kv.1 kv.2
        pure (dset cur kv.1 v')) (pre ++ todo) = .ok out) →
      ∃ ws : Entries, out = pre ++ ws ∧
        List.Forall₂ (fun kv w => w.1 = kv.1 ∧
          procRel rev TYPE idv kv.1 kv.2 = .ok w.2) todo ws := by
  intro todo
  induction todo with
  | nil =>
      intro pre out _ h
      refine ⟨[], ?_, List.Forall₂.nil⟩
      simpa [List.foldlM, pure_eq] using h.symm
  | cons kv rest ih =>
      intro pre out hnd h
      obtain ⟨k, v⟩ := kv
      rw [List.foldlM_cons] at h
      rw [bind_ok_iff] at h
      obtain ⟨cur', hcur', h⟩ := h
      rw [bind_ok_iff] at hcur'
      obtain ⟨v', hv', hpure⟩ := hcur'
      have hcur : cur' = pre ++ (k, v') :: rest := by
        have hkpre : dcontains pre k = false := by
          rw [List.map_append, List.nodup_append] at hnd
          cases hc : dcontains pre k
          · rfl
          · exfalso
            exact hnd.2.2 ((dcontains_eq_true_iff pre k).mp hc) (by simp)
        have := dset_append_left_of_not_contains pre k v v' rest hkpre
        rw [← this]
        simpa [pure_eq] using hpure.symm
      subst hcur
      have hnd' : (((pre ++ [(k, v')]) ++ rest).map Prod.fst).Nodup := by
        have : ((pre ++ [(k, v')]) ++ rest).map Prod.fst =
            (pre ++ (k, v) :: rest).map Prod.fst := by
          simp
        rw [this]
        exact hnd
      have h' : rest.foldlM (fun cur kv => do
          let v' ← procRel rev TYPE idv kv.1 kv.2
          pure (dset cur kv.1 v')) ((pre ++ [(k, v')]) ++ rest) = .ok out := by
        simpa using h
      obtain ⟨ws', hout, hfa⟩ := ih (pre ++ [(k, v')]) out hnd' h'
      refine ⟨(k, v') :: ws', ?_, List.Forall₂.cons ⟨rfl, hv'⟩ hfa⟩
      rw [hout]
      simp

/-- Pass 2: when every entry is already a fixed point of the step, the
fold leaves the dict unchanged. -/
theorem foldlM_procRel_fixed (rev : String → String → Option String)
    (TYPE : String) (idv : Val) :
    ∀ (todo pre : Entries),
      ((pre ++ todo).map Prod.fst).Nodup →
      (∀ kv ∈ todo, procRel rev TYPE idv kv.1 kv.2 = .ok kv.2) →
      todo.foldlM (fun cur kv => do
        let v' ← procRel rev TYPE idv kv.1 kv.2
        pure (dset cur kv.1 v')) (pre ++ todo) = .ok (pre ++ todo) := by
  intro todo
  induction todo with
  | nil =>
      intro pre _ _
      simp [List.foldlM, pure_eq]
  | cons kv rest ih =>
      intro pre hnd hfix
      obtain ⟨k, w⟩ := kv
      rw [List.foldlM_cons, bind_ok_iff]
      have hkpre : dcontains pre k = false := by
        rw [List.map_append, List.nodup_append] at hnd
        cases hc : dcontains pre k
        · rfl
        · exfalso
          exact hnd.2.2 ((dcontains_eq_true_iff pre k).mp hc) (by simp)
      refine ⟨pre ++ (k, w) :: rest, ?_, ?_⟩
      · rw [bind_ok_iff]
        refine ⟨w, hfix (k, w) (List.mem_cons_self _ _), ?_⟩
        rw [dset_append_left_of_not_contains pre k w w rest hkpre]
        rfl
      · have heq : pre ++ (k, w) :: rest = (pre ++ [(k, w)]) ++ rest := by
          simp
        rw [heq]
        have hnd' : (((pre ++ [(k, w)]) ++ rest).map Prod.fst).Nodup := by
          rw [← heq]
          exact hnd
        have := ih (pre ++ [(k, w)]) hnd'
          (fun kv hkv => hfix kv (List.mem_cons_of_mem _ hkv))
        simpa using this

theorem forall₂_mem_right {α β : Type} {R : α → β → Prop} :
    ∀ {xs : List α} {ys : List β}, List.Forall₂ R xs ys →
      ∀ b ∈ ys, ∃ a ∈ xs, R a b := by
  intro xs ys h
  induction h with
  | nil => intro b hb; exact absurd hb (List.not_mem_nil b)
  | cons hab _ ih =>
      intro b hb
      rcases List.mem_cons.mp hb with hb | hb
      · exact ⟨_, List.mem_cons_self _ _, hb ▸ hab⟩
      · obtain ⟨a, ha, hR⟩ := ih b hb
        exact ⟨a, List.mem_cons_of_mem _ ha, hR⟩

/-- What a successful relationship pass guarantees: keys outside
`relationships` untouched, key set unchanged, and every produced
relationship value is itself a fixed point of the per-entry step. -/
theorem decorate_rels_facts (rev : String → String → Option String)
    (TYPE : String) (idv : Val) (es out : Entries)
    (hnd : (es.map Prod.fst).Nodup)
    (hrnd : ∀ rels, dget es "relationships" = some (.dict rels) →
      (rels.map Prod.fst).Nodup)
    (h : decorate_rels rev TYPE idv es = .ok out) :
    (∀ k, k ≠ "relationships" → dget out k = dget es k) ∧
    (∀ k, dcontains out k = dcontains es k) ∧
    ((out.map Prod.fst).Nodup) ∧
    (dget es "relationships" = none → out = es) ∧
    (∀ rels', dget out "relationships" = some (.dict rels') →
      (rels'.map Prod.fst).Nodup ∧
      ∀ kv ∈ rels', procRel rev TYPE idv kv.1 kv.2 = .ok kv.2) ∧
    (∀ x, dget out "relationships" = some x → ∃ rels', x = .dict rels') := by
  unfold decorate_rels at h
  rcases hrel : dget es "relationships" with _ | x
  · rw [hrel] at h
    have h' : (pure es : Except Err Entries) = .ok out := h
    rw [pure_eq] at h'
    cases h'
    refine ⟨fun k _ => rfl, fun k => rfl, hnd, fun _ => rfl, ?_, ?_⟩
    · intro rels' hr
      simp [hrel] at hr
    · intro x hr
      simp [hrel] at hr
  · rw [hrel] at h
    cases x with
    | dict rels =>
        have h' : (do
            let rels' ← rels.foldlM (fun cur (kv : String × Val) => do
              let v' ← procRel rev TYPE idv kv.1 kv.2
              pure (dset cur kv.1 v')) rels
            pure (dset es "relationships" (.dict rels'))) = .ok out := h
        rw [bind_ok_iff] at h'
        obtain ⟨ws0, hfold, hpure⟩ := h'
        rw [pure_eq] at hpure
        cases hpure
        obtain ⟨ws, hws0, hfa⟩ := foldlM_procRel_char rev TYPE idv rels [] ws0
          (by simpa using hrnd rels hrel) (by simpa using hfold)
        rw [List.nil_append] at hws0
        subst ws0
        have hcont : dcontains es "relationships" = true :=
          dcontains_of_dget _ _ _ hrel
        have hkeys : ws.map Prod.fst = rels.map Prod.fst :=
          forall₂_map_fst (fun a b hab => hab.1) rels ws hfa
        refine ⟨?_, ?_, ?_, ?_, ?_, ?_⟩
        · intro k hk
          exact dget_dset_ne es "relationships" k (.dict ws) hk
        · intro k
          by_cases hk : k = "relationships"
          · subst hk
            rw [dcontains_dset_self, hcont]
          · exact dcontains_dset_ne es "relationships" k (.dict ws) hk
        · exact nodup_dset_of_contains es "relationships" (.dict ws) hcont hnd
        · intro h0
          simp [hrel] at h0
        · intro rels' hr
          rw [dget_dset_self] at hr
          have hr' : rels' = ws := by
            have := Option.some.inj hr
            exact (Val.dict.inj this).symm
          subst hr'
          refine ⟨by rw [hkeys]; exact hrnd rels hrel, ?_⟩
          intro kv hkv
          obtain ⟨a, _, hfst, hproc⟩ := forall₂_mem_right hfa kv hkv
          have : procRel rev TYPE idv kv.1 kv.2 = procRel rev TYPE idv a.1 kv.2 := by
            rw [hfst]
          rw [this]
          exact procRel_facts rev TYPE idv a.1 a.2 kv.2 hproc
        · intro x hr
          rw [dget_dset_self] at hr
          exact ⟨ws, (Option.some.inj hr).symm⟩
    | null => exact absurd h (by simp [throw_eq])
    | bool b => exact absurd h (by simp [throw_eq])
    | int n => exact absurd h (by simp [throw_eq])
    | str s => exact absurd h (by simp [throw_eq])
    | list l => exact absurd h (by simp [throw_eq])
    | res r => exact absurd h (by simp [throw_eq])

/-- Pass 2 of the relationship loop is the identity on its own output. -/
theorem decorate_rels_fixed (rev : String → String → Option String)
    (TYPE : String) (idv : Val) (v : Entries)
    (hfix : ∀ rels', dget v "relationships" = some (.dict rels') →
      (rels'.map Prod.fst).Nodup ∧
      ∀ kv ∈ rels', procRel rev TYPE idv kv.1 kv.2 = .ok kv.2)
    (hshape : ∀ x, dget v "relationships" = some x → ∃ rels', x = .dict rels') :
    decorate_rels rev TYPE idv v = .ok v := by
  unfold decorate_rels
  rcases hrel : dget v "relationships" with _ | x
  · rfl
  · obtain ⟨rels', hx⟩ := hshape x hrel
    subst hx
    obtain ⟨hndr, hf⟩ := hfix rels' hrel
    show (do
        let ws ← rels'.foldlM (fun cur (kv : String × Val) => do
          let v' ← procRel rev TYPE idv kv.1 kv.2
          pure (dset cur kv.1 v')) rels'
        pure (dset v "relationships" (.dict ws))) = .ok v
    have hfold := foldlM_procRel_fixed rev TYPE idv rels' []
      (by simpa using hndr) hf
    rw [List.nil_append] at hfold
    rw [hfold]
    show Except.ok (dset v "relationships" (.dict rels')) = .ok v
    rw [dset_eq_of_dget v "relationships" (.dict rels') hrel]

/-- The `existing_fields` key-list read of `_limit_fields` for one of
the two sections (`attributes` / `relationships`). -/
def lfKeys (o : Entries) (name : String) : Except Err (List String) :=
  match dget o name with
  | none => pure []
  | some (.dict es) => pure (es.map Prod.fst)
  | some _ => throw (Err.py .attributeError)

/-- The filtering step of `_limit_fields` for one section: keep the
requested keys, drop the section entirely when nothing survives. -/
def lfStep (fields : List String) (name : String) (o : Entries) :
    Except Err Entries :=
  match dget o name with
  | none => pure o
  | some (.dict es) =>
      let filtered := es.filter (fun e => e.1 ∈ fields)
      let obj' := dset o name (.dict filtered)
      pure (if filtered.isEmpty then ddel obj' name else obj')
  | some _ => throw (Err.py .attributeError)

set_option maxHeartbeats 1600000 in
/-- `_limit_fields` with the type and query lookups resolved, written
as a plain composition of the named section helpers. -/
theorem limit_fields_eq (req : Request) (o : Entries) (tv : Val)
    (raw : String)
    (htv : dget o "type" = some tv)
    (hqc : qdContains req.GET ("fields[" ++ pyStr tv ++ "]") = true)
    (hq : qdGet req.GET ("fields[" ++ pyStr tv ++ "]") = some raw) :
    limit_fields req o =
      (lfKeys o "attributes" >>= fun attrKeys =>
       lfKeys o "relationships" >>= fun relKeys =>
       if ((((pySet (raw.splitOn ",")).filter (fun f =>
              ¬ (f ∈ attrKeys ∨ f ∈ relKeys))).map (fun f =>
            mkSingle BadRequestCls
              (some ("Field in 'fields' parameter is not part of the response ('"
                ++ f ++ "' was unexpected)"))
              none (some ("patameter", "fields[" ++ pyStr tv ++ "]")))).isEmpty
          = false) then
         throw (Err.dj (.multi (((pySet (raw.splitOn ",")).filter (fun f =>
              ¬ (f ∈ attrKeys ∨ f ∈ relKeys))).map (fun f =>
            mkSingle BadRequestCls
              (some ("Field in 'fields' parameter is not part of the response ('"
                ++ f ++ "' was unexpected)"))
              none (some ("patameter", "fields[" ++ pyStr tv ++ "]"))))))
       else
         lfStep (pySet (raw.splitOn ",")) "attributes" o >>= fun obj1 =>
         lfStep (pySet (raw.splitOn ",")) "relationships" obj1 >>= fun obj2 =>
         pure obj2) := by
  unfold limit_fields lfKeys lfStep
  rcases hA : dget o "attributes" with _ | av
  · rcases hR : dget o "relationships" with _ | rv
    · simp [htv, hqc, hq, hA, hR, throw_bind]
    · cases rv <;> simp [htv, hqc, hq, hA, hR, throw_bind]
  · cases av with
    | dict As =>
        rcases hR : dget o "relationships" with _ | rv
        · simp [htv, hqc, hq, hA, hR, throw_bind]
        · cases rv <;> simp [htv, hqc, hq, hA, hR, throw_bind]
    | null => simp [htv, hqc, hq, hA, throw_bind]
    | bool b => simp [htv, hqc, hq, hA, throw_bind]
    | int n => simp [htv, hqc, hq, hA, throw_bind]
    | str s => simp [htv, hqc, hq, hA, throw_bind]
    | list l => simp [htv, hqc, hq, hA, throw_bind]
    | res r => simp [htv, hqc, hq, hA, throw_bind]

theorem ok_bind {α β : Type} (a : α) (f : α → Except Err β) :
    ((Except.ok a : Except Err α) >>= f) = f a := rfl

theorem lfKeys_ok (o : Entries) (name : String) (ks : List String)
    (h : lfKeys o name = .ok ks) :
    (dget o name = none ∧ ks = []) ∨
    (∃ Es, dget o name = some (.dict Es) ∧ ks = Es.map Prod.fst) := by
  unfold lfKeys at h
  rcases hn : dget o name with _ | x
  · rw [hn] at h
    have h' : (pure ([] : List String) : Except Err (List String)) = .ok ks := h
    rw [pure_eq] at h'
    exact .inl ⟨rfl, (Except.ok.inj h').symm⟩
  · rw [hn] at h
    cases x with
    | dict Es =>
        have h' : (pure (Es.map Prod.fst) : Except Err (List String)) = .ok ks := h
        rw [pure_eq] at h'
        exact .inr ⟨Es, rfl, (Except.ok.inj h').symm⟩
    | null => exact absurd h (by simp [throw_eq])
    | bool b => exact absurd h (by simp [throw_eq])
    | int n => exact absurd h (by simp [throw_eq])
    | str s => exact absurd h (by simp [throw_eq])
    | list l => exact absurd h (by simp [throw_eq])
    | res r => exact absurd h (by simp [throw_eq])

theorem lfStep_facts (fields : List String) (name : String) (o o' : Entries)
    (hnd : (o.map Prod.fst).Nodup)
    (h : lfStep fields name o = .ok o') :
    (∀ k', k' ≠ name → dget o' k' = dget o k') ∧
    ((o'.map Prod.fst).Nodup) ∧
    ((o' = o ∧ dget o name = none) ∨
      (∃ Es, dget o name = some (.dict Es) ∧
        ((dget o' name = none ∧ Es.filter (fun e => e.1 ∈ fields) = []) ∨
         (dget o' name = some (.dict (Es.filter (fun e => e.1 ∈ fields))) ∧
          Es.filter (fun e => e.1 ∈ fields) ≠ [])))) := by
  unfold lfStep at h
  rcases hn : dget o name with _ | x
  · rw [hn] at h
    have h' : (pure o : Except Err Entries) = .ok o' := h
    rw [pure_eq] at h'
    cases h'
    exact ⟨fun _ _ => rfl, hnd, .inl ⟨rfl, rfl⟩⟩
  · rw [hn] at h
    cases x with
    | dict Es =>
        have h' : (pure (if (Es.filter (fun e => e.1 ∈ fields)).isEmpty then
            ddel (dset o name (.dict (Es.filter (fun e => e.1 ∈ fields)))) name
          else dset o name (.dict (Es.filter (fun e => e.1 ∈ fields)))) :
            Except Err Entries) = .ok o' := h
        rw [pure_eq] at h'
        have ho' := (Except.ok.inj h').symm
        obtain ⟨f1, _, f3, _, f5⟩ := filter_step_facts o name
          (Es.filter (fun e => e.1 ∈ fields)) o' hnd
          (dcontains_of_dget _ _ _ hn) ho'
        refine ⟨f1, f5, .inr ⟨Es, rfl, ?_⟩⟩
        by_cases he : (Es.filter (fun e => e.1 ∈ fields)).isEmpty
        · refine .inl ⟨?_, List.isEmpty_iff.mp he⟩
          rw [f3, if_pos he]
        · refine .inr ⟨?_, fun hc => he (by simp [hc])⟩
          rw [f3, if_neg he]
    | null => exact absurd h (by simp [throw_eq])
    | bool b => exact absurd h (by simp [throw_eq])
    | int n => exact absurd h (by simp [throw_eq])
    | str s => exact absurd h (by simp [throw_eq])
    | list l => exact absurd h (by simp [throw_eq])
    | res r => exact absurd h (by simp [throw_eq])

theorem lfStep_fixed (fields : List String) (name : String) (v : Entries)
    (hv : dget v name = none ∨
      ∃ Ef, dget v name = some (.dict Ef) ∧ Ef ≠ [] ∧
        ∀ e ∈ Ef, e.1 ∈ fields) :
    lfStep fields name v = .ok v := by
  unfold lfStep
  rcases hv with hn | ⟨Ef, hg, hne, hall⟩
  · rw [hn]
    rfl
  · rw [hg]
    show (pure (if (Ef.filter (fun e => e.1 ∈ fields)).isEmpty then
        ddel (dset v name (.dict (Ef.filter (fun e => e.1 ∈ fields)))) name
      else dset v name (.dict (Ef.filter (fun e => e.1 ∈ fields)))) :
        Except Err Entries) = .ok v
    have hfe : Ef.filter (fun e => e.1 ∈ fields) = Ef :=
      List.filter_eq_self.mpr (fun e he => decide_eq_true (hall e he))
    rw [hfe, if_neg (by simp [List.isEmpty_iff, hne]),
      dset_eq_of_dget v name _ hg]
    rfl

set_option maxHeartbeats 3200000 in
/-- What a successful `_limit_fields` run guarantees about its output:
keys outside the two sections are untouched, keys stay duplicate-free,
the surviving relationships are a sub-dict of the original ones, and
running `_limit_fields` again on the output is the identity. -/
theorem limit_fields_ok_facts (req : Request) (o v : Entries)
    (hnd : (o.map Prod.fst).Nodup)
    (h : limit_fields req o = .ok v) :
    (∀ k, k ≠ "attributes" → k ≠ "relationships" → dget v k = dget o k) ∧
    ((v.map Prod.fst).Nodup) ∧
    (dget v "relationships" = dget o "relationships" ∨
      (∃ Rs Rf, dget o "relationships" = some (.dict Rs) ∧
        dget v "relationships" = some (.dict Rf) ∧ Rf.Sublist Rs) ∨
      dget v "relationships" = none) ∧
    limit_fields req v = .ok v := by
  rcases htv : dget o "type" with _ | tv
  · exfalso
    have hbad : limit_fields req o = .error (Err.py .keyError) := by
      simp [limit_fields, htv, throw_bind, throw_eq, error_bind, ok_bind]
    rw [hbad] at h
    exact absurd h (by simp)
  · by_cases hqc : qdContains req.GET ("fields[" ++ pyStr tv ++ "]") = false
    · have hred : limit_fields req o = .ok o := by
        simp [limit_fields, htv, hqc, pure_eq, ok_bind]
      rw [hred] at h
      have hv : v = o := (Except.ok.inj h).symm
      subst hv
      exact ⟨fun _ _ _ => rfl, hnd, .inl rfl, hred⟩
    · have hqc' : qdContains req.GET ("fields[" ++ pyStr tv ++ "]") = true := by
        cases hb : qdContains req.GET ("fields[" ++ pyStr tv ++ "]")
        · exact absurd hb hqc
        · rfl
      rcases hq : qdGet req.GET ("fields[" ++ pyStr tv ++ "]") with _ | raw
      · exfalso
        have hbad : limit_fields req o = .error (Err.py .attributeError) := by
          simp [limit_fields, htv, hqc', hq, throw_bind, throw_eq, error_bind, ok_bind]
        rw [hbad] at h
        exact absurd h (by simp)
      · rw [limit_fields_eq req o tv raw htv hqc' hq] at h
        rw [bind_ok_iff] at h
        obtain ⟨A, hAk, h⟩ := h
        try beta_reduce at h
        rw [bind_ok_iff] at h
        obtain ⟨R, hRk, h⟩ := h
        try beta_reduce at h
        rcases hfil : (pySet (raw.splitOn ",")).filter (fun f =>
            ¬ (f ∈ A ∨ f ∈ R)) with _ | ⟨f₀, rest⟩
        · rw [hfil, if_neg (by simp)] at h
          rw [bind_ok_iff] at h
          obtain ⟨o1, h1, h⟩ := h
          try beta_reduce at h
          rw [bind_ok_iff] at h
          obtain ⟨o2, h2, h⟩ := h
          simp only [pure_eq] at h
          have hvo2 : o2 = v := Except.ok.inj h
          subst o2
          obtain ⟨p1, n1, t1⟩ :=
            lfStep_facts (pySet (raw.splitOn ",")) "attributes" o o1 hnd h1
          obtain ⟨p2, n2, t2⟩ :=
            lfStep_facts (pySet (raw.splitOn ",")) "relationships" o1 v n1 h2
          have hall : ∀ f ∈ pySet (raw.splitOn ","), f ∈ A ∨ f ∈ R := by
            intro f hf
            have hflt := List.filter_eq_nil_iff.mp hfil f hf
            have himp : f ∉ A → f ∈ R := by simpa using hflt
            by_cases hfa : f ∈ A
            · exact .inl hfa
            · exact .inr (himp hfa)
          have hnab : "relationships" ≠ "attributes" := by decide
          have hnta : "type" ≠ "attributes" := by decide
          have hntr : "type" ≠ "relationships" := by decide
          have horel : dget o1 "relationships" = dget o "relationships" :=
            p1 "relationships" hnab
          have htv' : dget v "type" = some tv := by
            rw [p2 "type" hntr, p1 "type" hnta]
            exact htv
          -- conjunct 3
          have hc3 : dget v "relationships" = dget o "relationships" ∨
              (∃ Rs Rf, dget o "relationships" = some (.dict Rs) ∧
                dget v "relationships" = some (.dict Rf) ∧ Rf.Sublist Rs) ∨
              dget v "relationships" = none := by
            rcases t2 with ⟨hveq, hnone⟩ | ⟨Rs, hRs, hdel | hkept⟩
            · refine .inr (.inr ?_)
              rw [hveq, hnone]
            · exact .inr (.inr hdel.1)
            · refine .inr (.inl ⟨Rs, _, ?_, hkept.1, List.filter_sublist Rs⟩)
              rw [← horel]
              exact hRs
          -- attribute-section summary for the second pass
          have hAsec : (dget v "attributes" = none ∧
                ∀ f ∈ pySet (raw.splitOn ","), f ∈ A → False) ∨
              (∃ Af : Entries, dget v "attributes" = some (.dict Af) ∧
                Af ≠ [] ∧ (∀ e ∈ Af, e.1 ∈ pySet (raw.splitOn ",")) ∧
                (∀ f ∈ pySet (raw.splitOn ","), f ∈ A →
                  f ∈ Af.map Prod.fst)) := by
            have hvA : dget v "attributes" = dget o1 "attributes" :=
              p2 "attributes" (by decide)
            rcases lfKeys_ok o "attributes" A hAk with ⟨hA0, hAnil⟩ |
              ⟨Es, hEs, hAeq⟩
            · rcases t1 with ⟨ho1eq, _⟩ | ⟨As, hAs, _⟩
              · refine .inl ⟨?_, ?_⟩
                · rw [hvA, ho1eq]
                  exact hA0
                · intro f _ hfA
                  rw [hAnil] at hfA
                  exact absurd hfA (List.not_mem_nil f)
              · rw [hA0] at hAs
                exact absurd hAs (by simp)
            · rcases t1 with ⟨_, h0none⟩ | ⟨As, hAs, hdel | hkept⟩
              · rw [h0none] at hEs
                exact absurd hEs (by simp)
              · -- attributes filtered away entirely
                have hEsAs : Es = As := by
                  rw [hEs] at hAs
                  exact Val.dict.inj (Option.some.inj hAs)
                refine .inl ⟨?_, ?_⟩
                · rw [hvA]
                  exact hdel.1
                · intro f hf hfA
                  rw [hAeq, hEsAs] at hfA
                  have hmem : f ∈ (As.filter (fun e =>
                      e.1 ∈ pySet (raw.splitOn ","))).map Prod.fst :=
                    (mem_map_fst_filter As _ f).mpr ⟨hfA, hf⟩
                  rw [hdel.2] at hmem
                  exact absurd hmem (by simp)
              · have hEsAs : Es = As := by
                  rw [hEs] at hAs
                  exact Val.dict.inj (Option.some.inj hAs)
                refine .inr ⟨As.filter (fun e =>
                    e.1 ∈ pySet (raw.splitOn ",")), ?_, hkept.2, ?_, ?_⟩
                · rw [hvA]
                  exact hkept.1
                · intro e he
                  have := List.mem_filter.mp he
                  exact of_decide_eq_true this.2
                · intro f hf hfA
                  rw [hAeq, hEsAs] at hfA
                  exact (mem_map_fst_filter As _ f).mpr ⟨hfA, hf⟩
          -- relationships-section summary for the second pass
          have hRsec : (dget v "relationships" = none ∧
                ∀ f ∈ pySet (raw.splitOn ","), f ∈ R → False) ∨
              (∃ Rf : Entries, dget v "relationships" = some (.dict Rf) ∧
                Rf ≠ [] ∧ (∀ e ∈ Rf, e.1 ∈ pySet (raw.splitOn ",")) ∧
                (∀ f ∈ pySet (raw.splitOn ","), f ∈ R →
                  f ∈ Rf.map Prod.fst)) := by
            rcases lfKeys_ok o "relationships" R hRk with ⟨hR0, hRnil⟩ |
              ⟨Es, hEs, hReq⟩
            · refine .inl ⟨?_, ?_⟩
              · rcases t2 with ⟨hveq, hnone⟩ | ⟨Rs, hRs, hdel | hkept⟩
                · rw [hveq, hnone]
                · exact hdel.1
                · rw [horel, hR0] at hRs
                  exact absurd hRs (by simp)
              · intro f _ hfR
                rw [hRnil] at hfR
                exact absurd hfR (List.not_mem_nil f)
            · rcases t2 with ⟨hveq, hnone⟩ | ⟨Rs, hRs, hdel | hkept⟩
              · rw [horel, hEs] at hnone
                exact absurd hnone (by simp)
              · have hEsRs : Es = Rs := by
                  rw [horel, hEs] at hRs
                  exact Val.dict.inj (Option.some.inj hRs)
                refine .inl ⟨hdel.1, ?_⟩
                intro f hf hfR
                rw [hReq, hEsRs] at hfR
                have hmem : f ∈ (Rs.filter (fun e =>
                    e.1 ∈ pySet (raw.splitOn ","))).map Prod.fst :=
                  (mem_map_fst_filter Rs _ f).mpr ⟨hfR, hf⟩
                rw [hdel.2] at hmem
                exact absurd hmem (by simp)
              · have hEsRs : Es = Rs := by
                  rw [horel, hEs] at hRs
                  exact Val.dict.inj (Option.some.inj hRs)
                refine .inr ⟨Rs.filter (fun e =>
                    e.1 ∈ pySet (raw.splitOn ",")), hkept.1, hkept.2, ?_, ?_⟩
                · intro e he
                  have := List.mem_filter.mp he
                  exact of_decide_eq_true this.2
                · intro f hf hfR
                  rw [hReq, hEsRs] at hfR
                  exact (mem_map_fst_filter Rs _ f).mpr ⟨hfR, hf⟩
          -- second pass
          have hpass2 : limit_fields req v = .ok v := by
            rw [limit_fields_eq req v tv raw htv' hqc' hq]
            have hKA' : lfKeys v "attributes" = .ok
                (match dget v "attributes" with
                 | some (.dict es) => es.map Prod.fst
                 | _ => []) := by
              unfold lfKeys
              rcases hAsec with ⟨hvn, _⟩ | ⟨Af, hvs, _, _, _⟩
              · rw [hvn]
                exact rfl
              · rw [hvs]
                exact rfl
            have hKR' : lfKeys v "relationships" = .ok
                (match dget v "relationships" with
                 | some (.dict es) => es.map Prod.fst
                 | _ => []) := by
              unfold lfKeys
              rcases hRsec with ⟨hvn, _⟩ | ⟨Rf, hvs, _, _, _⟩
              · rw [hvn]
                exact rfl
              · rw [hvs]
                exact rfl
            rw [hKA', ok_bind, hKR', ok_bind]
            have hunk' : (pySet (raw.splitOn ",")).filter (fun f =>
                ¬ (f ∈ (match dget v "attributes" with
                    | some (.dict es) => es.map Prod.fst
                    | _ => []) ∨
                  f ∈ (match dget v "relationships" with
                    | some (.dict es) => es.map Prod.fst
                    | _ => []))) = [] := by
              rw [List.filter_eq_nil_iff]
              intro f hf
              simp only [decide_not, Bool.not_eq_true', decide_eq_false_iff_not,
                not_not]
              rcases hall f hf with hfA | hfR
              · left
                rcases hAsec with ⟨_, hnever⟩ | ⟨Af, hvs, _, _, hcov⟩
                · exact absurd hfA (fun hfA => hnever f hf hfA)
                · rw [hvs]
                  exact hcov f hf hfA
              · right
                rcases hRsec with ⟨_, hnever⟩ | ⟨Rf, hvs, _, _, hcov⟩
                · exact absurd hfR (fun hfR => hnever f hf hfR)
                · rw [hvs]
                  exact hcov f hf hfR
            have hcond : ¬((((pySet (raw.splitOn ",")).filter (fun f =>
                ¬ (f ∈ (match dget v "attributes" with
                    | some (.dict es) => es.map Prod.fst
                    | _ => []) ∨
                  f ∈ (match dget v "relationships" with
                    | some (.dict es) => es.map Prod.fst
                    | _ => [])))).map (fun f =>
                mkSingle BadRequestCls
                  (some ("Field in 'fields' parameter is not part of the response ('"
                    ++ f ++ "' was unexpected)"))
                  none (some ("patameter", "fields[" ++ pyStr tv ++ "]")))).isEmpty
              = false) := by
              rw [hunk']
              simp
            rw [if_neg hcond]
            have hstepA : lfStep (pySet (raw.splitOn ",")) "attributes" v =
                .ok v := by
              apply lfStep_fixed
              rcases hAsec with ⟨hvn, _⟩ | ⟨Af, hvs, hne, hcl, _⟩
              · exact .inl hvn
              · exact .inr ⟨Af, hvs, hne, hcl⟩
            have hstepR : lfStep (pySet (raw.splitOn ",")) "relationships" v =
                .ok v := by
              apply lfStep_fixed
              rcases hRsec with ⟨hvn, _⟩ | ⟨Rf, hvs, hne, hcl, _⟩
              · exact .inl hvn
              · exact .inr ⟨Rf, hvs, hne, hcl⟩
            rw [hstepA, ok_bind, hstepR, ok_bind]
            rfl
          exact ⟨fun k hka hkr => by rw [p2 k hkr, p1 k hka], n2, hc3, hpass2⟩
        · rw [hfil, if_pos (by simp)] at h
          exact absurd h (by simp [throw_eq])

theorem nodup_dsetdefaultD (es : Entries) (k : String) (v : Val)
    (hnd : (es.map Prod.fst).Nodup) :
    ((dsetdefaultD es k v).map Prod.fst).Nodup := by
  unfold dsetdefaultD
  cases hc : dcontains es k
  · simp only [Bool.false_eq_true, if_false]
    rw [List.map_append, List.nodup_append]
    refine ⟨hnd, by simp, ?_⟩
    intro x hx
    simp only [List.map_cons, List.map_nil, List.mem_singleton]
    intro hxk
    subst hxk
    rw [← dcontains_eq_true_iff, hc] at hx
    exact Bool.false_ne_true hx
  · simpa using hnd

theorem dget_eq_some_of_contains (es : Entries) (k : String)
    (h : dcontains es k = true) : ∃ v, dget es k = some v := by
  cases hg : dget es k
  · rw [dcontains_eq_false_of_dget_none es k hg] at h
    exact absurd h (by simp)
  · exact ⟨_, rfl⟩

/-- C3.  Idempotent decoration: a successful `_decorate_serialized` run
is a fixed point of the pipeline — feeding the decorated object back in
(same request) succeeds and returns it unchanged, because `setdefault`
leaves the existing `type` and links alone, every relationship is
already in normalized form and the sparse-fieldset filter keeps exactly
the keys it already kept.  (Key lists are duplicate-free as Python dict
keys always are.) -/
theorem C3_decorate_idempotent (rev : String → String → Option String)
    (TYPE : String) (req : Request) (s v : Entries)
    (hnd : (s.map Prod.fst).Nodup)
    (hrnd : ∀ rels, dget s "relationships" = some (.dict rels) →
      (rels.map Prod.fst).Nodup)
    (h : decorate_serialized rev TYPE req (.dict s) = .ok v) :
    decorate_serialized rev TYPE req (.dict v) = .ok v := by
  unfold decorate_serialized at h
  simp only [bind_ok_iff] at h
  obtain ⟨s0, hs0, idv, hid, es₂, hlink, es₃, hrels, hlim⟩ := h
  have hs0' : s0 = s := by
    have h' : (Except.ok s : Except Err Entries) = .ok s0 := hs0
    exact (Except.ok.inj h').symm
  subst s0
  have hid' : dget (dsetdefaultD s "type" (.str TYPE)) "id" = some idv :=
    dgetE_ok _ _ _ hid
  have hnd₁ : ((dsetdefaultD s "type" (.str TYPE)).map Prod.fst).Nodup :=
    nodup_dsetdefaultD _ _ _ hnd
  obtain ⟨tv, htv₁⟩ :=
    dget_eq_some_of_contains (dsetdefaultD s "type" (.str TYPE)) "type"
      (dcontains_dsetdefaultD_self _ _ _)
  obtain ⟨hlink2, pl, plc, plnd⟩ := trySetLink_facts _ _ _ _ hlink
  have hnd₂ : (es₂.map Prod.fst).Nodup := plnd hnd₁
  have hrnd₂ : ∀ rels, dget es₂ "relationships" = some (.dict rels) →
      (rels.map Prod.fst).Nodup := by
    intro rels hr
    rw [pl "relationships" (by decide),
      dget_dsetdefaultD_ne s "type" "relationships" _ (by decide)] at hr
    exact hrnd rels hr
  obtain ⟨q1, q2, q3, q4, q5, q6⟩ :=
    decorate_rels_facts rev TYPE idv es₂ es₃ hnd₂ hrnd₂ hrels
  obtain ⟨r1, r2, r3, r4⟩ := limit_fields_ok_facts req es₃ v q3 hlim
  have hvtype : dget v "type" = some tv := by
    rw [r1 "type" (by decide) (by decide), q1 "type" (by decide),
      pl "type" (by decide)]
    exact htv₁
  have hvid : dget v "id" = some idv := by
    rw [r1 "id" (by decide) (by decide), q1 "id" (by decide),
      pl "id" (by decide)]
    exact hid'
  have hvlinks : dget v "links" = dget es₂ "links" := by
    rw [r1 "links" (by decide) (by decide), q1 "links" (by decide)]
  have hstep1 : dsetdefaultD v "type" (.str TYPE) = v :=
    dsetdefaultD_of_contains _ _ _ (dcontains_of_dget _ _ _ hvtype)
  have hgetEv : dgetE v "id" = .ok idv := by
    unfold dgetE
    rw [hvid]
    exact rfl
  have hlinkv : trySetLink v "self" (rev (TYPE ++ "_object") (pyStr idv)) =
      .ok v := by
    cases hu : rev (TYPE ++ "_object") (pyStr idv) with
    | none => rfl
    | some url =>
        apply trySetLink_noop_of_linkset
        have hls₂ : LinkSet es₂ "self" :=
          trySetLink_linkset_of_some _ _ url _ (hu ▸ hlink)
        rcases hls₂ with ⟨inner, hli, hci⟩
        refine ⟨inner, ?_, hci⟩
        rw [hvlinks]
        exact hli
  have hrelsv : decorate_rels rev TYPE idv v = .ok v := by
    apply decorate_rels_fixed
    · intro rels' hr
      rcases r3 with heq | ⟨Rs, Rf, hRs, hvf, hsub⟩ | hnone
      · rw [heq] at hr
        exact q5 rels' hr
      · rw [hvf] at hr
        have hrf : rels' = Rf := (Val.dict.inj (Option.some.inj hr)).symm
        subst hrf
        obtain ⟨hndRs, hfixRs⟩ := q5 Rs hRs
        refine ⟨?_, ?_⟩
        · exact List.Nodup.sublist (hsub.map Prod.fst) hndRs
        · intro kv hkv
          exact hfixRs kv (hsub.subset hkv)
      · rw [hnone] at hr
        exact absurd hr (by simp)
    · intro x hr
      rcases r3 with heq | ⟨Rs, Rf, hRs, hvf, hsub⟩ | hnone
      · rw [heq] at hr
        exact q6 x hr
      · rw [hvf] at hr
        exact ⟨Rf, (Option.some.inj hr).symm⟩
      · rw [hnone] at hr
        exact absurd hr (by simp)
  show (asDict (.dict v) >>= fun es0 =>
    dgetE (dsetdefaultD es0 "type" (.str TYPE)) "id" >>= fun idv' =>
    trySetLink (dsetdefaultD es0 "type" (.str TYPE)) "self"
      (rev (TYPE ++ "_object") (pyStr idv')) >>= fun es1 =>
    decorate_rels rev TYPE idv' es1 >>= fun es2 =>
    limit_fields req es2) = .ok v
  rw [show asDict (Val.dict v) = Except.ok v from rfl]
  simp only [ok_bind]
  rw [hstep1, hgetEv]
  simp only [ok_bind]
  rw [hlinkv]
  simp only [ok_bind]
  rw [hrelsv]
  simp only [ok_bind]
  exact r4

/-- Witness for C3: decorating a concrete article once and feeding the
result back in returns it unchanged. -/
theorem C3_decorate_idempotent_witness :
    decorate_serialized (fun name arg => some ("/" ++ name ++ "/" ++ arg))
      "articles" ⟨"GET", "/articles/1", "", []⟩
      (.dict [("id", .str "1"),
              ("attributes", .dict [("title", .str "Hello")]),
              ("relationships", .dict [("author", .res "users" "2")])]) =
      .ok [("id", .str "1"),
           ("attributes", .dict [("title", .str "Hello")]),
           ("relationships", .dict [("author", .dict [
               ("data", .dict [("type", .str "users"), ("id", .str "2")]),
               ("links", .dict [("related", .str "/articles_get_author/1"),
                 ("self", .str "/articles_author_relationship/1")])])]),
           ("type", .str "articles"),
           ("links", .dict [("self", .str "/articles_object/1")])] ∧
    decorate_serialized (fun name arg => some ("/" ++ name ++ "/" ++ arg))
      "articles" ⟨"GET", "/articles/1", "", []⟩
      (.dict [("id", .str "1"),
              ("attributes", .dict [("title", .str "Hello")]),
              ("relationships", .dict [("author", .dict [
                  ("data", .dict [("type", .str "users"), ("id", .str "2")]),
                  ("links", .dict [("related", .str "/articles_get_author/1"),
                    ("self", .str "/articles_author_relationship/1")])])]),
              ("type", .str "articles"),
              ("links", .dict [("self", .str "/articles_object/1")])]) =
      .ok [("id", .str "1"),
           ("attributes", .dict [("title", .str "Hello")]),
           ("relationships", .dict [("author", .dict [
               ("data", .dict [("type", .str "users"), ("id", .str "2")]),
               ("links", .dict [("related", .str "/articles_get_author/1"),
                 ("self", .str "/articles_author_relationship/1")])])]),
           ("type", .str "articles"),
           ("links", .dict [("self", .str "/articles_object/1")])] := by
  constructor
  · exact rfl
  · apply C3_decorate_idempotent
      (fun name arg => some ("/" ++ name ++ "/" ++ arg)) "articles"
      ⟨"GET", "/articles/1", "", []⟩
      [("id", .str "1"),
       ("attributes", .dict [("title", .str "Hello")]),
       ("relationships", .dict [("author", .res "users" "2")])]
    · decide
    · intro rels hr
      have h1 : some (Val.dict [("author", Val.res "users" "2")]) =
          some (Val.dict rels) := hr
      have h2 : rels = [("author", Val.res "users" "2")] :=
        (Val.dict.inj (Option.some.inj h1)).symm
      subst h2
      decide
    · exact rfl

/-! ## `_process_included` (C8) -/

/-- One caller-supplied `included` entry: a `Resource` wrapper whose
`serialize(obj)` yields the given value (with the wrapper class's
`TYPE`), or an already-serialized mapping passed through as-is. -/
inductive IncItem where
  | res (TYPE : String) (serialized : Val)
  | plain (es : Entries)

/-- `Resource._process_included`: serialize-and-decorate each `Resource`
entry, pass every other entry through, then `_limit_fields` each, and
append the results in order. -/
def process_included (rev : String → String → Option String)
    (req : Request) (included : List IncItem) :
    Except Err (List Entries) :=
  included.mapM (fun item => do
    let serialized ← match item with
      | IncItem.res TYPE s => decorate_serialized rev TYPE req s
      | IncItem.plain es => pure es
    limit_fields req serialized)

/-- Counterexample to C8 as stated: `_process_included` performs no
de-duplication — the same `\x7btype, id\x7d` pair supplied twice comes back
twice in `included`. -/
theorem C8_included_duplicates_counterexample :
    process_included (fun _ _ => none) ⟨"GET", "/articles", "", []⟩
      [.plain [("type", .str "users"), ("id", .str "1")],
       .plain [("type", .str "users"), ("id", .str "1")]] =
      .ok [[("type", .str "users"), ("id", .str "1")],
           [("type", .str "users"), ("id", .str "1")]] := rfl

/-- C8 (amended).  The builder emits exactly one `included` entry per
caller-supplied entry, in order — in particular it never drops
duplicates; any de-duplication happens in the caller (e.g.
`Article.get_many` builds a `set` of `User` wrappers, hashed by the
wrapped model object, before handing the list over). -/
theorem C8_included_no_dedup (rev : String → String → Option String)
    (req : Request) (included : List IncItem) (out : List Entries)
    (h : process_included rev req included = .ok out) :
    out.length = included.length := by
  unfold process_included at h
  induction included generalizing out with
  | nil =>
      have h' : (pure ([] : List Entries) :
          Except Err (List Entries)) = .ok out := h
      rw [pure_eq] at h'
      rw [← Except.ok.inj h']
      rfl
  | cons item rest ih =>
      rw [List.mapM_cons] at h
      rw [bind_ok_iff] at h
      obtain ⟨b, _, h⟩ := h
      rw [bind_ok_iff] at h
      obtain ⟨bs, hbs, h⟩ := h
      have h' : (pure (b :: bs) : Except Err (List Entries)) = .ok out := h
      rw [pure_eq] at h'
      rw [← Except.ok.inj h']
      simp [ih bs hbs]

/-- Witness for C8: a `Resource` entry and a plain entry produce exactly
two `included` entries. -/
theorem C8_included_no_dedup_witness :
    ([[("id", Val.str "1"), ("type", Val.str "articles"),
       ("links", Val.dict [("self", Val.str "/articles_object/1")])],
      [("type", Val.str "users"), ("id", Val.str "2")]] :
        List Entries).length =
    ([IncItem.res "articles" (.dict [("id", .str "1")]),
      IncItem.plain [("type", .str "users"), ("id", .str "2")]]).length :=
  C8_included_no_dedup (fun name arg => some ("/" ++ name ++ "/" ++ arg))
    ⟨"GET", "/articles", "", []⟩
    [IncItem.res "articles" (.dict [("id", .str "1")]),
     IncItem.plain [("type", .str "users"), ("id", .str "2")]]
    [[("id", Val.str "1"), ("type", Val.str "articles"),
      ("links", Val.dict [("self", Val.str "/articles_object/1")])],
     [("type", Val.str "users"), ("id", Val.str "2")]]
    rfl

/-! ## Heap model for the frame claim (C10)

`_decorate_serialized` and `_limit_fields` mutate dicts in place
(`setdefault`, item assignment, `del`), so mutation only becomes
statable over an explicit store: dicts live at addresses, every other
value (Python's immutable primitives, `Resource` wrappers, and the lists
of this code path, which are only ever replaced wholesale, never mutated
in place) is kept inline.  `deepcopy` is fuel-bounded allocation of
fresh cells (`deepcopy`'s memo sharing is not modelled; only freshness
matters here).  Django's `reverse` is a parameter receiving the raw
kwarg value, as in the source. -/

/-- A heap value: a dict is a reference into the store. -/
inductive HVal where
  | null
  | bool (b : Bool)
  | int (n : Int)
  | str (s : String)
  | res (t : String) (o : String)
  | list (xs : List HVal)
  | ref (a : Nat)

/-- A dict cell: its entries. -/
abbrev Node := List (String × HVal)

/-- The store: cell `a` is `σ.get? a`. -/
abbrev Store := List Node

/-- Dict read on a cell's entries. -/
def hdget (node : Node) (k : String) : Option HVal :=
  ((List.find? (fun e => e.1 = k) node).map (·.2))

/-- `k in node`. -/
def hdcontains (node : Node) (k : String) : Bool :=
  List.any node (fun e => e.1 = k)

/-- Dict write on a cell's entries (replace in place or append). -/
def hdset : Node → String → HVal → Node
  | [], k, v => [(k, v)]
  | (k', v') :: es, k, v =>
      if k' = k then (k, v) :: es else (k', v') :: hdset es k v

/-- `del node[k]` (first occurrence). -/
def hddel : Node → String → Node
  | [], _ => []
  | (k', v') :: es, k => if k' = k then es else (k', v') :: hddel es k

/-- Read the cell at `a`. -/
def hread (σ : Store) (a : Nat) : Except Err Node :=
  match List.get? σ a with
  | some n => pure n
  | none => throw (Err.py .keyError)

/-- Overwrite the cell at `a`. -/
def hwrite (σ : Store) (a : Nat) (n : Node) : Store :=
  List.set σ a n

/-- Allocate a fresh cell. -/
def halloc (σ : Store) (n : Node) : Store × Nat :=
  (σ ++ [n], List.length σ)

/-- `str(value)` as far as the pipeline needs it: route names and
f-string interpolation.  Containers are abstracted (their rendering only
selects which URL the injected resolver returns, which the frame
property does not depend on). -/
def hstr : HVal → String
  | .null => "None"
  | .bool b => if b then "True" else "False"
  | .int n => toString n
  | .str s => s
  | .res t o => "<Resource " ++ t ++ " " ++ o ++ ">"
  | .list _ => "[...]"
  | .ref _ => "\x7b...\x7d"

mutual

/-- Fuel-bounded `deepcopy`: fresh cells for every dict reached. -/
def hcopy : Nat → Store → HVal → Except Err (Store × HVal)
  | 0, _, _ => throw (Err.py .recursionError)
  | fuel + 1, σ, .ref a => do
      let node ← hread σ a
      let (σ, node') ← hcopyNode fuel σ node
      let (σ, a') := halloc σ node'
      pure (σ, .ref a')
  | fuel + 1, σ, .list xs => do
      let (σ, xs') ← hcopyList fuel σ xs
      pure (σ, .list xs')
  | _ + 1, σ, v => pure (σ, v)

def hcopyList : Nat → Store → List HVal → Except Err (Store × List HVal)
  | 0, _, _ => throw (Err.py .recursionError)
  | _ + 1, σ, [] => pure (σ, [])
  | fuel + 1, σ, x :: xs => do
      let (σ, x') ← hcopy fuel σ x
      let (σ, xs') ← hcopyList fuel σ xs
      pure (σ, x' :: xs')

def hcopyNode : Nat → Store → Node → Except Err (Store × Node)
  | 0, _, _ => throw (Err.py .recursionError)
  | _ + 1, σ, [] => pure (σ, [])
  | fuel + 1, σ, (k, v) :: es => do
      let (σ, v') ← hcopy fuel σ v
      let (σ, es') ← hcopyNode fuel σ es
      pure (σ, (k, v') :: es')

end

/-- `target.setdefault(k, default)` for an inline default. -/
def hSetdefault (σ : Store) (a : Nat) (k : String) (v : HVal) :
    Except Err Store := do
  let node ← hread σ a
  match hdget node k with
  | some _ => pure σ
  | none => pure (hwrite σ a (hdset node k v))

/-- `target.setdefault(k, \x7b\x7d)`: the default is a freshly allocated
empty dict; the (existing or new) dict value's address comes back for
the chained `setdefault`.  A non-dict existing value fails the chained
call (`AttributeError`). -/
def hSetdefaultDict (σ : Store) (a : Nat) (k : String) :
    Except Err (Store × Nat) := do
  let node ← hread σ a
  match hdget node k with
  | some (.ref b) => pure (σ, b)
  | some _ => throw (Err.py .attributeError)
  | none =>
      let (σ', b) := halloc σ []
      let node' ← hread σ' a
      pure (hwrite σ' a (hdset node' k (.ref b)), b)

/-- `target.setdefault('links', \x7b\x7d).setdefault(k, url)`. -/
def hsetdefault_link (σ : Store) (a : Nat) (k : String) (url : String) :
    Except Err Store := do
  let (σ, b) ← hSetdefaultDict σ a "links"
  hSetdefault σ b k (.str url)

/-- One `try: url = reverse(...) except NoReverseMatch: pass else:
setdefault` block over the store. -/
def htrySetLink (σ : Store) (a : Nat) (k : String) (url? : Option String) :
    Except Err Store :=
  match url? with
  | none => pure σ
  | some url => hsetdefault_link σ a k url

/-- `isinstance(v, Sequence)`. -/
def hisSeq : HVal → Bool
  | .list _ => true
  | .str _ => true
  | _ => false

/-- `isinstance(v, Mapping)`: dicts are the refs. -/
def hisMapping : HVal → Bool
  | .ref _ => true
  | _ => false

/-- The to-one test over the store. -/
def htoOneCond (σ : Store) : HVal → Bool
  | .res _ _ => true
  | .ref a =>
      match List.get? σ a with
      | some node =>
          match hdget node "data" with
          | some d => !(hisSeq d)
          | none => false
      | none => false
  | _ => false

/-- `value[k]` subscription over the store. -/
def hsubscr (σ : Store) (v : HVal) (k : String) : Except Err HVal :=
  match v with
  | .ref a => do
      let node ← hread σ a
      match hdget node k with
      | some x => pure x
      | none => throw (Err.py .keyError)
  | _ => throw (Err.py .typeError)

/-- To-many `data` items: a `Resource` becomes a fresh
`\x7b'type', 'id'\x7d` dict, anything else is kept. -/
def hmapManyItems : Store → List HVal → Store × List HVal
  | σ, [] => (σ, [])
  | σ, .res t o :: xs =>
      let (σ, d) := halloc σ [("type", .str t), ("id", .str o)]
      let (σ, rest) := hmapManyItems σ xs
      (σ, .ref d :: rest)
  | σ, x :: xs =>
      let (σ, rest) := hmapManyItems σ xs
      (σ, x :: rest)

/-- `relationship = result['relationships'][key] = {'data': value}`:
wrap a bare value into a fresh dict written back at `key` (no-op with
the existing cell for a mapping). -/
def hwrapRel (ra : Nat) (key : String) (rv : HVal) (σ : Store) :
    Except Err (Store × Nat) :=
  match rv with
  | .ref b => pure (σ, b)
  | v => do
      let (σ', b) := halloc σ [("data", v)]
      let rels ← hread σ' ra
      pure (hwrite σ' ra (hdset rels key (.ref b)), b)

/-- The to-one conversion of a `Resource`-valued `data` into a fresh
`{'type', 'id'}` dict. -/
def hconvResData (relAddr : Nat) (σ : Store) : Except Err Store := do
  let relNode ← hread σ relAddr
  match hdget relNode "data" with
  | some (.res t o) =>
      let (σ', d) := halloc σ [("type", .str t), ("id", .str o)]
      do
        let relNode' ← hread σ' relAddr
        pure (hwrite σ' relAddr (hdset relNode' "data" (.ref d)))
  | _ => pure σ

/-- `relationship['data']` (`KeyError` when absent). -/
def hrelData (relAddr : Nat) (σ : Store) : Except Err HVal := do
  let relNode ← hread σ relAddr
  match hdget relNode "data" with
  | some d => pure d
  | none => throw (Err.py .keyError)

/-- The links of the to-one arm, after the wrap and data conversion. -/
def hprocToOneCore (revH : String → HVal → Option String)
    (TYPE key : String) (idv : HVal) (relAddr : Nat) (σ : Store) :
    Except Err Store := do
  let σ ← hconvResData relAddr σ
  let data ← hrelData relAddr σ
  let σ ← htrySetLink σ relAddr "related"
    (revH (TYPE ++ "_get_" ++ key) idv)
  let dtype ← hsubscr σ data "type"
  let did ← hsubscr σ data "id"
  let σ ← htrySetLink σ relAddr "related"
    (revH (hstr dtype ++ "_object") did)
  let σ ← htrySetLink σ relAddr "self"
    (revH (TYPE ++ "_" ++ key ++ "_relationship") idv)
  pure σ

/-- The to-one arm of the relationship loop over the store (`ra` is the
relationships dict's cell, `rv` the iterated value). -/
def hprocToOne (revH : String → HVal → Option String) (TYPE key : String)
    (idv : HVal) (ra : Nat) (rv : HVal) (σ : Store) : Except Err Store := do
  let (σ, relAddr) ← hwrapRel ra key rv σ
  hprocToOneCore revH TYPE key idv relAddr σ

/-- The to-many `data` normalization over the store. -/
def hnormManyData (relAddr : Nat) (σ : Store) : Except Err Store := do
  let relNode ← hread σ relAddr
  match hdget relNode "data" with
  | some (.list xs) =>
      let (σ', xs') := hmapManyItems σ xs
      do
        let relNode' ← hread σ' relAddr
        pure (hwrite σ' relAddr (hdset relNode' "data" (.list xs')))
  | some (.str s) => do
      pure (hwrite σ relAddr (hdset relNode "data"
        (.list (s.toList.map (fun c => .str (String.mk [c]))))))
  | _ => pure σ

/-- The data normalization and links of the to-many arm. -/
def hprocToManyCore (revH : String → HVal → Option String)
    (TYPE key : String) (idv : HVal) (relAddr : Nat) (σ : Store) :
    Except Err Store := do
  let σ ← hnormManyData relAddr σ
  let σ ← htrySetLink σ relAddr "self"
    (revH (TYPE ++ "_" ++ key ++ "_plural_relationship") idv)
  let σ ← htrySetLink σ relAddr "related"
    (revH (TYPE ++ "_get_" ++ key) idv)
  pure σ

/-- The to-many arm over the store. -/
def hprocToMany (revH : String → HVal → Option String) (TYPE key : String)
    (idv : HVal) (ra : Nat) (rv : HVal) (σ : Store) : Except Err Store := do
  let (σ, relAddr) ← hwrapRel ra key rv σ
  hprocToManyCore revH TYPE key idv relAddr σ

/-- One relationship-loop iteration over the store. -/
def hprocRel (revH : String → HVal → Option String) (TYPE key : String)
    (idv : HVal) (ra : Nat) (rv : HVal) (σ : Store) : Except Err Store :=
  if htoOneCond σ rv then hprocToOne revH TYPE key idv ra rv σ
  else if hisSeq rv || hisMapping rv then hprocToMany revH TYPE key idv ra rv σ
  else pure σ

/-- The relationship loop of `_decorate_serialized` over the store. -/
def hdecorate_rels (revH : String → HVal → Option String) (TYPE : String)
    (idv : HVal) (resAddr : Nat) (σ : Store) : Except Err Store := do
  let resNode ← hread σ resAddr
  match hdget resNode "relationships" with
  | none => pure σ
  | some (.ref ra) => do
      let relsNode ← hread σ ra
      relsNode.foldlM (fun σ kv => hprocRel revH TYPE kv.1 idv ra kv.2 σ) σ
  | some _ => throw (Err.py .attributeError)

/-- The `existing_fields` key-list read of one section over the store. -/
def hlfKeys (name : String) (a : Nat) (σ : Store) :
    Except Err (List String) := do
  let node ← hread σ a
  match hdget node name with
  | none => pure []
  | some (.ref b) => do
      let bn ← hread σ b
      pure (bn.map Prod.fst)
  | some _ => throw (Err.py .attributeError)

/-- The filtering step of one section over the store: the kept entries
go into a freshly built dict, an emptied section is deleted. -/
def hlfStep (fields : List String) (name : String) (a : Nat) (σ : Store) :
    Except Err Store := do
  let node ← hread σ a
  match hdget node name with
  | none => pure σ
  | some (.ref b) => do
      let bn ← hread σ b
      let filtered := bn.filter (fun e => e.1 ∈ fields)
      let (σ', b') := halloc σ filtered
      let node' ← hread σ' a
      let σ'' := hwrite σ' a (hdset node' name (.ref b'))
      if filtered.isEmpty then do
        let node'' ← hread σ'' a
        pure (hwrite σ'' a (hddel node'' name))
      else
        pure σ''
  | some _ => throw (Err.py .attributeError)

/-- `obj['type']` over the store (`KeyError` when absent). -/
def hlfGetType (a : Nat) (σ : Store) : Except Err HVal := do
  let node ← hread σ a
  match hdget node "type" with
  | some x => pure x
  | none => throw (Err.py .keyError)

/-- `request.GET[key]` when present. -/
def hlfGetRaw (req : Request) (key : String) : Except Err String :=
  match qdGet req.GET key with
  | some r => pure r
  | none => throw (Err.py .attributeError)

/-- The body of `_limit_fields` after the `deepcopy`, on the copy's
cell. -/
def hlimit_fields_body (req : Request) (a : Nat) (σ : Store) :
    Except Err (Store × HVal) := do
  let tv ← hlfGetType a σ
  if qdContains req.GET ("fields[" ++ hstr tv ++ "]") = false then
    pure (σ, .ref a)
  else do
    let raw ← hlfGetRaw req ("fields[" ++ hstr tv ++ "]")
    let attrKeys ← hlfKeys "attributes" a σ
    let relKeys ← hlfKeys "relationships" a σ
    if (((pySet (raw.splitOn ",")).filter (fun f =>
        ¬ (f ∈ attrKeys ∨ f ∈ relKeys))).isEmpty = false) then
      throw (Err.dj (.multi (((pySet (raw.splitOn ",")).filter (fun f =>
          ¬ (f ∈ attrKeys ∨ f ∈ relKeys))).map (fun f =>
        mkSingle BadRequestCls
          (some ("Field in 'fields' parameter is not part of the response ('"
            ++ f ++ "' was unexpected)"))
          none (some ("patameter", "fields[" ++ hstr tv ++ "]"))))))
    else do
      let σ ← hlfStep (pySet (raw.splitOn ",")) "attributes" a σ
      let σ ← hlfStep (pySet (raw.splitOn ",")) "relationships" a σ
      pure (σ, .ref a)

/-- `Resource._limit_fields` over the store: `deepcopy`, then filter the
copy's `attributes`/`relationships` into freshly built dicts. -/
def hlimit_fields (fuel : Nat) (req : Request) (v0 : HVal) (σ0 : Store) :
    Except Err (Store × HVal) := do
  let (σ, v) ← hcopy fuel σ0 v0
  match v with
  | .ref a => hlimit_fields_body req a σ
  | _ => throw (Err.py .typeError)

/-- `result[k]` over the store (`KeyError` when absent). -/
def hGetItem (k : String) (a : Nat) (σ : Store) : Except Err HVal := do
  let node ← hread σ a
  match hdget node k with
  | some x => pure x
  | none => throw (Err.py .keyError)

/-- The body of `_decorate_serialized` after the `deepcopy`, on the
copy's cell: `type` setdefault, `self` link, the relationship loop, and
`_limit_fields` (which copies again). -/
def hdecorate_serialized_body (fuel : Nat)
    (revH : String → HVal → Option String) (TYPE : String) (req : Request)
    (a : Nat) (σ : Store) : Except Err (Store × HVal) := do
  let σ ← hSetdefault σ a "type" (.str TYPE)
  let idv ← hGetItem "id" a σ
  let σ ← htrySetLink σ a "self" (revH (TYPE ++ "_object") idv)
  let σ ← hdecorate_rels revH TYPE idv a σ
  hlimit_fields fuel req (.ref a) σ

/-- `Resource._decorate_serialized` over the store. -/
def hdecorate_serialized (fuel : Nat)
    (revH : String → HVal → Option String) (TYPE : String) (req : Request)
    (serialized : HVal) (σ0 : Store) : Except Err (Store × HVal) := do
  let (σ, result) ← hcopy fuel σ0 serialized
  match result with
  | .ref a => hdecorate_serialized_body fuel revH TYPE req a σ
  | _ => throw (Err.py .attributeError)

/-! ### Region bookkeeping: cells at addresses `≥ n₀` are the fresh
region; a value is region-internal when every dict it references lives
there. -/

mutual

def hvalGE (n₀ : Nat) : HVal → Bool
  | .ref a => decide (n₀ ≤ a)
  | .list xs => hvalListGE n₀ xs
  | _ => true

def hvalListGE (n₀ : Nat) : List HVal → Bool
  | [] => true
  | x :: xs => hvalGE n₀ x && hvalListGE n₀ xs

end

def nodeGE (n₀ : Nat) : Node → Bool
  | [] => true
  | (_, v) :: es => hvalGE n₀ v && nodeGE n₀ es

/-- Every fresh-region cell references only the fresh region (and the
region exists). -/
def RegionOK (n₀ : Nat) (σ : Store) : Prop :=
  n₀ ≤ σ.length ∧
  ∀ a node, n₀ ≤ a → List.get? σ a = some node → nodeGE n₀ node = true

/-- One pipeline step's effect on the store: the caller region
(`< n₀`) is untouched, the store only grows, the region invariant is
kept. -/
def StepOK (n₀ : Nat) (σ σ' : Store) : Prop :=
  (∀ i, i < n₀ → List.get? σ' i = List.get? σ i) ∧
  σ.length ≤ σ'.length ∧ RegionOK n₀ σ'

mutual

theorem hvalGE_mono (m n : Nat) (h : m ≤ n) :
    ∀ (v : HVal), hvalGE n v = true → hvalGE m v = true
  | .ref a, hv => by
      simp only [hvalGE, decide_eq_true_eq] at hv ⊢
      exact Nat.le_trans h hv
  | .list xs, hv => by
      simp only [hvalGE] at hv ⊢
      exact hvalListGE_mono m n h xs hv
  | .null, _ => rfl
  | .bool b, _ => rfl
  | .int k, _ => rfl
  | .str s, _ => rfl
  | .res t o, _ => rfl

theorem hvalListGE_mono (m n : Nat) (h : m ≤ n) :
    ∀ (xs : List HVal), hvalListGE n xs = true → hvalListGE m xs = true
  | [], _ => rfl
  | x :: xs, hv => by
      simp only [hvalListGE, Bool.and_eq_true] at hv ⊢
      exact ⟨hvalGE_mono m n h x hv.1, hvalListGE_mono m n h xs hv.2⟩

end

theorem nodeGE_mono (m n : Nat) (h : m ≤ n) :
    ∀ (node : Node), nodeGE n node = true → nodeGE m node = true
  | [], _ => rfl
  | (k, v) :: es, hv => by
      simp only [nodeGE, Bool.and_eq_true] at hv ⊢
      exact ⟨hvalGE_mono m n h v hv.1, nodeGE_mono m n h es hv.2⟩

theorem hdget_GE (n₀ : Nat) (node : Node) (k : String) (v : HVal)
    (hn : nodeGE n₀ node = true) (h : hdget node k = some v) :
    hvalGE n₀ v = true := by
  induction node with
  | nil => simp [hdget, List.find?] at h
  | cons e es ih =>
      obtain ⟨k₀, v₀⟩ := e
      simp only [nodeGE, Bool.and_eq_true] at hn
      by_cases h0 : k₀ = k
      · subst h0
        have : v₀ = v := by simpa [hdget, List.find?] using h
        subst this
        exact hn.1
      · refine ih hn.2 ?_
        simpa [hdget, List.find?, h0] using h

theorem hdset_GE (n₀ : Nat) (k : String) (v : HVal)
    (hv : hvalGE n₀ v = true) :
    ∀ (node : Node), nodeGE n₀ node = true →
      nodeGE n₀ (hdset node k v) = true
  | [], _ => by simp [hdset, nodeGE, hv]
  | (k₀, v₀) :: es, hn => by
      simp only [nodeGE, Bool.and_eq_true] at hn
      by_cases h0 : k₀ = k
      · simp [hdset, h0, nodeGE, hv, hn.2]
      · simp only [hdset, if_neg h0, nodeGE, Bool.and_eq_true]
        exact ⟨hn.1, hdset_GE n₀ k v hv es hn.2⟩

theorem hddel_GE (n₀ : Nat) (k : String) :
    ∀ (node : Node), nodeGE n₀ node = true →
      nodeGE n₀ (hddel node k) = true
  | [], _ => rfl
  | (k₀, v₀) :: es, hn => by
      simp only [nodeGE, Bool.and_eq_true] at hn
      by_cases h0 : k₀ = k
      · simpa [hddel, h0] using hn.2
      · simp only [hddel, if_neg h0, nodeGE, Bool.and_eq_true]
        exact ⟨hn.1, hddel_GE n₀ k es hn.2⟩

theorem nodeGE_filter (n₀ : Nat) (p : String × HVal → Bool) :
    ∀ (node : Node), nodeGE n₀ node = true →
      nodeGE n₀ (node.filter p) = true
  | [], _ => rfl
  | (k₀, v₀) :: es, hn => by
      simp only [nodeGE, Bool.and_eq_true] at hn
      by_cases h0 : p (k₀, v₀)
      · simp only [List.filter_cons_of_pos h0, nodeGE, Bool.and_eq_true]
        exact ⟨hn.1, nodeGE_filter n₀ p es hn.2⟩
      · simp only [List.filter_cons_of_neg h0]
        exact nodeGE_filter n₀ p es hn.2

theorem hread_GE (n₀ : Nat) (σ : Store) (a : Nat) (node : Node)
    (hrok : RegionOK n₀ σ) (ha : n₀ ≤ a) (h : hread σ a = .ok node) :
    nodeGE n₀ node = true := by
  unfold hread at h
  rcases hg : List.get? σ a with _ | n
  · rw [hg] at h
    exact absurd h (by simp [throw_eq])
  · rw [hg] at h
    have h' : (pure n : Except Err Node) = .ok node := h
    rw [pure_eq] at h'
    rw [← Except.ok.inj h']
    exact hrok.2 a n ha hg

theorem stepOK_refl (n₀ : Nat) (σ : Store) (h : RegionOK n₀ σ) :
    StepOK n₀ σ σ :=
  ⟨fun _ _ => rfl, Nat.le_refl _, h⟩

theorem stepOK_trans (n₀ : Nat) (σ σ' σ'' : Store)
    (h1 : StepOK n₀ σ σ') (h2 : StepOK n₀ σ' σ'') : StepOK n₀ σ σ'' :=
  ⟨fun i hi => (h2.1 i hi).trans (h1.1 i hi),
   Nat.le_trans h1.2.1 h2.2.1, h2.2.2⟩

theorem stepOK_alloc (n₀ : Nat) (σ : Store) (node : Node)
    (hrok : RegionOK n₀ σ) (hn : nodeGE n₀ node = true) :
    StepOK n₀ σ (σ ++ [node]) := by
  refine ⟨?_, by simp, ?_, ?_⟩
  · intro i hi
    exact List.get?_append (Nat.lt_of_lt_of_le hi hrok.1)
  · simpa using Nat.le_trans hrok.1 (by simp)
  · intro a nd ha hg
    by_cases hlt : a < σ.length
    · rw [List.get?_append hlt] at hg
      exact hrok.2 a nd ha hg
    · have ha2 : a = σ.length := by
        rcases Nat.lt_or_ge a (σ ++ [node]).length with h1 | h1
        · simp only [List.length_append, List.length_cons, List.length_nil] at h1
          omega
        · rw [List.get?_eq_none.mpr h1] at hg
          exact absurd hg (by simp)
      subst ha2
      have : List.get? (σ ++ [node]) σ.length = some node := by
        rw [List.get?_append_right (Nat.le_refl _)]
        simp
      rw [this] at hg
      rw [← Option.some.inj hg]
      exact hn

theorem stepOK_write (n₀ : Nat) (σ : Store) (a : Nat) (node : Node)
    (hrok : RegionOK n₀ σ) (ha : n₀ ≤ a) (hn : nodeGE n₀ node = true) :
    StepOK n₀ σ (hwrite σ a node) := by
  refine ⟨?_, by simp [hwrite], ?_, ?_⟩
  · intro i hi
    unfold hwrite
    rw [List.get?_set_ne]
    omega
  · simp [hwrite, hrok.1]
  · intro b nd hb hg
    unfold hwrite at hg
    by_cases hab : b = a
    · subst hab
      rcases Nat.lt_or_ge b σ.length with h1 | h1
      · rw [List.get?_set_eq_of_lt _ h1] at hg
        rw [← Option.some.inj hg]
        exact hn
      · rw [List.get?_eq_none.mpr (by simpa using h1)] at hg
        exact absurd hg (by simp)
    · rw [List.get?_set_ne _ _ (fun hh => hab hh.symm)] at hg
      exact hrok.2 b nd hb hg

theorem hread_ok (σ : Store) (a : Nat) (node : Node)
    (h : hread σ a = .ok node) : List.get? σ a = some node := by
  unfold hread at h
  rcases hg : List.get? σ a with _ | n
  · rw [hg] at h
    exact absurd h (by simp [throw_eq])
  · rw [hg] at h
    have h' : (pure n : Except Err Node) = .ok node := h
    rw [pure_eq] at h'
    rw [Except.ok.inj h']

/-- `deepcopy` only appends to the store, its result references only
the cells it allocated, and it keeps every region invariant. -/
theorem hcopy_frame_all : ∀ fuel : Nat,
    (∀ σ v σ' v', hcopy fuel σ v = .ok (σ', v') →
      (∃ τ, σ' = σ ++ τ) ∧ hvalGE σ.length v' = true ∧
      (∀ n₀, n₀ ≤ σ.length → RegionOK n₀ σ → RegionOK n₀ σ')) ∧
    (∀ σ xs σ' xs', hcopyList fuel σ xs = .ok (σ', xs') →
      (∃ τ, σ' = σ ++ τ) ∧ hvalListGE σ.length xs' = true ∧
      (∀ n₀, n₀ ≤ σ.length → RegionOK n₀ σ → RegionOK n₀ σ')) ∧
    (∀ σ node σ' node', hcopyNode fuel σ node = .ok (σ', node') →
      (∃ τ, σ' = σ ++ τ) ∧ nodeGE σ.length node' = true ∧
      (∀ n₀, n₀ ≤ σ.length → RegionOK n₀ σ → RegionOK n₀ σ')) := by
  intro fuel
  induction fuel with
  | zero =>
      refine ⟨?_, ?_, ?_⟩ <;>
        · intro σ x σ' x' h
          exact absurd h (by simp [hcopy, hcopyList, hcopyNode, throw_eq])
  | succ fuel ih =>
      obtain ⟨ihV, ihL, ihN⟩ := ih
      refine ⟨?_, ?_, ?_⟩
      · intro σ v σ' v' h
        cases v with
        | ref a =>
            simp only [hcopy] at h
            rw [bind_ok_iff] at h
            obtain ⟨node, hrd, h⟩ := h
            rw [bind_ok_iff] at h
            obtain ⟨⟨σ₁, node'⟩, hcn, h⟩ := h
            have h' : (pure (σ₁ ++ [node'],
                HVal.ref σ₁.length) : Except Err (Store × HVal)) =
                .ok (σ', v') := h
            rw [pure_eq] at h'
            have hσ' : σ₁ ++ [node'] = σ' := congrArg Prod.fst (Except.ok.inj h')
            have hv' : HVal.ref σ₁.length = v' :=
              congrArg Prod.snd (Except.ok.inj h')
            obtain ⟨⟨τ₁, hτ₁⟩, hge, hreg⟩ := ihN σ node σ₁ node' hcn
            refine ⟨?_, ?_, ?_⟩
            · exact ⟨τ₁ ++ [node'], by rw [← hσ', hτ₁]; simp⟩
            · rw [← hv']
              simp only [hvalGE, decide_eq_true_eq]
              rw [hτ₁]
              simp
            · intro n₀ hn₀ hrok
              rw [← hσ']
              exact (stepOK_alloc n₀ σ₁ node' (hreg n₀ hn₀ hrok)
                (nodeGE_mono n₀ σ.length hn₀ node' hge)).2.2
        | list xs =>
            simp only [hcopy] at h
            rw [bind_ok_iff] at h
            obtain ⟨⟨σ₁, xs'⟩, hcl, h⟩ := h
            have h' : (pure (σ₁, HVal.list xs') :
                Except Err (Store × HVal)) = .ok (σ', v') := h
            rw [pure_eq] at h'
            have hσ' : σ₁ = σ' := congrArg Prod.fst (Except.ok.inj h')
            have hv' : HVal.list xs' = v' :=
              congrArg Prod.snd (Except.ok.inj h')
            obtain ⟨⟨τ₁, hτ₁⟩, hge, hreg⟩ := ihL σ xs σ₁ xs' hcl
            subst hσ' hv'
            exact ⟨⟨τ₁, hτ₁⟩, by simpa [hvalGE] using hge, hreg⟩
        | null =>
            have h' : (pure (σ, HVal.null) :
                Except Err (Store × HVal)) = .ok (σ', v') := h
            rw [pure_eq] at h'
            have hσ' : σ = σ' := congrArg Prod.fst (Except.ok.inj h')
            have hv' : HVal.null = v' := congrArg Prod.snd (Except.ok.inj h')
            subst hσ' hv'
            exact ⟨⟨[], by simp⟩, rfl, fun _ _ hr => hr⟩
        | bool b =>
            have h' : (pure (σ, HVal.bool b) :
                Except Err (Store × HVal)) = .ok (σ', v') := h
            rw [pure_eq] at h'
            have hσ' : σ = σ' := congrArg Prod.fst (Except.ok.inj h')
            have hv' : HVal.bool b = v' := congrArg Prod.snd (Except.ok.inj h')
            subst hσ' hv'
            exact ⟨⟨[], by simp⟩, rfl, fun _ _ hr => hr⟩
        | int n =>
            have h' : (pure (σ, HVal.int n) :
                Except Err (Store × HVal)) = .ok (σ', v') := h
            rw [pure_eq] at h'
            have hσ' : σ = σ' := congrArg Prod.fst (Except.ok.inj h')
            have hv' : HVal.int n = v' := congrArg Prod.snd (Except.ok.inj h')
            subst hσ' hv'
            exact ⟨⟨[], by simp⟩, rfl, fun _ _ hr => hr⟩
        | str s =>
            have h' : (pure (σ, HVal.str s) :
                Except Err (Store × HVal)) = .ok (σ', v') := h
            rw [pure_eq] at h'
            have hσ' : σ = σ' := congrArg Prod.fst (Except.ok.inj h')
            have hv' : HVal.str s = v' := congrArg Prod.snd (Except.ok.inj h')
            subst hσ' hv'
            exact ⟨⟨[], by simp⟩, rfl, fun _ _ hr => hr⟩
        | res t o =>
            have h' : (pure (σ, HVal.res t o) :
                Except Err (Store × HVal)) = .ok (σ', v') := h
            rw [pure_eq] at h'
            have hσ' : σ = σ' := congrArg Prod.fst (Except.ok.inj h')
            have hv' : HVal.res t o = v' := congrArg Prod.snd (Except.ok.inj h')
            subst hσ' hv'
            exact ⟨⟨[], by simp⟩, rfl, fun _ _ hr => hr⟩
      · intro σ xs σ' xs' h
        cases xs with
        | nil =>
            have h' : (pure (σ, ([] : List HVal)) :
                Except Err (Store × List HVal)) = .ok (σ', xs') := h
            rw [pure_eq] at h'
            have hσ' : σ = σ' := congrArg Prod.fst (Except.ok.inj h')
            have hv' : ([] : List HVal) = xs' :=
              congrArg Prod.snd (Except.ok.inj h')
            subst hσ' hv'
            exact ⟨⟨[], by simp⟩, rfl, fun _ _ hr => hr⟩
        | cons x rest =>
            simp only [hcopyList] at h
            rw [bind_ok_iff] at h
            obtain ⟨⟨σ₁, x'⟩, hc1, h⟩ := h
            rw [bind_ok_iff] at h
            obtain ⟨⟨σ₂, rest'⟩, hc2, h⟩ := h
            have h' : (pure (σ₂, x' :: rest') :
                Except Err (Store × List HVal)) = .ok (σ', xs') := h
            rw [pure_eq] at h'
            have hσ' : σ₂ = σ' := congrArg Prod.fst (Except.ok.inj h')
            have hv' : x' :: rest' = xs' :=
              congrArg Prod.snd (Except.ok.inj h')
            subst hσ' hv'
            obtain ⟨⟨τ₁, hτ₁⟩, hge1, hreg1⟩ := ihV σ x σ₁ x' hc1
            obtain ⟨⟨τ₂, hτ₂⟩, hge2, hreg2⟩ := ihL σ₁ rest σ₂ rest' hc2
            have hlen : σ.length ≤ σ₁.length := by rw [hτ₁]; simp
            refine ⟨⟨τ₁ ++ τ₂, by rw [hτ₂, hτ₁]; simp⟩, ?_, ?_⟩
            · simp only [hvalListGE, Bool.and_eq_true]
              exact ⟨hge1, hvalListGE_mono σ.length σ₁.length hlen rest' hge2⟩
            · intro n₀ hn₀ hrok
              exact hreg2 n₀ (Nat.le_trans hn₀ hlen) (hreg1 n₀ hn₀ hrok)
      · intro σ node σ' node' h
        cases node with
        | nil =>
            have h' : (pure (σ, ([] : Node)) :
                Except Err (Store × Node)) = .ok (σ', node') := h
            rw [pure_eq] at h'
            have hσ' : σ = σ' := congrArg Prod.fst (Except.ok.inj h')
            have hv' : ([] : Node) = node' :=
              congrArg Prod.snd (Except.ok.inj h')
            subst hσ' hv'
            exact ⟨⟨[], by simp⟩, rfl, fun _ _ hr => hr⟩
        | cons e rest =>
            obtain ⟨k, v⟩ := e
            simp only [hcopyNode] at h
            rw [bind_ok_iff] at h
            obtain ⟨⟨σ₁, v'⟩, hc1, h⟩ := h
            rw [bind_ok_iff] at h
            obtain ⟨⟨σ₂, rest'⟩, hc2, h⟩ := h
            have h' : (pure (σ₂, (k, v') :: rest') :
                Except Err (Store × Node)) = .ok (σ', node') := h
            rw [pure_eq] at h'
            have hσ' : σ₂ = σ' := congrArg Prod.fst (Except.ok.inj h')
            have hv' : (k, v') :: rest' = node' :=
              congrArg Prod.snd (Except.ok.inj h')
            subst hσ' hv'
            obtain ⟨⟨τ₁, hτ₁⟩, hge1, hreg1⟩ := ihV σ v σ₁ v' hc1
            obtain ⟨⟨τ₂, hτ₂⟩, hge2, hreg2⟩ := ihN σ₁ rest σ₂ rest' hc2
            have hlen : σ.length ≤ σ₁.length := by rw [hτ₁]; simp
            refine ⟨⟨τ₁ ++ τ₂, by rw [hτ₂, hτ₁]; simp⟩, ?_, ?_⟩
            · simp only [nodeGE, Bool.and_eq_true]
              exact ⟨hge1, nodeGE_mono σ.length σ₁.length hlen rest' hge2⟩
            · intro n₀ hn₀ hrok
              exact hreg2 n₀ (Nat.le_trans hn₀ hlen) (hreg1 n₀ hn₀ hrok)

theorem hread_append (σ : Store) (τ : List Node) (a : Nat) (node : Node)
    (h : hread σ a = .ok node) : hread (σ ++ τ) a = .ok node := by
  have hg := hread_ok σ a node h
  have hlt : a < σ.length := by
    rcases Nat.lt_or_ge a σ.length with h1 | h1
    · exact h1
    · rw [List.get?_eq_none.mpr h1] at hg
      exact absurd hg (by simp)
  unfold hread
  rw [List.get?_append hlt, hg]
  rfl

theorem hSetdefault_frame (n₀ : Nat) (σ : Store) (a : Nat) (k : String)
    (v : HVal) (σ' : Store) (hrok : RegionOK n₀ σ) (ha : n₀ ≤ a)
    (hv : hvalGE n₀ v = true)
    (h : hSetdefault σ a k v = .ok σ') : StepOK n₀ σ σ' := by
  unfold hSetdefault at h
  rw [bind_ok_iff] at h
  obtain ⟨node, hrd, h2⟩ := h
  have hnGE : nodeGE n₀ node = true := hread_GE n₀ σ a node hrok ha hrd
  rcases hg : hdget node k with _ | x
  · rw [hg] at h2
    have h2' : (pure (hwrite σ a (hdset node k v)) :
        Except Err Store) = .ok σ' := h2
    rw [pure_eq] at h2'
    rw [← Except.ok.inj h2']
    exact stepOK_write n₀ σ a _ hrok ha (hdset_GE n₀ k v hv node hnGE)
  · rw [hg] at h2
    have h2' : (pure σ : Except Err Store) = .ok σ' := h2
    rw [pure_eq] at h2'
    rw [← Except.ok.inj h2']
    exact stepOK_refl n₀ σ hrok

theorem hSetdefaultDict_frame (n₀ : Nat) (σ : Store) (a : Nat) (k : String)
    (σ' : Store) (b : Nat) (hrok : RegionOK n₀ σ) (ha : n₀ ≤ a)
    (h : hSetdefaultDict σ a k = .ok (σ', b)) :
    StepOK n₀ σ σ' ∧ n₀ ≤ b := by
  unfold hSetdefaultDict at h
  rw [bind_ok_iff] at h
  obtain ⟨node, hrd, h2⟩ := h
  have hnGE : nodeGE n₀ node = true := hread_GE n₀ σ a node hrok ha hrd
  rcases hg : hdget node k with _ | x
  · rw [hg] at h2
    rw [bind_ok_iff] at h2
    obtain ⟨node', hrd', h3⟩ := h2
    simp only [halloc] at hrd' h3
    have hnode' : node' = node := by
      have := hread_append σ [[]] a node hrd
      rw [this] at hrd'
      exact (Except.ok.inj hrd').symm
    subst node'
    have h3' : (pure (hwrite (σ ++ [[]]) a
        (hdset node k (.ref σ.length)), σ.length) :
        Except Err (Store × Nat)) = .ok (σ', b) := h3
    rw [pure_eq] at h3'
    have hσ' : hwrite (σ ++ [[]]) a (hdset node k (.ref σ.length)) = σ' :=
      congrArg Prod.fst (Except.ok.inj h3')
    have hb : σ.length = b := congrArg Prod.snd (Except.ok.inj h3')
    have step1 : StepOK n₀ σ (σ ++ [[]]) :=
      stepOK_alloc n₀ σ [] hrok rfl
    have hrefGE : hvalGE n₀ (HVal.ref σ.length) = true := by
      simp only [hvalGE, decide_eq_true_eq]
      exact hrok.1
    have step2 : StepOK n₀ (σ ++ [[]]) σ' := by
      rw [← hσ']
      exact stepOK_write n₀ (σ ++ [[]]) a _ step1.2.2 ha
        (hdset_GE n₀ k (.ref σ.length) hrefGE node hnGE)
    refine ⟨stepOK_trans n₀ σ (σ ++ [[]]) σ' step1 step2, ?_⟩
    rw [← hb]
    exact hrok.1
  · cases x with
    | ref b₀ =>
        rw [hg] at h2
        have h2' : (pure (σ, b₀) : Except Err (Store × Nat)) =
            .ok (σ', b) := h2
        rw [pure_eq] at h2'
        have hσ' : σ = σ' := congrArg Prod.fst (Except.ok.inj h2')
        have hb : b₀ = b := congrArg Prod.snd (Except.ok.inj h2')
        subst hσ' hb
        refine ⟨stepOK_refl n₀ σ hrok, ?_⟩
        have := hdget_GE n₀ node k (.ref b₀) hnGE hg
        simpa [hvalGE] using this
    | null => rw [hg] at h2; exact absurd h2 (by simp [throw_eq])
    | bool bb => rw [hg] at h2; exact absurd h2 (by simp [throw_eq])
    | int nn => rw [hg] at h2; exact absurd h2 (by simp [throw_eq])
    | str ss => rw [hg] at h2; exact absurd h2 (by simp [throw_eq])
    | list xs => rw [hg] at h2; exact absurd h2 (by simp [throw_eq])
    | res t o => rw [hg] at h2; exact absurd h2 (by simp [throw_eq])

theorem hsetdefault_link_frame (n₀ : Nat) (σ : Store) (a : Nat)
    (k url : String) (σ' : Store) (hrok : RegionOK n₀ σ) (ha : n₀ ≤ a)
    (h : hsetdefault_link σ a k url = .ok σ') : StepOK n₀ σ σ' := by
  unfold hsetdefault_link at h
  rw [bind_ok_iff] at h
  obtain ⟨⟨σ₁, b⟩, h1, h2⟩ := h
  obtain ⟨step1, hb⟩ := hSetdefaultDict_frame n₀ σ a "links" σ₁ b hrok ha h1
  exact stepOK_trans n₀ σ σ₁ σ' step1
    (hSetdefault_frame n₀ σ₁ b k (.str url) σ' step1.2.2 hb rfl h2)

theorem htrySetLink_frame (n₀ : Nat) (σ : Store) (a : Nat) (k : String)
    (url? : Option String) (σ' : Store) (hrok : RegionOK n₀ σ) (ha : n₀ ≤ a)
    (h : htrySetLink σ a k url? = .ok σ') : StepOK n₀ σ σ' := by
  cases url? with
  | none =>
      have h' : (pure σ : Except Err Store) = .ok σ' := h
      rw [pure_eq] at h'
      rw [← Except.ok.inj h']
      exact stepOK_refl n₀ σ hrok
  | some url => exact hsetdefault_link_frame n₀ σ a k url σ' hrok ha h

theorem hwrapRel_frame (n₀ : Nat) (ra : Nat) (key : String) (rv : HVal)
    (σ σ' : Store) (b : Nat) (hrok : RegionOK n₀ σ) (hra : n₀ ≤ ra)
    (hrv : hvalGE n₀ rv = true)
    (h : hwrapRel ra key rv σ = .ok (σ', b)) :
    StepOK n₀ σ σ' ∧ n₀ ≤ b := by
  have hwrap : ∀ (hv : hvalGE n₀ rv = true)
      (heq : (do
        let (σ₁, b₁) := halloc σ [("data", rv)]
        let rels ← hread σ₁ ra
        pure (hwrite σ₁ ra (hdset rels key (.ref b₁)), b₁) :
          Except Err (Store × Nat)) = .ok (σ', b)),
      StepOK n₀ σ σ' ∧ n₀ ≤ b := by
    intro hv heq
    simp only [halloc] at heq
    rw [bind_ok_iff] at heq
    obtain ⟨rels, hrd, heq⟩ := heq
    have heq' : (pure (hwrite (σ ++ [[("data", rv)]]) ra
        (hdset rels key (.ref σ.length)), σ.length) :
        Except Err (Store × Nat)) = .ok (σ', b) := heq
    rw [pure_eq] at heq'
    have hσ' : hwrite (σ ++ [[("data", rv)]]) ra
        (hdset rels key (.ref σ.length)) = σ' :=
      congrArg Prod.fst (Except.ok.inj heq')
    have hb : σ.length = b := congrArg Prod.snd (Except.ok.inj heq')
    have step1 : StepOK n₀ σ (σ ++ [[("data", rv)]]) :=
      stepOK_alloc n₀ σ _ hrok (by simp [nodeGE, hv])
    have hrelsGE : nodeGE n₀ rels = true :=
      hread_GE n₀ _ ra rels step1.2.2 hra hrd
    have hrefGE : hvalGE n₀ (HVal.ref σ.length) = true := by
      simp only [hvalGE, decide_eq_true_eq]
      exact hrok.1
    refine ⟨stepOK_trans n₀ σ _ σ' step1 ?_, hb ▸ hrok.1⟩
    rw [← hσ']
    exact stepOK_write n₀ _ ra _ step1.2.2 hra
      (hdset_GE n₀ key _ hrefGE rels hrelsGE)
  cases rv with
  | ref b₀ =>
      have h' : (pure (σ, b₀) : Except Err (Store × Nat)) = .ok (σ', b) := h
      rw [pure_eq] at h'
      have hσ' : σ = σ' := congrArg Prod.fst (Except.ok.inj h')
      have hb : b₀ = b := congrArg Prod.snd (Except.ok.inj h')
      subst hσ' hb
      exact ⟨stepOK_refl n₀ σ hrok, by simpa [hvalGE] using hrv⟩
  | null => exact hwrap hrv h
  | bool bb => exact hwrap hrv h
  | int nn => exact hwrap hrv h
  | str ss => exact hwrap hrv h
  | list xs => exact hwrap hrv h
  | res t o => exact hwrap hrv h

theorem hconvResData_frame (n₀ : Nat) (relAddr : Nat) (σ σ' : Store)
    (hrok : RegionOK n₀ σ) (hrel : n₀ ≤ relAddr)
    (h : hconvResData relAddr σ = .ok σ') : StepOK n₀ σ σ' := by
  unfold hconvResData at h
  rw [bind_ok_iff] at h
  obtain ⟨relNode, hrd, h⟩ := h
  have hnGE : nodeGE n₀ relNode = true :=
    hread_GE n₀ σ relAddr relNode hrok hrel hrd
  rcases hd : hdget relNode "data" with _ | x
  · rw [hd] at h
    have h' : (pure σ : Except Err Store) = .ok σ' := h
    rw [pure_eq] at h'
    rw [← Except.ok.inj h']
    exact stepOK_refl n₀ σ hrok
  · cases x with
    | res t o =>
        rw [hd] at h
        simp only [halloc] at h
        rw [bind_ok_iff] at h
        obtain ⟨relNode', hrd', h⟩ := h
        have h' : (pure (hwrite (σ ++ [[("type", HVal.str t),
            ("id", HVal.str o)]]) relAddr
            (hdset relNode' "data" (.ref σ.length))) :
            Except Err Store) = .ok σ' := h
        rw [pure_eq] at h'
        have step1 : StepOK n₀ σ (σ ++ [[("type", HVal.str t),
            ("id", HVal.str o)]]) :=
          stepOK_alloc n₀ σ _ hrok (by simp [nodeGE, hvalGE])
        have hnGE' : nodeGE n₀ relNode' = true :=
          hread_GE n₀ _ relAddr relNode' step1.2.2 hrel hrd'
        have hrefGE : hvalGE n₀ (HVal.ref σ.length) = true := by
          simp only [hvalGE, decide_eq_true_eq]
          exact hrok.1
        rw [← Except.ok.inj h']
        exact stepOK_trans n₀ σ _ _ step1
          (stepOK_write n₀ _ relAddr _ step1.2.2 hrel
            (hdset_GE n₀ "data" _ hrefGE relNode' hnGE'))
    | null =>
        rw [hd] at h
        have h' : (pure σ : Except Err Store) = .ok σ' := h
        rw [pure_eq] at h'
        rw [← Except.ok.inj h']
        exact stepOK_refl n₀ σ hrok
    | bool bb =>
        rw [hd] at h
        have h' : (pure σ : Except Err Store) = .ok σ' := h
        rw [pure_eq] at h'
        rw [← Except.ok.inj h']
        exact stepOK_refl n₀ σ hrok
    | int nn =>
        rw [hd] at h
        have h' : (pure σ : Except Err Store) = .ok σ' := h
        rw [pure_eq] at h'
        rw [← Except.ok.inj h']
        exact stepOK_refl n₀ σ hrok
    | str ss =>
        rw [hd] at h
        have h' : (pure σ : Except Err Store) = .ok σ' := h
        rw [pure_eq] at h'
        rw [← Except.ok.inj h']
        exact stepOK_refl n₀ σ hrok
    | list xs =>
        rw [hd] at h
        have h' : (pure σ : Except Err Store) = .ok σ' := h
        rw [pure_eq] at h'
        rw [← Except.ok.inj h']
        exact stepOK_refl n₀ σ hrok
    | ref bb =>
        rw [hd] at h
        have h' : (pure σ : Except Err Store) = .ok σ' := h
        rw [pure_eq] at h'
        rw [← Except.ok.inj h']
        exact stepOK_refl n₀ σ hrok

theorem hmapManyItems_frame (n₀ : Nat) :
    ∀ (xs : List HVal) (σ σ' : Store) (xs' : List HVal),
      RegionOK n₀ σ → hvalListGE n₀ xs = true →
      hmapManyItems σ xs = (σ', xs') →
      StepOK n₀ σ σ' ∧ hvalListGE n₀ xs' = true := by
  intro xs
  induction xs with
  | nil =>
      intro σ σ' xs' hrok _ h
      simp only [hmapManyItems, Prod.mk.injEq] at h
      obtain ⟨hσ', hxs'⟩ := h
      subst hσ' hxs'
      exact ⟨stepOK_refl n₀ σ hrok, rfl⟩
  | cons x rest ih =>
      intro σ σ' xs' hrok hl h
      simp only [hvalListGE, Bool.and_eq_true] at hl
      have hpass : ∀ (heq : (let p := hmapManyItems σ rest
            (p.1, x :: p.2)) = (σ', xs')),
          StepOK n₀ σ σ' ∧ hvalListGE n₀ xs' = true := by
        intro heq
        rcases hm : hmapManyItems σ rest with ⟨σ₂, rest'⟩
        rw [hm] at heq
        simp only [Prod.mk.injEq] at heq
        obtain ⟨hσ', hxs'⟩ := heq
        subst hσ' hxs'
        obtain ⟨step2, hge⟩ := ih σ σ₂ rest' hrok hl.2 hm
        refine ⟨step2, ?_⟩
        simp only [hvalListGE, Bool.and_eq_true]
        exact ⟨hl.1, hge⟩
      cases x with
      | res t o =>
          simp only [hmapManyItems, halloc] at h
          rcases hm : hmapManyItems (σ ++ [[("type", HVal.str t),
              ("id", HVal.str o)]]) rest with ⟨σ₂, rest'⟩
          rw [hm] at h
          simp only [Prod.mk.injEq] at h
          obtain ⟨hσ', hxs'⟩ := h
          subst hσ' hxs'
          have step1 : StepOK n₀ σ (σ ++ [[("type", HVal.str t),
              ("id", HVal.str o)]]) :=
            stepOK_alloc n₀ σ _ hrok (by simp [nodeGE, hvalGE])
          obtain ⟨step2, hge⟩ := ih _ σ₂ rest' step1.2.2 hl.2 hm
          refine ⟨stepOK_trans n₀ σ _ σ₂ step1 step2, ?_⟩
          simp only [hvalListGE, Bool.and_eq_true]
          refine ⟨?_, hge⟩
          simp only [hvalGE, decide_eq_true_eq]
          exact hrok.1
      | null => exact hpass (by simpa [hmapManyItems] using h)
      | bool bb => exact hpass (by simpa [hmapManyItems] using h)
      | int nn => exact hpass (by simpa [hmapManyItems] using h)
      | str ss => exact hpass (by simpa [hmapManyItems] using h)
      | list ys => exact hpass (by simpa [hmapManyItems] using h)
      | ref aa => exact hpass (by simpa [hmapManyItems] using h)

theorem hvalListGE_chars (n₀ : Nat) :
    ∀ (l : List Char),
      hvalListGE n₀ (l.map (fun c => HVal.str (String.mk [c]))) = true
  | [] => rfl
  | c :: l => by
      simp only [List.map_cons, hvalListGE, Bool.and_eq_true]
      exact ⟨rfl, hvalListGE_chars n₀ l⟩

theorem hnormManyData_frame (n₀ : Nat) (relAddr : Nat) (σ σ' : Store)
    (hrok : RegionOK n₀ σ) (hrel : n₀ ≤ relAddr)
    (h : hnormManyData relAddr σ = .ok σ') : StepOK n₀ σ σ' := by
  unfold hnormManyData at h
  rw [bind_ok_iff] at h
  obtain ⟨relNode, hrd, h⟩ := h
  have hnGE : nodeGE n₀ relNode = true :=
    hread_GE n₀ σ relAddr relNode hrok hrel hrd
  rcases hd : hdget relNode "data" with _ | x
  · rw [hd] at h
    have h' : (pure σ : Except Err Store) = .ok σ' := h
    rw [pure_eq] at h'
    rw [← Except.ok.inj h']
    exact stepOK_refl n₀ σ hrok
  · cases x with
    | list xs =>
        rw [hd] at h
        have h2 : (match hmapManyItems σ xs with
          | (σ₁, xs') => do
              let relNode' ← hread σ₁ relAddr
              pure (hwrite σ₁ relAddr (hdset relNode' "data"
                (HVal.list xs'))) : Except Err Store) = .ok σ' := h
        rcases hm : hmapManyItems σ xs with ⟨σ₁, xs'⟩
        rw [hm] at h2
        rw [bind_ok_iff] at h2
        obtain ⟨relNode', hrd', h2⟩ := h2
        have h' : (pure (hwrite σ₁ relAddr
            (hdset relNode' "data" (.list xs'))) :
            Except Err Store) = .ok σ' := h2
        rw [pure_eq] at h'
        have hxsGE : hvalListGE n₀ xs = true := by
          have := hdget_GE n₀ relNode "data" (.list xs) hnGE hd
          simpa [hvalGE] using this
        obtain ⟨step1, hge'⟩ := hmapManyItems_frame n₀ xs σ σ₁ xs' hrok hxsGE hm
        have hnGE' : nodeGE n₀ relNode' = true :=
          hread_GE n₀ σ₁ relAddr relNode' step1.2.2 hrel hrd'
        rw [← Except.ok.inj h']
        exact stepOK_trans n₀ σ σ₁ _ step1
          (stepOK_write n₀ σ₁ relAddr _ step1.2.2 hrel
            (hdset_GE n₀ "data" _ (by simpa [hvalGE] using hge')
              relNode' hnGE'))
    | str ss =>
        rw [hd] at h
        have h' : (pure (hwrite σ relAddr (hdset relNode "data"
            (.list (ss.toList.map (fun c => HVal.str (String.mk [c])))))) :
            Except Err Store) = .ok σ' := h
        rw [pure_eq] at h'
        rw [← Except.ok.inj h']
        exact stepOK_write n₀ σ relAddr _ hrok hrel
          (hdset_GE n₀ "data" _
            (by simpa [hvalGE] using hvalListGE_chars n₀ ss.toList)
            relNode hnGE)
    | null =>
        rw [hd] at h
        have h' : (pure σ : Except Err Store) = .ok σ' := h
        rw [pure_eq] at h'
        rw [← Except.ok.inj h']
        exact stepOK_refl n₀ σ hrok
    | bool bb =>
        rw [hd] at h
        have h' : (pure σ : Except Err Store) = .ok σ' := h
        rw [pure_eq] at h'
        rw [← Except.ok.inj h']
        exact stepOK_refl n₀ σ hrok
    | int nn =>
        rw [hd] at h
        have h' : (pure σ : Except Err Store) = .ok σ' := h
        rw [pure_eq] at h'
        rw [← Except.ok.inj h']
        exact stepOK_refl n₀ σ hrok
    | res t o =>
        rw [hd] at h
        have h' : (pure σ : Except Err Store) = .ok σ' := h
        rw [pure_eq] at h'
        rw [← Except.ok.inj h']
        exact stepOK_refl n₀ σ hrok
    | ref bb =>
        rw [hd] at h
        have h' : (pure σ : Except Err Store) = .ok σ' := h
        rw [pure_eq] at h'
        rw [← Except.ok.inj h']
        exact stepOK_refl n₀ σ hrok

theorem hprocToOneCore_frame (n₀ : Nat)
    (revH : String → HVal → Option String) (TYPE key : String) (idv : HVal)
    (relAddr : Nat) (σ σ' : Store)
    (hrok : RegionOK n₀ σ) (hrel : n₀ ≤ relAddr)
    (h : hprocToOneCore revH TYPE key idv relAddr σ = .ok σ') :
    StepOK n₀ σ σ' := by
  unfold hprocToOneCore at h
  simp only [bind_ok_iff] at h
  obtain ⟨σ₁, h1, data, _, σ₂, h2, dtype, _, did, _, σ₃, h3, σ₄, h4, hp⟩ := h
  rw [pure_eq] at hp
  have step1 := hconvResData_frame n₀ relAddr σ σ₁ hrok hrel h1
  have step2 := htrySetLink_frame n₀ σ₁ relAddr "related" _ σ₂
    step1.2.2 hrel h2
  have step3 := htrySetLink_frame n₀ σ₂ relAddr "related" _ σ₃
    step2.2.2 hrel h3
  have step4 := htrySetLink_frame n₀ σ₃ relAddr "self" _ σ₄
    step3.2.2 hrel h4
  rw [← Except.ok.inj hp]
  exact stepOK_trans n₀ σ σ₁ σ₄ step1
    (stepOK_trans n₀ σ₁ σ₂ σ₄ step2
      (stepOK_trans n₀ σ₂ σ₃ σ₄ step3 step4))

theorem hprocToManyCore_frame (n₀ : Nat)
    (revH : String → HVal → Option String) (TYPE key : String) (idv : HVal)
    (relAddr : Nat) (σ σ' : Store)
    (hrok : RegionOK n₀ σ) (hrel : n₀ ≤ relAddr)
    (h : hprocToManyCore revH TYPE key idv relAddr σ = .ok σ') :
    StepOK n₀ σ σ' := by
  unfold hprocToManyCore at h
  simp only [bind_ok_iff] at h
  obtain ⟨σ₁, h1, σ₂, h2, σ₃, h3, hp⟩ := h
  rw [pure_eq] at hp
  have step1 := hnormManyData_frame n₀ relAddr σ σ₁ hrok hrel h1
  have step2 := htrySetLink_frame n₀ σ₁ relAddr "self" _ σ₂
    step1.2.2 hrel h2
  have step3 := htrySetLink_frame n₀ σ₂ relAddr "related" _ σ₃
    step2.2.2 hrel h3
  rw [← Except.ok.inj hp]
  exact stepOK_trans n₀ σ σ₁ σ₃ step1
    (stepOK_trans n₀ σ₁ σ₂ σ₃ step2 step3)

theorem hprocToOne_frame (n₀ : Nat)
    (revH : String → HVal → Option String) (TYPE key : String) (idv : HVal)
    (ra : Nat) (rv : HVal) (σ σ' : Store)
    (hrok : RegionOK n₀ σ) (hra : n₀ ≤ ra) (hrv : hvalGE n₀ rv = true)
    (h : hprocToOne revH TYPE key idv ra rv σ = .ok σ') :
    StepOK n₀ σ σ' := by
  unfold hprocToOne at h
  rw [bind_ok_iff] at h
  obtain ⟨⟨σ₁, relAddr⟩, hw, hcore⟩ := h
  obtain ⟨step1, hrel⟩ := hwrapRel_frame n₀ ra key rv σ σ₁ relAddr
    hrok hra hrv hw
  exact stepOK_trans n₀ σ σ₁ σ' step1
    (hprocToOneCore_frame n₀ revH TYPE key idv relAddr σ₁ σ'
      step1.2.2 hrel hcore)

theorem hprocToMany_frame (n₀ : Nat)
    (revH : String → HVal → Option String) (TYPE key : String) (idv : HVal)
    (ra : Nat) (rv : HVal) (σ σ' : Store)
    (hrok : RegionOK n₀ σ) (hra : n₀ ≤ ra) (hrv : hvalGE n₀ rv = true)
    (h : hprocToMany revH TYPE key idv ra rv σ = .ok σ') :
    StepOK n₀ σ σ' := by
  unfold hprocToMany at h
  rw [bind_ok_iff] at h
  obtain ⟨⟨σ₁, relAddr⟩, hw, hcore⟩ := h
  obtain ⟨step1, hrel⟩ := hwrapRel_frame n₀ ra key rv σ σ₁ relAddr
    hrok hra hrv hw
  exact stepOK_trans n₀ σ σ₁ σ' step1
    (hprocToManyCore_frame n₀ revH TYPE key idv relAddr σ₁ σ'
      step1.2.2 hrel hcore)

theorem hprocRel_frame (n₀ : Nat)
    (revH : String → HVal → Option String) (TYPE key : String) (idv : HVal)
    (ra : Nat) (rv : HVal) (σ σ' : Store)
    (hrok : RegionOK n₀ σ) (hra : n₀ ≤ ra) (hrv : hvalGE n₀ rv = true)
    (h : hprocRel revH TYPE key idv ra rv σ = .ok σ') :
    StepOK n₀ σ σ' := by
  unfold hprocRel at h
  by_cases h1 : htoOneCond σ rv
  · rw [if_pos h1] at h
    exact hprocToOne_frame n₀ revH TYPE key idv ra rv σ σ' hrok hra hrv h
  · rw [if_neg h1] at h
    by_cases h2 : hisSeq rv || hisMapping rv
    · rw [if_pos h2] at h
      exact hprocToMany_frame n₀ revH TYPE key idv ra rv σ σ' hrok hra hrv h
    · rw [if_neg h2] at h
      rw [pure_eq] at h
      rw [← Except.ok.inj h]
      exact stepOK_refl n₀ σ hrok

theorem nodeGE_mem (n₀ : Nat) :
    ∀ (node : Node), nodeGE n₀ node = true →
      ∀ kv ∈ node, hvalGE n₀ kv.2 = true
  | [], _ => by intro kv hkv; exact absurd hkv (List.not_mem_nil kv)
  | (k, v) :: es, hn => by
      intro kv hkv
      simp only [nodeGE, Bool.and_eq_true] at hn
      rcases List.mem_cons.mp hkv with hkv | hkv
      · rw [hkv]
        exact hn.1
      · exact nodeGE_mem n₀ es hn.2 kv hkv

theorem hfold_procRel_frame (n₀ : Nat)
    (revH : String → HVal → Option String) (TYPE : String) (idv : HVal)
    (ra : Nat) (hra : n₀ ≤ ra) :
    ∀ (entries : Node) (σ σ' : Store), RegionOK n₀ σ →
      (∀ kv ∈ entries, hvalGE n₀ kv.2 = true) →
      (entries.foldlM (fun σ kv =>
        hprocRel revH TYPE kv.1 idv ra kv.2 σ) σ = .ok σ') →
      StepOK n₀ σ σ' := by
  intro entries
  induction entries with
  | nil =>
      intro σ σ' hrok _ h
      have h' : (pure σ : Except Err Store) = .ok σ' := h
      rw [pure_eq] at h'
      rw [← Except.ok.inj h']
      exact stepOK_refl n₀ σ hrok
  | cons kv rest ih =>
      intro σ σ' hrok hge h
      rw [List.foldlM_cons, bind_ok_iff] at h
      obtain ⟨σ₁, h1, h⟩ := h
      have step1 := hprocRel_frame n₀ revH TYPE kv.1 idv ra kv.2 σ σ₁
        hrok hra (hge kv (List.mem_cons_self _ _)) h1
      exact stepOK_trans n₀ σ σ₁ σ' step1
        (ih σ₁ σ' step1.2.2
          (fun kv' hkv' => hge kv' (List.mem_cons_of_mem _ hkv')) h)

theorem hdecorate_rels_frame (n₀ : Nat)
    (revH : String → HVal → Option String) (TYPE : String) (idv : HVal)
    (resAddr : Nat) (σ σ' : Store)
    (hrok : RegionOK n₀ σ) (hres : n₀ ≤ resAddr)
    (h : hdecorate_rels revH TYPE idv resAddr σ = .ok σ') :
    StepOK n₀ σ σ' := by
  unfold hdecorate_rels at h
  rw [bind_ok_iff] at h
  obtain ⟨resNode, hrd, h⟩ := h
  have hnGE : nodeGE n₀ resNode = true :=
    hread_GE n₀ σ resAddr resNode hrok hres hrd
  rcases hg : hdget resNode "relationships" with _ | x
  · rw [hg] at h
    have h' : (pure σ : Except Err Store) = .ok σ' := h
    rw [pure_eq] at h'
    rw [← Except.ok.inj h']
    exact stepOK_refl n₀ σ hrok
  · cases x with
    | ref ra =>
        rw [hg] at h
        have hra : n₀ ≤ ra := by
          have := hdget_GE n₀ resNode "relationships" (.ref ra) hnGE hg
          simpa [hvalGE] using this
        have h2 : (do
            let relsNode ← hread σ ra
            relsNode.foldlM (fun σ kv =>
              hprocRel revH TYPE kv.1 idv ra kv.2 σ) σ :
            Except Err Store) = .ok σ' := h
        rw [bind_ok_iff] at h2
        obtain ⟨relsNode, hrd2, h2⟩ := h2
        have hnGE2 : nodeGE n₀ relsNode = true :=
          hread_GE n₀ σ ra relsNode hrok hra hrd2
        exact hfold_procRel_frame n₀ revH TYPE idv ra hra relsNode σ σ'
          hrok (nodeGE_mem n₀ relsNode hnGE2) h2
    | null => rw [hg] at h; exact absurd h (by simp [throw_eq])
    | bool bb => rw [hg] at h; exact absurd h (by simp [throw_eq])
    | int nn => rw [hg] at h; exact absurd h (by simp [throw_eq])
    | str ss => rw [hg] at h; exact absurd h (by simp [throw_eq])
    | list xs => rw [hg] at h; exact absurd h (by simp [throw_eq])
    | res t o => rw [hg] at h; exact absurd h (by simp [throw_eq])

theorem hlfStep_frame (n₀ : Nat) (fields : List String) (name : String)
    (a : Nat) (σ σ' : Store)
    (hrok : RegionOK n₀ σ) (ha : n₀ ≤ a)
    (h : hlfStep fields name a σ = .ok σ') : StepOK n₀ σ σ' := by
  unfold hlfStep at h
  rw [bind_ok_iff] at h
  obtain ⟨node, hrd, h⟩ := h
  have hnGE : nodeGE n₀ node = true :=
    hread_GE n₀ σ a node hrok ha hrd
  rcases hg : hdget node name with _ | x
  · rw [hg] at h
    have h' : (pure σ : Except Err Store) = .ok σ' := h
    rw [pure_eq] at h'
    rw [← Except.ok.inj h']
    exact stepOK_refl n₀ σ hrok
  · cases x with
    | ref b =>
        rw [hg] at h
        simp only [halloc] at h
        rw [bind_ok_iff] at h
        obtain ⟨bn, hbn, h⟩ := h
        have hbGE : n₀ ≤ b := by
          have := hdget_GE n₀ node name (.ref b) hnGE hg
          simpa [hvalGE] using this
        have hbnGE : nodeGE n₀ bn = true :=
          hread_GE n₀ σ b bn hrok hbGE hbn
        rw [bind_ok_iff] at h
        obtain ⟨node', hrd', h⟩ := h
        have hfGE : nodeGE n₀ (bn.filter (fun e => e.1 ∈ fields)) = true :=
          nodeGE_filter n₀ _ bn hbnGE
        have step1 : StepOK n₀ σ
            (σ ++ [bn.filter (fun e => e.1 ∈ fields)]) :=
          stepOK_alloc n₀ σ _ hrok hfGE
        have hnGE' : nodeGE n₀ node' = true :=
          hread_GE n₀ _ a node' step1.2.2 ha hrd'
        have hrefGE : hvalGE n₀ (HVal.ref σ.length) = true := by
          simp only [hvalGE, decide_eq_true_eq]
          exact hrok.1
        have step2 : StepOK n₀ (σ ++ [bn.filter (fun e => e.1 ∈ fields)])
            (hwrite (σ ++ [bn.filter (fun e => e.1 ∈ fields)]) a
              (hdset node' name (.ref σ.length))) :=
          stepOK_write n₀ _ a _ step1.2.2 ha
            (hdset_GE n₀ name _ hrefGE node' hnGE')
        have step12 := stepOK_trans n₀ σ _ _ step1 step2
        by_cases he : (bn.filter (fun e => e.1 ∈ fields)).isEmpty
        · rw [if_pos he] at h
          rw [bind_ok_iff] at h
          obtain ⟨node'', hrd'', h⟩ := h
          have h' : (pure (hwrite (hwrite
              (σ ++ [bn.filter (fun e => e.1 ∈ fields)]) a
              (hdset node' name (.ref σ.length))) a
              (hddel node'' name)) : Except Err Store) = .ok σ' := h
          rw [pure_eq] at h'
          have hnGE'' : nodeGE n₀ node'' = true :=
            hread_GE n₀ _ a node'' step12.2.2 ha hrd''
          rw [← Except.ok.inj h']
          exact stepOK_trans n₀ σ _ _ step12
            (stepOK_write n₀ _ a _ step12.2.2 ha
              (hddel_GE n₀ name node'' hnGE''))
        · rw [if_neg he] at h
          have h' : (pure (hwrite
              (σ ++ [bn.filter (fun e => e.1 ∈ fields)]) a
              (hdset node' name (.ref σ.length))) :
              Except Err Store) = .ok σ' := h
          rw [pure_eq] at h'
          rw [← Except.ok.inj h']
          exact step12
    | null => rw [hg] at h; exact absurd h (by simp [throw_eq])
    | bool bb => rw [hg] at h; exact absurd h (by simp [throw_eq])
    | int nn => rw [hg] at h; exact absurd h (by simp [throw_eq])
    | str ss => rw [hg] at h; exact absurd h (by simp [throw_eq])
    | list xs => rw [hg] at h; exact absurd h (by simp [throw_eq])
    | res t o => rw [hg] at h; exact absurd h (by simp [throw_eq])

theorem hlimit_fields_body_frame (n₀ : Nat) (req : Request) (a : Nat)
    (σ σ' : Store) (out : HVal)
    (hrok : RegionOK n₀ σ) (ha : n₀ ≤ a)
    (h : hlimit_fields_body req a σ = .ok (σ', out)) :
    StepOK n₀ σ σ' ∧ out = HVal.ref a := by
  unfold hlimit_fields_body at h
  simp only [bind_ok_iff] at h
  obtain ⟨tv, _, h⟩ := h
  by_cases hqc : qdContains req.GET ("fields[" ++ hstr tv ++ "]") = false
  · rw [if_pos hqc] at h
    rw [pure_eq] at h
    have hσ' : σ = σ' := congrArg Prod.fst (Except.ok.inj h)
    have hout : HVal.ref a = out := congrArg Prod.snd (Except.ok.inj h)
    subst hσ' hout
    exact ⟨stepOK_refl n₀ σ hrok, rfl⟩
  · rw [if_neg hqc] at h
    simp only [bind_ok_iff] at h
    obtain ⟨raw, _, attrKeys, _, relKeys, _, h⟩ := h
    by_cases hu : (((pySet (raw.splitOn ",")).filter (fun f =>
        ¬ (f ∈ attrKeys ∨ f ∈ relKeys))).isEmpty = false)
    · rw [if_pos hu] at h
      exact absurd h (by simp [throw_eq])
    · rw [if_neg hu] at h
      simp only [bind_ok_iff] at h
      obtain ⟨σ₂, h2, σ₃, h3, hp⟩ := h
      rw [pure_eq] at hp
      have hσ' : σ₃ = σ' := congrArg Prod.fst (Except.ok.inj hp)
      have hout : HVal.ref a = out := congrArg Prod.snd (Except.ok.inj hp)
      subst hσ' hout
      have step2 := hlfStep_frame n₀ _ "attributes" a σ σ₂ hrok ha h2
      have step3 := hlfStep_frame n₀ _ "relationships" a σ₂ σ₃
        step2.2.2 ha h3
      exact ⟨stepOK_trans n₀ σ σ₂ σ₃ step2 step3, rfl⟩

theorem hlimit_fields_frame (n₀ fuel : Nat) (req : Request) (v0 : HVal)
    (σ0 σ' : Store) (out : HVal)
    (hrok : RegionOK n₀ σ0)
    (h : hlimit_fields fuel req v0 σ0 = .ok (σ', out)) :
    StepOK n₀ σ0 σ' ∧ hvalGE n₀ out = true := by
  unfold hlimit_fields at h
  rw [bind_ok_iff] at h
  obtain ⟨⟨σ₁, v⟩, hcp, h⟩ := h
  obtain ⟨⟨τ, hτ⟩, hvge, hreg⟩ := (hcopy_frame_all fuel).1 σ0 v0 σ₁ v hcp
  have step1 : StepOK n₀ σ0 σ₁ := by
    refine ⟨?_, ?_, hreg n₀ hrok.1 hrok⟩
    · intro i hi
      rw [hτ]
      exact List.get?_append (Nat.lt_of_lt_of_le hi hrok.1)
    · rw [hτ]
      simp
  cases v with
  | ref a =>
      have ha : n₀ ≤ a := by
        have h1 : σ0.length ≤ a := by simpa [hvalGE] using hvge
        exact Nat.le_trans hrok.1 h1
      have h2 : hlimit_fields_body req a σ₁ = .ok (σ', out) := h
      obtain ⟨step2, hout⟩ :=
        hlimit_fields_body_frame n₀ req a σ₁ σ' out step1.2.2 ha h2
      subst hout
      refine ⟨stepOK_trans n₀ σ0 σ₁ σ' step1 step2, ?_⟩
      simp only [hvalGE, decide_eq_true_eq]
      exact ha
  | null => exact absurd h (by simp [throw_eq])
  | bool b => exact absurd h (by simp [throw_eq])
  | int n => exact absurd h (by simp [throw_eq])
  | str s => exact absurd h (by simp [throw_eq])
  | list xs => exact absurd h (by simp [throw_eq])
  | res t o => exact absurd h (by simp [throw_eq])

theorem hdecorate_serialized_body_frame (n₀ fuel : Nat)
    (revH : String → HVal → Option String) (TYPE : String) (req : Request)
    (a : Nat) (σ σ' : Store) (out : HVal)
    (hrok : RegionOK n₀ σ) (ha : n₀ ≤ a)
    (h : hdecorate_serialized_body fuel revH TYPE req a σ = .ok (σ', out)) :
    StepOK n₀ σ σ' ∧ hvalGE n₀ out = true := by
  unfold hdecorate_serialized_body at h
  simp only [bind_ok_iff] at h
  obtain ⟨σ₁, h1, idv, _, σ₂, h2, σ₃, h3, hlim⟩ := h
  have step1 := hSetdefault_frame n₀ σ a "type" (.str TYPE) σ₁ hrok ha rfl h1
  have step2 := htrySetLink_frame n₀ σ₁ a "self" _ σ₂ step1.2.2 ha h2
  have step3 := hdecorate_rels_frame n₀ revH TYPE idv a σ₂ σ₃
    step2.2.2 ha h3
  obtain ⟨step4, houtGE⟩ :=
    hlimit_fields_frame n₀ fuel req (.ref a) σ₃ σ' out step3.2.2 hlim
  exact ⟨stepOK_trans n₀ σ σ₁ σ' step1
    (stepOK_trans n₀ σ₁ σ₂ σ' step2
      (stepOK_trans n₀ σ₂ σ₃ σ' step3 step4)), houtGE⟩

theorem hdecorate_serialized_frame (n₀ fuel : Nat)
    (revH : String → HVal → Option String) (TYPE : String) (req : Request)
    (s : HVal) (σ0 σ' : Store) (out : HVal)
    (hrok : RegionOK n₀ σ0)
    (h : hdecorate_serialized fuel revH TYPE req s σ0 = .ok (σ', out)) :
    StepOK n₀ σ0 σ' ∧ hvalGE n₀ out = true := by
  unfold hdecorate_serialized at h
  rw [bind_ok_iff] at h
  obtain ⟨⟨σ₁, v⟩, hcp, h⟩ := h
  obtain ⟨⟨τ, hτ⟩, hvge, hreg⟩ := (hcopy_frame_all fuel).1 σ0 s σ₁ v hcp
  have step1 : StepOK n₀ σ0 σ₁ := by
    refine ⟨?_, ?_, hreg n₀ hrok.1 hrok⟩
    · intro i hi
      rw [hτ]
      exact List.get?_append (Nat.lt_of_lt_of_le hi hrok.1)
    · rw [hτ]
      simp
  cases v with
  | ref a =>
      have ha : n₀ ≤ a := by
        have h1 : σ0.length ≤ a := by simpa [hvalGE] using hvge
        exact Nat.le_trans hrok.1 h1
      have h2 : hdecorate_serialized_body fuel revH TYPE req a σ₁ =
          .ok (σ', out) := h
      obtain ⟨step2, houtGE⟩ := hdecorate_serialized_body_frame n₀ fuel
        revH TYPE req a σ₁ σ' out step1.2.2 ha h2
      exact ⟨stepOK_trans n₀ σ0 σ₁ σ' step1 step2, houtGE⟩
  | null => exact absurd h (by simp [throw_eq])
  | bool b => exact absurd h (by simp [throw_eq])
  | int n => exact absurd h (by simp [throw_eq])
  | str s => exact absurd h (by simp [throw_eq])
  | list xs => exact absurd h (by simp [throw_eq])
  | res t o => exact absurd h (by simp [throw_eq])

/-- C10.  Frame property of decoration and field-limiting: both start
with `deepcopy`, every later mutation hits the copy, so a successful
call leaves every pre-existing store cell — in particular the caller's
object and all its nested dicts — exactly as it was, and returns a
value that references only freshly allocated cells (a fresh deep copy,
sharing no mutable container with the input). -/
theorem C10_no_input_mutation (fuel : Nat)
    (revH : String → HVal → Option String) (TYPE : String) (req : Request)
    (s : HVal) (σ : Store) :
    (∀ σ' out, hdecorate_serialized fuel revH TYPE req s σ = .ok (σ', out) →
      (∀ i, i < σ.length → List.get? σ' i = List.get? σ i) ∧
      hvalGE σ.length out = true) ∧
    (∀ σ' out, hlimit_fields fuel req s σ = .ok (σ', out) →
      (∀ i, i < σ.length → List.get? σ' i = List.get? σ i) ∧
      hvalGE σ.length out = true) := by
  have hrok : RegionOK σ.length σ := by
    refine ⟨Nat.le_refl _, ?_⟩
    intro a node hge hg
    exfalso
    have : a < σ.length := by
      rcases Nat.lt_or_ge a σ.length with h1 | h1
      · exact h1
      · rw [List.get?_eq_none.mpr h1] at hg
        exact absurd hg (by simp)
    omega
  constructor
  · intro σ' out h
    obtain ⟨step, hge⟩ := hdecorate_serialized_frame σ.length fuel
      revH TYPE req s σ σ' out hrok h
    exact ⟨step.1, hge⟩
  · intro σ' out h
    obtain ⟨step, hge⟩ := hlimit_fields_frame σ.length fuel
      req s σ σ' out hrok h
    exact ⟨step.1, hge⟩

/-- Witness for C10: decorating an article whose dict and nested
attributes dict live at cells 0–1 leaves both cells unchanged and
returns a reference into the fresh region. -/
theorem C10_no_input_mutation_witness :
    (∀ i, i < List.length
        [[("title", HVal.str "Hi")],
         [("id", HVal.str "1"), ("attributes", HVal.ref 0)]] →
      List.get?
        [[("title", HVal.str "Hi")],
         [("id", HVal.str "1"), ("attributes", HVal.ref 0)],
         [("title", HVal.str "Hi")],
         [("id", HVal.str "1"), ("attributes", HVal.ref 2),
          ("type", HVal.str "articles"), ("links", HVal.ref 4)],
         [("self", HVal.str "/articles_object/1")],
         [("title", HVal.str "Hi")],
         [("self", HVal.str "/articles_object/1")],
         [("id", HVal.str "1"), ("attributes", HVal.ref 5),
          ("type", HVal.str "articles"), ("links", HVal.ref 6)]] i =
      List.get?
        [[("title", HVal.str "Hi")],
         [("id", HVal.str "1"), ("attributes", HVal.ref 0)]] i) ∧
    hvalGE (List.length
        [[("title", HVal.str "Hi")],
         [("id", HVal.str "1"), ("attributes", HVal.ref 0)]])
      (HVal.ref 7) = true :=
  (C10_no_input_mutation 10
      (fun name v => some ("/" ++ name ++ "/" ++ hstr v)) "articles"
      ⟨"GET", "/articles/1", "", []⟩ (HVal.ref 1)
      [[("title", HVal.str "Hi")],
       [("id", HVal.str "1"), ("attributes", HVal.ref 0)]]).1
    [[("title", HVal.str "Hi")],
     [("id", HVal.str "1"), ("attributes", HVal.ref 0)],
     [("title", HVal.str "Hi")],
     [("id", HVal.str "1"), ("attributes", HVal.ref 2),
      ("type", HVal.str "articles"), ("links", HVal.ref 4)],
     [("self", HVal.str "/articles_object/1")],
     [("title", HVal.str "Hi")],
     [("self", HVal.str "/articles_object/1")],
     [("id", HVal.str "1"), ("attributes", HVal.ref 5),
      ("type", HVal.str "articles"), ("links", HVal.ref 6)]]
    (HVal.ref 7) rfl

end Djsonapi
